import Mathlib

/-!
# MultilinearReconstruction: single-image multilinear face reconstruction

A shallow embedding of `costfunctions.h` and `multilinearreconstructor.hpp`.

Conventions.

* Numbers. C++ `double`/`float` values are elements of a linearly ordered field `K`
  (exact arithmetic); results are stated for every such `K`, or for `ℝ` where a
  statement is about the real square root.  Rounding is not modelled.
* libm. `sqrt`, `sin`, `cos`, `tan` are passed as a record `Libm K`, so every definition is
  executable once the four functions are given.
* glm. The glm functions used by the sources (`eulerAngleYXZ`, `translate`, `perspective`,
  `project`, `dot`, `distance`, matrix products) are transcribed from the glm library.
* Containers. `std::vector` is `List`; an access by position outside the vector is
  undefined behaviour in C++ and makes the embedded function return `none`.
* External collaborators (tensor model, mesh, Ceres solver) are parameters.
-/

namespace MultilinearReconstruction

/-! ## glm -/

/-- The libm functions called by the sources and by glm. -/
structure Libm (K : Type) where
  sqrt : K → K
  sin : K → K
  cos : K → K
  tan : K → K

/-- The type `glm::dvec2` (also used for `glm::vec2`). -/
structure Vec2 (K : Type) where
  x : K
  y : K
deriving DecidableEq

/-- The type `glm::dvec3` (also used for Eigen `Vector3d`, components `[0] [1] [2]`). -/
structure Vec3 (K : Type) where
  x : K
  y : K
  z : K
deriving DecidableEq

/-- The type `glm::dvec4`. -/
structure Vec4 (K : Type) where
  x : K
  y : K
  z : K
  w : K
deriving DecidableEq

/-- The type `glm::dmat4`: four columns, `m[i]` is column `i`, `m[i][j]` is row `j` of it. -/
structure Mat4 (K : Type) where
  c0 : Vec4 K
  c1 : Vec4 K
  c2 : Vec4 K
  c3 : Vec4 K
deriving DecidableEq

/-- The type `glm::ivec4`. -/
structure IVec4 where
  x : Int
  y : Int
  z : Int
  w : Int
deriving DecidableEq

namespace glm

variable {K : Type} [LinearOrderedField K]

/-- Componentwise sum of two `dvec4`. -/
def add4 (a b : Vec4 K) : Vec4 K := ⟨a.x + b.x, a.y + b.y, a.z + b.z, a.w + b.w⟩

/-- A `dvec4` times a scalar. -/
def smul4 (a : Vec4 K) (s : K) : Vec4 K := ⟨a.x * s, a.y * s, a.z * s, a.w * s⟩

/-- The product `m * v` of a `dmat4` and a `dvec4`: the combination of the columns of `m`. -/
def mulVec (m : Mat4 K) (v : Vec4 K) : Vec4 K :=
  add4 (add4 (add4 (smul4 m.c0 v.x) (smul4 m.c1 v.y)) (smul4 m.c2 v.z)) (smul4 m.c3 v.w)

/-- The product `a * b` of two `dmat4`: column `i` of the result is `a * b[i]`. -/
def mul (a b : Mat4 K) : Mat4 K :=
  ⟨mulVec a b.c0, mulVec a b.c1, mulVec a b.c2, mulVec a b.c3⟩

/-- The matrix `glm::dmat4(1.0)`. -/
def identity : Mat4 K := ⟨⟨1, 0, 0, 0⟩, ⟨0, 1, 0, 0⟩, ⟨0, 0, 1, 0⟩, ⟨0, 0, 0, 1⟩⟩

/-- The function `glm::translate(m, v)`: `Result = m; Result[3] = m[0]*v[0] + m[1]*v[1] + m[2]*v[2] + m[3]`. -/
def translate (m : Mat4 K) (v : Vec3 K) : Mat4 K :=
  { m with c3 := add4 (add4 (add4 (smul4 m.c0 v.x) (smul4 m.c1 v.y)) (smul4 m.c2 v.z)) m.c3 }

/-- The function `glm::eulerAngleYXZ(yaw, pitch, roll)`. -/
def eulerAngleYXZ (lm : Libm K) (yaw pitch roll : K) : Mat4 K :=
  let tmp_ch := lm.cos yaw
  let tmp_sh := lm.sin yaw
  let tmp_cp := lm.cos pitch
  let tmp_sp := lm.sin pitch
  let tmp_cb := lm.cos roll
  let tmp_sb := lm.sin roll
  { c0 := ⟨tmp_ch * tmp_cb + tmp_sh * tmp_sp * tmp_sb,
           tmp_sb * tmp_cp,
           -tmp_sh * tmp_cb + tmp_ch * tmp_sp * tmp_sb,
           0⟩
    c1 := ⟨-tmp_ch * tmp_sb + tmp_sh * tmp_sp * tmp_cb,
           tmp_cb * tmp_cp,
           tmp_sb * tmp_sh + tmp_ch * tmp_sp * tmp_cb,
           0⟩
    c2 := ⟨tmp_sh * tmp_cp, -tmp_sp, tmp_ch * tmp_cp, 0⟩
    c3 := ⟨0, 0, 0, 1⟩ }

/-- The function `glm::perspective(fovy, aspect, zNear, zFar)` (right-handed, depth in `[-1, 1]`).
Releases of glm before 0.9.6 first convert `fovy` from degrees to radians; nothing proved below
depends on the value of the tangent. -/
def perspective (lm : Libm K) (fovy aspect zNear zFar : K) : Mat4 K :=
  let tanHalfFovy := lm.tan (fovy / 2)
  { c0 := ⟨1 / (aspect * tanHalfFovy), 0, 0, 0⟩
    c1 := ⟨0, 1 / tanHalfFovy, 0, 0⟩
    c2 := ⟨0, 0, -(zFar + zNear) / (zFar - zNear), -1⟩
    c3 := ⟨0, 0, -(2 * zFar * zNear) / (zFar - zNear), 0⟩ }

/-- The function `glm::project(obj, model, proj, viewport)`. -/
def project (obj : Vec3 K) (model proj : Mat4 K) (viewport : IVec4) : Vec3 K :=
  let tmp : Vec4 K := ⟨obj.x, obj.y, obj.z, 1⟩
  let tmp := mulVec model tmp
  let tmp := mulVec proj tmp
  let tmp : Vec4 K := ⟨tmp.x / tmp.w, tmp.y / tmp.w, tmp.z / tmp.w, tmp.w / tmp.w⟩
  let tmp : Vec4 K := ⟨tmp.x * (1 / 2) + 1 / 2, tmp.y * (1 / 2) + 1 / 2, tmp.z * (1 / 2) + 1 / 2,
    tmp.w * (1 / 2) + 1 / 2⟩
  ⟨tmp.x * (viewport.z : K) + (viewport.x : K), tmp.y * (viewport.w : K) + (viewport.y : K), tmp.z⟩

/-- The function `glm::dot` on `dvec3`. -/
def dot (a b : Vec3 K) : K := a.x * b.x + a.y * b.y + a.z * b.z

/-- The function `glm::distance` on `dvec2`: the length of `p1 - p0`. -/
def distance (lm : Libm K) (p0 p1 : Vec2 K) : K :=
  lm.sqrt ((p1.x - p0.x) * (p1.x - p0.x) + (p1.y - p0.y) * (p1.y - p0.y))

end glm

/-! ## costfunctions.h -/

section CostFunctions

variable {K : Type} [LinearOrderedField K] [FloorRing K]

/-- The record `CameraParameters` (declared in `parameters.h`); all three fields are `glm::vec2`. -/
structure CameraParameters (K : Type) where
  focal_length : Vec2 K
  image_plane_center : Vec2 K
  image_size : Vec2 K

/-- The record `Constraint2D` (declared in `constraints.h`): observed pixel position, weight and
bound vertex index. -/
structure Constraint2D (K : Type) where
  data : Vec2 K
  weight : K
  vidx : Int
deriving DecidableEq

/-- Conversion of a floating-point value to `int` (truncation toward zero), as performed by the
constructor of `glm::ivec4`. -/
def toInt (x : K) : Int := if 0 ≤ x then ⌊x⌋ else ⌈x⌉

/-- The function `ProjectPoint` of `costfunctions.h`. -/
def ProjectPoint (lm : Libm K) (p : Vec3 K) (Mview : Mat4 K) (cam_params : CameraParameters K) :
    Vec3 K :=
  let Mproj := glm.perspective lm 45 (cam_params.image_size.x / cam_params.image_size.y) 1 10
  let viewport : IVec4 := ⟨0, 0, toInt cam_params.image_size.x, toInt cam_params.image_size.y⟩
  glm.project p Mview Mproj viewport

/-- The external tensor model `MultilinearModel` (declared in `multilinearmodel.h`), given by
the member functions the sources call. `GetTM` yields the flat geometry vector, read by position. -/
structure ModelOps (K Model : Type) (nId nExp : Nat) where
  ApplyWeights : Model → (Fin nId → K) → (Fin nExp → K) → Model
  UpdateTMWithTM0 : Model → (Fin nExp → K) → Model
  UpdateTMWithTM1 : Model → (Fin nId → K) → Model
  project : Model → List Int → Model
  GetTM : Model → Nat → K

/-- The functor `PoseCostFunction`. -/
structure PoseCostFunction (K Model : Type) where
  model : Model
  constraint : Constraint2D K
  cam_params : CameraParameters K

/-- The member `PoseCostFunction::operator()`: the returned flag and the residuals written. -/
def PoseCostFunction.call {Model : Type} {nId nExp : Nat} (lm : Libm K)
    (mo : ModelOps K Model nId nExp) (f : PoseCostFunction K Model) (params : Fin 6 → K) :
    Bool × List K :=
  let tm := mo.GetTM f.model
  let p : Vec3 K := ⟨tm 0, tm 1, tm 2⟩
  let Rmat := glm.eulerAngleYXZ lm (params 0) (params 1) (params 2)
  let Tmat := glm.translate glm.identity ⟨params 3, params 4, params 5⟩
  let Mview := glm.mul Tmat Rmat
  let q := ProjectPoint lm p Mview f.cam_params
  (true, [(q.x - f.constraint.data.x) * f.constraint.weight,
          (q.y - f.constraint.data.y) * f.constraint.weight])

/-- The functor `IdentityCostFunction`. -/
structure IdentityCostFunction (K Model : Type) where
  model : Model
  params_length : Nat
  constraint : Constraint2D K
  Mview : Mat4 K
  cam_params : CameraParameters K

/-- The member `IdentityCostFunction::operator()`: flag, residuals, and the functor with its
`mutable` model updated. -/
def IdentityCostFunction.call {Model : Type} {nId nExp : Nat} (lm : Libm K)
    (mo : ModelOps K Model nId nExp) (f : IdentityCostFunction K Model) (wid : Fin nId → K) :
    Bool × List K × IdentityCostFunction K Model :=
  let model := mo.UpdateTMWithTM1 f.model wid
  let tm := mo.GetTM model
  let q := ProjectPoint lm ⟨tm 0, tm 1, tm 2⟩ f.Mview f.cam_params
  (true, [(q.x - f.constraint.data.x) * f.constraint.weight,
          (q.y - f.constraint.data.y) * f.constraint.weight], { f with model := model })

/-- The functor `ExpressionCostFunction`. -/
structure ExpressionCostFunction (K Model : Type) (nFACS nExp : Nat) where
  model : Model
  params_length : Nat
  constraint : Constraint2D K
  Mview : Mat4 K
  Uexp : Matrix (Fin nFACS) (Fin nExp) K
  cam_params : CameraParameters K

/-- The member `ExpressionCostFunction::operator()`. -/
def ExpressionCostFunction.call {Model : Type} {nId nFACS nExp : Nat} (lm : Libm K)
    (mo : ModelOps K Model nId nExp) (f : ExpressionCostFunction K Model nFACS nExp)
    (wexp : Fin nFACS → K) : Bool × List K × ExpressionCostFunction K Model nFACS nExp :=
  let weights := Matrix.vecMul wexp f.Uexp
  let model := mo.UpdateTMWithTM0 f.model weights
  let tm := mo.GetTM model
  let p : Vec3 K := ⟨tm 0, tm 1, tm 2⟩
  let q := ProjectPoint lm p f.Mview f.cam_params
  (true, [(q.x - f.constraint.data.x) * f.constraint.weight,
          (q.y - f.constraint.data.y) * f.constraint.weight], { f with model := model })

/-- The functor `PriorCostFunction`; `n` is `prior_vec.size()`. -/
structure PriorCostFunction (K : Type) (n : Nat) where
  prior_vec : Fin n → K
  inv_cov_mat : Matrix (Fin n) (Fin n) K
  weight : K

/-- The member `PriorCostFunction::operator()`. The C++ expression
`weight * diff.transpose() * (inv_cov_mat * diff)` associates to the left. -/
def PriorCostFunction.call {n : Nat} (lm : Libm K) (f : PriorCostFunction K n) (w : Fin n → K) :
    Bool × List K :=
  let diff := w - f.prior_vec
  (true, [lm.sqrt (Matrix.dotProduct (f.weight • diff) (f.inv_cov_mat.mulVec diff))])

/-- The functor `ExpressionPriorCostFunction`, known here only through the arguments its
constructor receives in `OptimizeForExpression`. -/
structure ExpressionPriorCostFunction (K : Type) (nFACS nExp : Nat) where
  prior_vec : Fin nExp → K
  inv_cov_mat : Matrix (Fin nExp) (Fin nExp) K
  Uexp : Matrix (Fin nFACS) (Fin nExp) K
  weight : K

end CostFunctions

/-! ## multilinearreconstructor.hpp: data -/

/-- The constant `ModelParameters::nFACSDim`. -/
def nFACSDim : Nat := 47

/-- The record `ModelParameters`. `Wid` has the dimension of the identity prior and `Wexp` the
number of columns of `Uexp`, as the assignments in `Reconstruct` make them. -/
structure ModelParameters (K : Type) (nId nExp : Nat) where
  Wid : Fin nId → K
  Wexp : Fin nExp → K
  Wexp_FACS : Fin nFACSDim → K
  R : Vec3 K
  T : Vec3 K

/-- The record `ReconstructionParameters<Constraint>` at `Constraint = Constraint2D`. -/
structure ReconstructionParameters (K : Type) where
  imageWidth : Int
  imageHeight : Int
  cons : List (Constraint2D K)

/-- The record `MultilinearModelPrior`. The Eigen products in the sources require `Uexp` to
have `nFACSDim` rows; `Uid`, `Wid0`, `Wexp0` and the covariances are never read by the
reconstructor. -/
structure MultilinearModelPrior (K : Type) (nId nExp : Nat) where
  Wid_avg : Fin nId → K
  Wexp_avg : Fin nExp → K
  Wid0 : Fin nId → K
  Wexp0 : Fin nExp → K
  Uexp : Matrix (Fin nFACSDim) (Fin nExp) K
  sigma_Wid : Matrix (Fin nId) (Fin nId) K
  sigma_Wexp : Matrix (Fin nExp) (Fin nExp) K
  inv_sigma_Wid : Matrix (Fin nId) (Fin nId) K
  inv_sigma_Wexp : Matrix (Fin nExp) (Fin nExp) K
  weight_Wid : K
  weight_Wexp : K

/-- The record `OptimizationParameters`. -/
structure OptimizationParameters (K : Type) where
  maxIters : Int
  errorThreshold : K
  errorDiffThreshold : K

/-- The external mesh `BasicMesh` (declared in `basicmesh.h`), given by the member functions
the sources call. -/
structure MeshOps (K Mesh : Type) where
  UpdateVertices : Mesh → (Nat → K) → Mesh
  ComputeNormals : Mesh → Mesh
  vertex : Mesh → Int → Vec3 K
  vertex_normal : Mesh → Int → Vec3 K

/-- The calls recorded in the run log: the solver calls with their iteration cap (and the weight
given to the prior residual), the calls into the model and the mesh, and the end of the
initialisation, of `UpdateContourIndices` and of the weight adjustment. -/
inductive Call (K : Type) where
  | initialized : Call K
  | pose (max_num_iterations : Nat) : Call K
  | expression (max_num_iterations : Nat) (prior_weight : K) : Call K
  | identity (max_num_iterations : Nat) (prior_weight : K) : Call K
  | applyWeights : Call K
  | updateMesh : Call K
  | updateContourIndices : Call K
  | adjustWeights : Call K
deriving DecidableEq

/-- The part of the reconstructor state recorded with each log entry. -/
structure Snapshot (K : Type) (nId nExp : Nat) where
  params_model : ModelParameters K nId nExp
  cons : List (Constraint2D K)
  indices : List Int
  weight_Wid : K
  weight_Wexp : K

/-- A log entry: a call and the state right after it. -/
structure Event (K : Type) (nId nExp : Nat) where
  call : Call K
  after : Snapshot K nId nExp

/-- The data members of `SingleImageReconstructor<Constraint2D>`, and the run log (a ghost
field: no code reads it, except that the solver may depend on it). -/
structure SingleImageReconstructor (K Model Mesh : Type) (nId nExp : Nat) where
  model : Model
  model_projected : Model
  indices : List Int
  contour_indices : List (List Int)
  prior : MultilinearModelPrior K nId nExp
  mesh : Mesh
  params_cam : CameraParameters K
  params_model : ModelParameters K nId nExp
  params_recon : ReconstructionParameters K
  params_opt : OptimizationParameters K
  log : List (Event K nId nExp)

/-- The Ceres problem built by `OptimizeForPose`. -/
structure PoseProblem (K Model : Type) where
  blocks : List (PoseCostFunction K Model)
  params : Fin 6 → K
  max_num_iterations : Nat

/-- The Ceres problem built by `OptimizeForExpression`. -/
structure ExpressionProblem (K Model : Type) (nExp : Nat) where
  blocks : List (ExpressionCostFunction K Model nFACSDim nExp)
  prior_cost_function : ExpressionPriorCostFunction K nFACSDim nExp
  params : Fin nFACSDim → K
  lower_bound : K
  upper_bound : K
  max_num_iterations : Nat

/-- The Ceres problem built by `OptimizeForIdentity`. -/
structure IdentityProblem (K Model : Type) (nId : Nat) where
  blocks : List (IdentityCostFunction K Model)
  prior_cost_function : PriorCostFunction K nId
  params : Fin nId → K
  max_num_iterations : Nat

/-- The external solver (`ceres::Solve`), as an oracle: the parameter block it leaves behind may
depend in any way on the problem and on the reconstructor state, run log included. -/
structure Solver (K Model Mesh : Type) (nId nExp : Nat) where
  pose : SingleImageReconstructor K Model Mesh nId nExp → PoseProblem K Model → Fin 6 → K
  expression : SingleImageReconstructor K Model Mesh nId nExp → ExpressionProblem K Model nExp →
    Fin nFACSDim → K
  identity : SingleImageReconstructor K Model Mesh nId nExp → IdentityProblem K Model nId →
    Fin nId → K

/-- Everything external to the two source files. -/
structure Env (K Model Mesh : Type) (nId nExp : Nat) where
  lm : Libm K
  model : ModelOps K Model nId nExp
  mesh : MeshOps K Mesh
  solver : Solver K Model Mesh nId nExp

/-! ## multilinearreconstructor.hpp: operations -/

section Reconstructor

variable {K Model Mesh : Type} {nId nExp : Nat} [LinearOrderedField K] [FloorRing K]

/-- Assignment `v[i] = a` into a vector: undefined (`none`) outside the vector. -/
def setAt? {α : Type} (v : List α) (i : Nat) (a : α) : Option (List α) :=
  if i < v.length then some (v.set i a) else none

/-- Update `v[i].field = ...` of one element of a vector: undefined (`none`) outside the vector. -/
def modifyAt? {α : Type} (v : List α) (i : Nat) (f : α → α) : Option (List α) :=
  match v[i]? with
  | some a => some (v.set i (f a))
  | none => none

/-- The scan of `std::min_element` after its first element: `i` is the position of the element
examined next, `smallest` and `val` the position and value of the smallest element so far. -/
def min_element_loop : List K → Nat → Nat → K → Nat
  | [], _, smallest, _ => smallest
  | x :: rest, i, smallest, val =>
    if x < val then min_element_loop rest (i + 1) i x
    else min_element_loop rest (i + 1) smallest val

/-- The algorithm `std::min_element(v.begin(), v.end()) - v.begin()`: the position of the first
smallest element; on an empty vector the iterator returned is `end()`, at distance `0`. -/
def min_element : List K → Nat
  | [] => 0
  | x :: rest => min_element_loop rest 1 0 x

/-- The state recorded with a log entry. -/
def SingleImageReconstructor.snapshot (s : SingleImageReconstructor K Model Mesh nId nExp) :
    Snapshot K nId nExp :=
  ⟨s.params_model, s.params_recon.cons, s.indices, s.prior.weight_Wid, s.prior.weight_Wexp⟩

/-- Append a call, with the current state, to the run log. -/
def SingleImageReconstructor.emit (s : SingleImageReconstructor K Model Mesh nId nExp)
    (c : Call K) : SingleImageReconstructor K Model Mesh nId nExp :=
  { s with log := s.log ++ [⟨c, s.snapshot⟩] }

/-- The view matrix `Tmat * Rmat` built at the head of `OptimizeForExpression`,
`OptimizeForIdentity` and `UpdateContourIndices`. -/
def viewMatrix (lm : Libm K) (R T : Vec3 K) : Mat4 K :=
  let Rmat := glm.eulerAngleYXZ lm R.x R.y R.z
  let Tmat := glm.translate glm.identity ⟨T.x, T.y, T.z⟩
  glm.mul Tmat Rmat

/-- The value `prior_scale` of `OptimizeForExpression` and `OptimizeForIdentity`: the distance
between the midpoints of constraints 28, 30 and 32, 34, over 100. -/
def priorScale (lm : Libm K) (cons : List (Constraint2D K)) : Option K := do
  let c28 ← cons[28]?
  let c30 ← cons[30]?
  let c32 ← cons[32]?
  let c34 ← cons[34]?
  let a : Vec2 K := ⟨(1 / 2) * (c28.data.x + c30.data.x), (1 / 2) * (c28.data.y + c30.data.y)⟩
  let b : Vec2 K := ⟨(1 / 2) * (c32.data.x + c34.data.x), (1 / 2) * (c32.data.y + c34.data.y)⟩
  let puple_distance := glm.distance lm a b
  pure (puple_distance / 100)

/-- The member `OptimizeForPose`. -/
def OptimizeForPose (env : Env K Model Mesh nId nExp) (max_iters : Nat)
    (s : SingleImageReconstructor K Model Mesh nId nExp) :
    Option (SingleImageReconstructor K Model Mesh nId nExp) := do
  let params : Fin 6 → K := ![s.params_model.R.x, s.params_model.R.y, s.params_model.R.z,
    s.params_model.T.x, s.params_model.T.y, s.params_model.T.z]
  let blocks ← (List.range s.indices.length).mapM (fun i => do
    let idx ← s.indices[i]?
    let model_i := env.model.project s.model [idx]
    let model_i := env.model.ApplyWeights model_i s.params_model.Wid s.params_model.Wexp
    let c ← s.params_recon.cons[i]?
    pure (⟨model_i, c, s.params_cam⟩ : PoseCostFunction K Model))
  let problem : PoseProblem K Model := ⟨blocks, params, max_iters⟩
  let params := env.solver.pose s problem
  let newR : Vec3 K := ⟨params 0, params 1, params 2⟩
  let newT : Vec3 K := ⟨params 3, params 4, params 5⟩
  pure ({ s with params_model := { s.params_model with R := newR, T := newT } }.emit
    (.pose problem.max_num_iterations))

/-- The member `OptimizeForExpression`. -/
def OptimizeForExpression (env : Env K Model Mesh nId nExp) (iteration : Nat)
    (s : SingleImageReconstructor K Model Mesh nId nExp) :
    Option (SingleImageReconstructor K Model Mesh nId nExp) := do
  let Mview := viewMatrix env.lm s.params_model.R s.params_model.T
  let params := s.params_model.Wexp_FACS
  let prior_scale ← priorScale env.lm s.params_recon.cons
  let blocks ← (List.range s.indices.length).mapM (fun i => do
    let idx ← s.indices[i]?
    let model_i := env.model.project s.model [idx]
    let model_i := env.model.ApplyWeights model_i s.params_model.Wid s.params_model.Wexp
    let c ← s.params_recon.cons[i]?
    pure (⟨model_i, nFACSDim, c, Mview, s.prior.Uexp, s.params_cam⟩ :
      ExpressionCostFunction K Model nFACSDim nExp))
  let prior_cost_function : ExpressionPriorCostFunction K nFACSDim nExp :=
    ⟨s.prior.Wexp_avg, s.prior.inv_sigma_Wexp, s.prior.Uexp, s.prior.weight_Wexp * prior_scale⟩
  let problem : ExpressionProblem K Model nExp :=
    ⟨blocks, prior_cost_function, params, -1, 1, iteration * 5⟩
  let params := env.solver.expression s problem
  pure ({ s with params_model := { s.params_model with
      Wexp_FACS := params, Wexp := Matrix.vecMul params s.prior.Uexp } }.emit
    (.expression problem.max_num_iterations problem.prior_cost_function.weight))

/-- The member `OptimizeForIdentity`. -/
def OptimizeForIdentity (env : Env K Model Mesh nId nExp) (iteration : Nat)
    (s : SingleImageReconstructor K Model Mesh nId nExp) :
    Option (SingleImageReconstructor K Model Mesh nId nExp) := do
  let Mview := viewMatrix env.lm s.params_model.R s.params_model.T
  let params := s.params_model.Wid
  let prior_scale ← priorScale env.lm s.params_recon.cons
  let blocks ← (List.range s.indices.length).mapM (fun i => do
    let idx ← s.indices[i]?
    let model_i := env.model.project s.model [idx]
    let model_i := env.model.ApplyWeights model_i s.params_model.Wid s.params_model.Wexp
    let c ← s.params_recon.cons[i]?
    pure (⟨model_i, nId, c, Mview, s.params_cam⟩ : IdentityCostFunction K Model))
  let prior_cost_function : PriorCostFunction K nId :=
    ⟨s.prior.Wid_avg, s.prior.inv_sigma_Wid, s.prior.weight_Wid * prior_scale⟩
  let problem : IdentityProblem K Model nId :=
    ⟨blocks, prior_cost_function, params, iteration * 5⟩
  let params := env.solver.identity s problem
  pure ({ s with params_model := { s.params_model with Wid := params } }.emit
    (.identity problem.max_num_iterations problem.prior_cost_function.weight))

/-- The body of the loop over the contour groups in `UpdateContourIndices`, for one group
`contour_indices[j]`: the candidates this group appends.  The position `size() - 1` is
computed only after `contour_indices[j][min_idx]` has been read; the product `Mview * p0`,
which the source computes and never uses, is left out. -/
def groupCandidates (env : Env K Model Mesh nId nExp) (mesh : Mesh) (Rmat : Mat4 K)
    (group : List Int) : Option (List (Int × Vec4 K)) := do
  let dot_products : List K := group.map (fun v =>
    let n0 := env.mesh.vertex_normal mesh v
    let n := glm.mulVec Rmat ⟨n0.x, n0.y, n0.z, 1⟩
    |glm.dot ⟨n.x, n.y, n.z⟩ ⟨0, 0, 1⟩|)
  let contour_vertices : List (Vec4 K) := group.map (fun v =>
    let v_ji := env.mesh.vertex mesh v
    ⟨v_ji.x, v_ji.y, v_ji.z, 1⟩)
  let min_idx := min_element dot_products
  let v ← group[min_idx]?
  let p ← contour_vertices[min_idx]?
  let first := [(v, p)]
  let prev ← if 0 < min_idx then do
      let v1 ← group[min_idx - 1]?
      let v_ji1 := env.mesh.vertex mesh v1
      pure [(v1, (⟨v_ji1.x, v_ji1.y, v_ji1.z, 1⟩ : Vec4 K))]
    else pure []
  let next ← if min_idx < group.length - 1 then do
      let v1 ← group[min_idx + 1]?
      let v_ji1 := env.mesh.vertex mesh v1
      pure [(v1, (⟨v_ji1.x, v_ji1.y, v_ji1.z, 1⟩ : Vec4 K))]
    else pure []
  pure (first ++ prev ++ next)

/-- The loop over the contour groups in `UpdateContourIndices`: the vector `candidates`. -/
def collectCandidates (env : Env K Model Mesh nId nExp) (mesh : Mesh) (Rmat : Mat4 K)
    (contour_indices : List (List Int)) : Option (List (Int × Vec4 K)) :=
  contour_indices.foldlM (fun candidates group => do
    let added ← groupCandidates env mesh Rmat group
    pure (candidates ++ added)) []

/-- The constant `num_contour_points`. -/
def num_contour_points : Nat := 15

/-- The constant `min_acceptable_dist`. -/
def min_acceptable_dist : K := 100

/-- The body of the loop over the contour constraints in `UpdateContourIndices`, for
constraint `i`, acting on the pair `(indices, params_recon.cons)`. -/
def rebindContour (lm : Libm K) (candidates : List (Int × Vec4 K))
    (projected_points : List (Vec3 K)) (st : List Int × List (Constraint2D K)) (i : Nat) :
    Option (List Int × List (Constraint2D K)) := do
  let dists ← projected_points.mapM (fun pj => do
    let c ← st.2[i]?
    let dx := pj.x - c.data.x
    let dy := pj.y - c.data.y
    pure (dx * dx + dy * dy))
  let min_iter := min_element dists
  let d ← dists[min_iter]?
  if lm.sqrt d > min_acceptable_dist then
    pure st
  else do
    let cand ← candidates[min_iter]?
    let indices ← setAt? st.1 i cand.1
    let cand ← candidates[min_iter]?
    let cons ← modifyAt? st.2 i (fun c => { c with vidx := cand.1 })
    pure (indices, cons)

/-- The member `UpdateContourIndices`. -/
def UpdateContourIndices (env : Env K Model Mesh nId nExp)
    (s : SingleImageReconstructor K Model Mesh nId nExp) :
    Option (SingleImageReconstructor K Model Mesh nId nExp) := do
  let Rmat := glm.eulerAngleYXZ env.lm s.params_model.R.x s.params_model.R.y s.params_model.R.z
  let Mview := viewMatrix env.lm s.params_model.R s.params_model.T
  let candidates ← collectCandidates env s.mesh Rmat s.contour_indices
  let projected_points := candidates.map (fun c =>
    ProjectPoint env.lm ⟨c.2.x, c.2.y, c.2.z⟩ Mview s.params_cam)
  let st ← (List.range num_contour_points).foldlM
    (rebindContour env.lm candidates projected_points) (s.indices, s.params_recon.cons)
  pure ({ s with indices := st.1, params_recon := { s.params_recon with cons := st.2 } }.emit
    .updateContourIndices)

/-- The constant `kMaxIterations`. -/
def kMaxIterations : Nat := 8

/-- The body of the `while` loop of `Reconstruct`; `iters` is the counter after its increment. -/
def outerIteration (env : Env K Model Mesh nId nExp) (iters : Nat)
    (s : SingleImageReconstructor K Model Mesh nId nExp) :
    Option (SingleImageReconstructor K Model Mesh nId nExp) := do
  let s ← OptimizeForPose env 30 s
  let s ← OptimizeForExpression env iters s
  let s ← OptimizeForPose env 30 s
  let s ← OptimizeForIdentity env iters s
  let s ← OptimizeForPose env 30 s
  let s := { s with model :=
    env.model.ApplyWeights s.model s.params_model.Wid s.params_model.Wexp }.emit .applyWeights
  let s := { s with mesh := env.mesh.UpdateVertices s.mesh (env.model.GetTM s.model) }
  let s := { s with mesh := env.mesh.ComputeNormals s.mesh }.emit .updateMesh
  let s ← UpdateContourIndices env s
  -- Adjust weights
  let s := { s with prior := { s.prior with weight_Wid := s.prior.weight_Wid - 1 } }
  let s := { s with prior := { s.prior with weight_Wexp := s.prior.weight_Wexp - 1 / 100 } }
  let cons ← (List.range num_contour_points).foldlM (fun cons i =>
    modifyAt? cons i (fun c => { c with weight := env.lm.sqrt c.weight })) s.params_recon.cons
  pure ({ s with params_recon := { s.params_recon with cons := cons } }.emit .adjustWeights)

/-- The loop `while( iters++ < kMaxIterations )` of `Reconstruct`, entered with counter `iters`. -/
def outerLoop (env : Env K Model Mesh nId nExp) (iters : Nat)
    (s : SingleImageReconstructor K Model Mesh nId nExp) :
    Option (SingleImageReconstructor K Model Mesh nId nExp) :=
  if _h : iters < kMaxIterations then
    match outerIteration env (iters + 1) s with
    | some s => outerLoop env (iters + 1) s
    | none => none
  else some s
termination_by kMaxIterations - iters
decreasing_by omega

/-- The initialisation block of `Reconstruct` (everything before the `while` loop). -/
def initReconstruct (env : Env K Model Mesh nId nExp)
    (s : SingleImageReconstructor K Model Mesh nId nExp) :
    Option (SingleImageReconstructor K Model Mesh nId nExp) := do
  -- Camera parameters
  let cam : CameraParameters K :=
    { focal_length := ⟨1000, 1000⟩
      image_plane_center := ⟨(s.params_recon.imageWidth : K) * (1 / 2),
                             (s.params_recon.imageHeight : K) * (1 / 2)⟩
      image_size := ⟨(s.params_recon.imageWidth : K), (s.params_recon.imageHeight : K)⟩ }
  let s := { s with params_cam := cam }
  -- Make a neutral face
  let Wexp_FACS : Fin nFACSDim → K := fun i => if i.val = 0 then 1 else 1 / 1000000
  let s := { s with params_model := { s.params_model with
    Wexp_FACS := Wexp_FACS, Wexp := Matrix.vecMul Wexp_FACS s.prior.Uexp } }
  -- Use average identity
  let s := { s with params_model := { s.params_model with Wid := s.prior.Wid_avg } }
  -- No rotation and translation
  let s := { s with params_model := { s.params_model with R := ⟨0, 0, 0⟩, T := ⟨0, 0, -1⟩ } }
  let s := { s with model :=
    env.model.ApplyWeights s.model s.params_model.Wid s.params_model.Wexp }.emit .applyWeights
  let cons ← (List.range s.indices.length).foldlM (fun cons i => do
    let idx ← s.indices[i]?
    modifyAt? cons i (fun c => { c with vidx := idx })) s.params_recon.cons
  -- Assign lower weights to contour points
  let cons ← (List.range num_contour_points).foldlM (fun cons i =>
    modifyAt? cons i (fun c => { c with weight := 9 / 10 })) cons
  let s := { s with params_recon := { s.params_recon with cons := cons } }
  let s := { s with prior := { s.prior with weight_Wid := 10, weight_Wexp := 1 / 10 } }
  pure (s.emit .initialized)

/-- The member `Reconstruct`: the returned flag and the reconstructor afterwards. -/
def Reconstruct (env : Env K Model Mesh nId nExp)
    (s : SingleImageReconstructor K Model Mesh nId nExp) :
    Option (Bool × SingleImageReconstructor K Model Mesh nId nExp) := do
  let s ← initReconstruct env s
  let s ← outerLoop env 0 s
  let s := { s with model :=
    env.model.ApplyWeights s.model s.params_model.Wid s.params_model.Wexp }.emit .applyWeights
  pure (true, s)

/-- The member `GetIndices`. -/
def GetIndices (s : SingleImageReconstructor K Model Mesh nId nExp) : List Int := s.indices

/-- The member `GetUpdatedIndices`. -/
def GetUpdatedIndices (s : SingleImageReconstructor K Model Mesh nId nExp) : List Int :=
  s.params_recon.cons.map (fun c => c.vidx)

end Reconstructor

/-! ## Definitions used to state the results -/

/-- Rotation about the x axis by an angle with the given cosine and sine, as a `dmat4`. -/
def rotationX {K : Type} [LinearOrderedField K] (lm : Libm K) (a : K) : Mat4 K :=
  ⟨⟨1, 0, 0, 0⟩, ⟨0, lm.cos a, lm.sin a, 0⟩, ⟨0, -lm.sin a, lm.cos a, 0⟩, ⟨0, 0, 0, 1⟩⟩

/-- Rotation about the y axis, as a `dmat4`. -/
def rotationY {K : Type} [LinearOrderedField K] (lm : Libm K) (a : K) : Mat4 K :=
  ⟨⟨lm.cos a, 0, -lm.sin a, 0⟩, ⟨0, 1, 0, 0⟩, ⟨lm.sin a, 0, lm.cos a, 0⟩, ⟨0, 0, 0, 1⟩⟩

/-- Rotation about the z axis, as a `dmat4`. -/
def rotationZ {K : Type} [LinearOrderedField K] (lm : Libm K) (a : K) : Mat4 K :=
  ⟨⟨lm.cos a, lm.sin a, 0, 0⟩, ⟨-lm.sin a, lm.cos a, 0, 0⟩, ⟨0, 0, 1, 0⟩, ⟨0, 0, 0, 1⟩⟩

/-- A rational stand-in for libm, used to run the definitions on examples: the square root is
exact on squares of rationals, and sine, cosine and tangent are Taylor polynomials, exact
at `0`. -/
def ratLibm : Libm ℚ :=
  { sqrt := fun x => (Nat.sqrt x.num.toNat : ℚ) / (Nat.sqrt x.den : ℚ)
    sin := fun x => x - x ^ 3 / 6
    cos := fun x => 1 - x ^ 2 / 2
    tan := fun x => x + x ^ 3 / 3 }

/-- Position `m` holds the first smallest element of `l`: it is in range, no element is smaller
than `l[m]`, and every element before it is larger. -/
def IsFirstMin {K : Type} [LinearOrderedField K] (l : List K) (m : Nat) : Prop :=
  ∃ u, l[m]? = some u ∧ ∀ i v, l[i]? = some v → u ≤ v ∧ (i < m → u < v)

/-- The absolute dot product between the rotated normal of vertex `v` and the axis `(0, 0, 1)`;
the normal is rotated as a direction (fourth coordinate `0`). -/
def rotatedNormalDot {K Model Mesh : Type} {nId nExp : Nat} [LinearOrderedField K]
    (env : Env K Model Mesh nId nExp) (mesh : Mesh) (Rmat : Mat4 K) (v : Int) : K :=
  |glm.dot
    ⟨(glm.mulVec Rmat ⟨(env.mesh.vertex_normal mesh v).x, (env.mesh.vertex_normal mesh v).y,
        (env.mesh.vertex_normal mesh v).z, 0⟩).x,
     (glm.mulVec Rmat ⟨(env.mesh.vertex_normal mesh v).x, (env.mesh.vertex_normal mesh v).y,
        (env.mesh.vertex_normal mesh v).z, 0⟩).y,
     (glm.mulVec Rmat ⟨(env.mesh.vertex_normal mesh v).x, (env.mesh.vertex_normal mesh v).y,
        (env.mesh.vertex_normal mesh v).z, 0⟩).z⟩
    ⟨0, 0, 1⟩|

/-- A vertex index paired with its current mesh position, as a homogeneous point. -/
def withMeshPosition {K Model Mesh : Type} {nId nExp : Nat} [LinearOrderedField K]
    (env : Env K Model Mesh nId nExp) (mesh : Mesh) (v : Int) : Int × Vec4 K :=
  (v, ⟨(env.mesh.vertex mesh v).x, (env.mesh.vertex mesh v).y, (env.mesh.vertex mesh v).z, 1⟩)

/-! ### An example configuration -/

/-- Example collaborators: a model and a mesh without state, every vertex at the origin with
normal `(0, 0, 1)`, and a solver that returns the parameters it was given (a solve that stops
at once). -/
def exampleEnv {K : Type} [LinearOrderedField K] (lm : Libm K) : Env K Unit Unit 1 1 :=
  { lm := lm
    model :=
      { ApplyWeights := fun _ _ _ => ()
        UpdateTMWithTM0 := fun _ _ => ()
        UpdateTMWithTM1 := fun _ _ => ()
        project := fun _ _ => ()
        GetTM := fun _ _ => 0 }
    mesh :=
      { UpdateVertices := fun _ _ => ()
        ComputeNormals := fun _ => ()
        vertex := fun _ _ => ⟨0, 0, 0⟩
        vertex_normal := fun _ _ => ⟨0, 0, 1⟩ }
    solver :=
      { pose := fun _ problem => problem.params
        expression := fun _ problem => problem.params
        identity := fun _ problem => problem.params } }

/-- Example reconstructor: a 640 by 480 image, the given landmark constraints, vertex indices
and contour groups, zero priors, and the camera and pose that `Reconstruct` starts from. -/
def exampleReconstructor {K : Type} [LinearOrderedField K] (cons : List (Constraint2D K))
    (indices : List Int) (contour_indices : List (List Int)) :
    SingleImageReconstructor K Unit Unit 1 1 :=
  { model := ()
    model_projected := ()
    indices := indices
    contour_indices := contour_indices
    prior :=
      { Wid_avg := 0, Wexp_avg := 0, Wid0 := 0, Wexp0 := 0, Uexp := 0, sigma_Wid := 0,
        sigma_Wexp := 0, inv_sigma_Wid := 0, inv_sigma_Wexp := 0, weight_Wid := 0,
        weight_Wexp := 0 }
    mesh := ()
    params_cam := ⟨⟨1000, 1000⟩, ⟨320, 240⟩, ⟨640, 480⟩⟩
    params_model := { Wid := 0, Wexp := 0, Wexp_FACS := 0, R := ⟨0, 0, 0⟩, T := ⟨0, 0, -1⟩ }
    params_recon := { imageWidth := 640, imageHeight := 480, cons := cons }
    params_opt := ⟨0, 0, 0⟩
    log := [] }

/-- The squared pixel distance `dx * dx + dy * dy` between a projected point and the observed
position of a constraint. -/
def pixelDistSq {K : Type} [LinearOrderedField K] (pj : Vec3 K) (c : Constraint2D K) : K :=
  (pj.x - c.data.x) * (pj.x - c.data.x) + (pj.y - c.data.y) * (pj.y - c.data.y)

/-- Every projected point lies more than `min_acceptable_dist` pixels (Euclidean distance) from
the observed position of the constraint. -/
def FarFrom {K : Type} [LinearOrderedField K] (lm : Libm K) (projected_points : List (Vec3 K))
    (c : Constraint2D K) : Prop :=
  ∀ pj ∈ projected_points, min_acceptable_dist < lm.sqrt (pixelDistSq pj c)

/-- The vector `candidates` that `UpdateContourIndices` builds in state `s`. -/
def contourCandidates {K Model Mesh : Type} {nId nExp : Nat} [LinearOrderedField K]
    (env : Env K Model Mesh nId nExp) (s : SingleImageReconstructor K Model Mesh nId nExp) :
    Option (List (Int × Vec4 K)) :=
  collectCandidates env s.mesh
    (glm.eulerAngleYXZ env.lm s.params_model.R.x s.params_model.R.y s.params_model.R.z)
    s.contour_indices

/-- The vector `projected_points` that `UpdateContourIndices` builds from `candidates`. -/
def projectCandidates {K Model Mesh : Type} {nId nExp : Nat} [LinearOrderedField K]
    [FloorRing K] (env : Env K Model Mesh nId nExp)
    (s : SingleImageReconstructor K Model Mesh nId nExp) (candidates : List (Int × Vec4 K)) :
    List (Vec3 K) :=
  candidates.map (fun c => ProjectPoint env.lm ⟨c.2.x, c.2.y, c.2.z⟩
    (viewMatrix env.lm s.params_model.R s.params_model.T) s.params_cam)

/-- Example constraints: 35 landmarks observed at pixel `(320, 440)`, with unit weight. -/
def farConstraints {K : Type} [LinearOrderedField K] : List (Constraint2D K) :=
  List.replicate 35 ⟨⟨320, 440⟩, 1, 0⟩

/-- The configuration `Reconstruct` relies on without checking it: at least 35 constraints, no
more vertex indices than constraints, at least 15 vertex indices, at least one contour group and
no empty contour group. -/
def WellFormed {K Model Mesh : Type} {nId nExp : Nat}
    (s : SingleImageReconstructor K Model Mesh nId nExp) : Prop :=
  35 ≤ s.params_recon.cons.length ∧ s.indices.length ≤ s.params_recon.cons.length ∧
  15 ≤ s.indices.length ∧ s.contour_indices ≠ [] ∧ ∀ g ∈ s.contour_indices, g ≠ []

/-- What the three solves and `UpdateContourIndices` all leave alone: the contour groups, the
sizes of the vectors, the observed positions and weights of the constraints, the priors and the
camera. -/
structure Frame {K Model Mesh : Type} {nId nExp : Nat}
    (s s' : SingleImageReconstructor K Model Mesh nId nExp) : Prop where
  contour_indices : s'.contour_indices = s.contour_indices
  indices_length : s'.indices.length = s.indices.length
  cons_length : s'.params_recon.cons.length = s.params_recon.cons.length
  data : s'.params_recon.cons.map (fun c => c.data) = s.params_recon.cons.map (fun c => c.data)
  weight : s'.params_recon.cons.map (fun c => c.weight) =
    s.params_recon.cons.map (fun c => c.weight)
  prior : s'.prior = s.prior
  params_cam : s'.params_cam = s.params_cam

/-! ### The expected run log -/

/-- What is observed of a log entry: the call, the two trust weights and the constraint
weights right after it. -/
def Event.obs {K : Type} {nId nExp : Nat} (e : Event K nId nExp) : Call K × K × K × List K :=
  (e.call, e.after.weight_Wid, e.after.weight_Wexp, e.after.cons.map (fun c => c.weight))

/-- The constraint weights after the initialisation: the first 15 are `0.9`. -/
def initialWeights {K : Type} [LinearOrderedField K] (W : List K) : List K :=
  (W.take num_contour_points).map (fun _ => 9 / 10) ++ W.drop num_contour_points

/-- One annealing step on the constraint weights: the first 15 are replaced by their square
roots. -/
def annealWeights {K : Type} (lm : Libm K) (W : List K) : List K :=
  (W.take num_contour_points).map lm.sqrt ++ W.drop num_contour_points

/-- The log entries of outer iteration `k`, entered with trust weights `wid`, `wexp` and
constraint weights `W`; `scale` is the value of `prior_scale`. -/
def iterationObs {K : Type} [LinearOrderedField K] (lm : Libm K) (scale : K) (k : Nat)
    (wid wexp : K) (W : List K) : List (Call K × K × K × List K) :=
  [(.pose 30, wid, wexp, W),
   (.expression (k * 5) (wexp * scale), wid, wexp, W),
   (.pose 30, wid, wexp, W),
   (.identity (k * 5) (wid * scale), wid, wexp, W),
   (.pose 30, wid, wexp, W),
   (.applyWeights, wid, wexp, W),
   (.updateMesh, wid, wexp, W),
   (.updateContourIndices, wid, wexp, W),
   (.adjustWeights, wid - 1, wexp - 1 / 100, annealWeights lm W)]

/-- The log entries of `n` successive outer iterations, the first one being iteration
`k + 1`. -/
def expectedIterations {K : Type} [LinearOrderedField K] (lm : Libm K) (scale : K) :
    Nat → Nat → K → K → List K → List (Call K × K × K × List K)
  | 0, _, _, _, _ => []
  | n + 1, k, wid, wexp, W =>
    iterationObs lm scale (k + 1) wid wexp W ++
      expectedIterations lm scale n (k + 1) (wid - 1) (wexp - 1 / 100) (annealWeights lm W)

/-- The trust weights and constraint weights after `n` outer iterations. -/
def annealed {K : Type} [LinearOrderedField K] (lm : Libm K) :
    Nat → K × K × List K → K × K × List K
  | 0, x => x
  | n + 1, x => annealed lm n (x.1 - 1, x.2.1 - 1 / 100, annealWeights lm x.2.2)

/-! ### The schedule of the outer loop -/

/-- A call without the weight given to the prior residual. -/
def Call.kind {K : Type} : Call K → Call Unit
  | .initialized => .initialized
  | .pose n => .pose n
  | .expression n _ => .expression n ()
  | .identity n _ => .identity n ()
  | .applyWeights => .applyWeights
  | .updateMesh => .updateMesh
  | .updateContourIndices => .updateContourIndices
  | .adjustWeights => .adjustWeights

/-- Outer iteration `k` as the specification describes it: pose solve, expression solve, pose
solve, identity solve, pose solve (pose solves capped at 30 iterations, the other two at
`5 * k`), geometry recomputation, mesh refresh, contour update, annealing. -/
def iterationSchedule (k : Nat) : List (Call Unit) :=
  [.pose 30, .expression (5 * k) (), .pose 30, .identity (5 * k) (), .pose 30, .applyWeights,
   .updateMesh, .updateContourIndices, .adjustWeights]

/-- The calls of a whole run: the initialisation (which computes the geometry once), outer
iterations 1 to 8, and one more computation of the geometry. -/
def reconstructSchedule : List (Call Unit) :=
  [.applyWeights, .initialized] ++ iterationSchedule 1 ++ iterationSchedule 2 ++
    iterationSchedule 3 ++ iterationSchedule 4 ++ iterationSchedule 5 ++ iterationSchedule 6 ++
    iterationSchedule 7 ++ iterationSchedule 8 ++ [.applyWeights]

/-- For the log entry of an identity solve: the identity trust weight at that solve and the
weight it passed to the prior residual. -/
def Event.identityTrust {K : Type} {nId nExp : Nat} (e : Event K nId nExp) : Option (K × K) :=
  match e.call with
  | .identity _ w => some (e.after.weight_Wid, w)
  | _ => none

/-- For the log entry of an expression solve: the expression trust weight at that solve and the
weight it passed to the prior residual. -/
def Event.expressionTrust {K : Type} {nId nExp : Nat} (e : Event K nId nExp) : Option (K × K) :=
  match e.call with
  | .expression _ w => some (e.after.weight_Wexp, w)
  | _ => none

/-- The native expression vector is the image of the reduced one under the basis matrix:
`Wexp = Wexp_FACS.transpose() * Uexp`. -/
def Consistent {K : Type} {nId nExp : Nat} [LinearOrderedField K]
    (Uexp : Matrix (Fin nFACSDim) (Fin nExp) K) (pm : ModelParameters K nId nExp) : Prop :=
  pm.Wexp = Matrix.vecMul pm.Wexp_FACS Uexp

/-- The expression vectors are consistent in state `s` and in every log entry written since
the log was `log0`, and the basis matrix is `Uexp`. -/
def ConsistentSince {K Model Mesh : Type} {nId nExp : Nat} [LinearOrderedField K]
    (Uexp : Matrix (Fin nFACSDim) (Fin nExp) K) (log0 : List (Event K nId nExp))
    (s : SingleImageReconstructor K Model Mesh nId nExp) : Prop :=
  ∃ L, s.log = log0 ++ L ∧ (∀ e ∈ L, Consistent Uexp e.after.params_model) ∧
    Consistent Uexp s.params_model ∧ s.prior.Uexp = Uexp

/-- For the log entries that end the initialisation or a weight adjustment: the constraint
weights at that point. -/
def Event.checkpoint {K : Type} {nId nExp : Nat} (e : Event K nId nExp) : Option (List K) :=
  match e.call with
  | .initialized => some (e.after.cons.map (fun c => c.weight))
  | .adjustWeights => some (e.after.cons.map (fun c => c.weight))
  | _ => none

/-- Binding consistency: at every position of the indices list the constraint's vertex index
is the entry of the indices list. -/
def Bound {K : Type} (indices : List Int) (cons : List (Constraint2D K)) : Prop :=
  ∀ i : Nat, i < indices.length → (cons[i]?).map (fun c => c.vidx) = indices[i]?

/-- The bindings are consistent in state `s` and in every log entry written since the log
was `log0`. -/
def BoundSince {K Model Mesh : Type} {nId nExp : Nat} (log0 : List (Event K nId nExp))
    (s : SingleImageReconstructor K Model Mesh nId nExp) : Prop :=
  ∃ L, s.log = log0 ++ L ∧ (∀ e ∈ L, Bound e.after.indices e.after.cons) ∧
    Bound s.indices s.params_recon.cons

/-- Example constraints: 35 landmarks observed at the image centre `(320, 240)`, with unit
weight, bound to vertex `7`. -/
def nearConstraints {K : Type} [LinearOrderedField K] : List (Constraint2D K) :=
  List.replicate 35 ⟨⟨320, 240⟩, 1, 7⟩

/-! # Theorems -/

/-! ## Camera projection -/

section Projection

variable {K : Type} [LinearOrderedField K]

/-- The clip-space image of a view-space point on the forward axis has `x = 0`, `y = 0`. -/
theorem project_of_axis (obj : Vec3 K) (model proj : Mat4 K) (viewport : IVec4)
    (hproj0 : proj.c2.x = 0) (hproj1 : proj.c2.y = 0) (hproj2 : proj.c3.x = 0)
    (hproj3 : proj.c3.y = 0)
    (hx : (glm.mulVec model ⟨obj.x, obj.y, obj.z, 1⟩).x = 0)
    (hy : (glm.mulVec model ⟨obj.x, obj.y, obj.z, 1⟩).y = 0) :
    (glm.project obj model proj viewport).x = (1 / 2) * (viewport.z : K) + (viewport.x : K) ∧
    (glm.project obj model proj viewport).y = (1 / 2) * (viewport.w : K) + (viewport.y : K) := by
  simp only [glm.project]
  generalize glm.mulVec model ⟨obj.x, obj.y, obj.z, 1⟩ = t at hx hy
  simp [glm.mulVec, glm.add4, glm.smul4, hx, hy, hproj0, hproj1, hproj2, hproj3]

variable [FloorRing K]

theorem toInt_intCast (n : Int) : toInt (n : K) = n := by
  unfold toInt
  split <;> simp

/-- C2. Camera projection hits the image centre: for an image of positive integer width and
height (the size `Reconstruct` stores in the camera), a point `p` and a view transform `Mview`
with `Mview * (p, 1)` on the forward axis in front of the camera (`x = 0`, `y = 0`, `z = -d`,
`d > 0`), `ProjectPoint` returns `x = width / 2` and `y = height / 2`, whatever `d` is. -/
theorem ProjectPoint_image_center (lm : Libm K) (width height : Int) (_hw : 0 < width)
    (_hh : 0 < height) (cam : CameraParameters K)
    (hcam : cam.image_size = ⟨(width : K), (height : K)⟩) (p : Vec3 K) (Mview : Mat4 K) (d : K)
    (_hd : 0 < d)
    (hx : (glm.mulVec Mview ⟨p.x, p.y, p.z, 1⟩).x = 0)
    (hy : (glm.mulVec Mview ⟨p.x, p.y, p.z, 1⟩).y = 0)
    (_hz : (glm.mulVec Mview ⟨p.x, p.y, p.z, 1⟩).z = -d) :
    (ProjectPoint lm p Mview cam).x = (width : K) / 2 ∧
    (ProjectPoint lm p Mview cam).y = (height : K) / 2 := by
  have h := project_of_axis p Mview
    (glm.perspective lm 45 (cam.image_size.x / cam.image_size.y) 1 10)
    ⟨0, 0, toInt cam.image_size.x, toInt cam.image_size.y⟩ rfl rfl rfl rfl hx hy
  simp only [ProjectPoint]
  rw [h.1, h.2]
  simp only [hcam, toInt_intCast]
  constructor <;> push_cast <;> ring

/-- Witness for C2: a 640 by 480 image, the identity view transform and the point `(0, 0, -2)`. -/
theorem ProjectPoint_image_center_witness :
    (ProjectPoint ratLibm ⟨0, 0, -2⟩ glm.identity
      ⟨⟨1000, 1000⟩, ⟨320, 240⟩, ⟨((640 : Int) : ℚ), ((480 : Int) : ℚ)⟩⟩).x = ((640 : Int) : ℚ) / 2 ∧
    (ProjectPoint ratLibm ⟨0, 0, -2⟩ glm.identity
      ⟨⟨1000, 1000⟩, ⟨320, 240⟩, ⟨((640 : Int) : ℚ), ((480 : Int) : ℚ)⟩⟩).y = ((480 : Int) : ℚ) / 2 :=
  ProjectPoint_image_center ratLibm 640 480 (by decide) (by decide) _ rfl ⟨0, 0, -2⟩ glm.identity 2
    (by norm_num) (by simp [glm.mulVec, glm.add4, glm.smul4, glm.identity])
    (by simp [glm.mulVec, glm.add4, glm.smul4, glm.identity])
    (by simp [glm.mulVec, glm.add4, glm.smul4, glm.identity])

end Projection

/-! ## Residual functors -/

section Residuals

variable {K : Type} [LinearOrderedField K]

/-- The matrix of `glm::eulerAngleYXZ` is the product of the rotations about y, x and z. -/
theorem eulerAngleYXZ_eq_rotations (lm : Libm K) (yaw pitch roll : K) :
    glm.eulerAngleYXZ lm yaw pitch roll =
      glm.mul (rotationY lm yaw) (glm.mul (rotationX lm pitch) (rotationZ lm roll)) := by
  simp only [glm.eulerAngleYXZ, glm.mul, glm.mulVec, glm.add4, glm.smul4, rotationX, rotationY,
    rotationZ, Mat4.mk.injEq, Vec4.mk.injEq]
  refine ⟨⟨?_, ?_, ?_, ?_⟩, ⟨?_, ?_, ?_, ?_⟩, ⟨?_, ?_, ?_, ?_⟩, ⟨?_, ?_, ?_, ?_⟩⟩ <;> ring

/-- A translation after a matrix with last column `(0, 0, 0, 1)` and last row `(0, 0, 0, 1)`
acts on a point as the matrix on the direction, plus the offset. -/
theorem translate_mul_point (Rmat : Mat4 K) (t v : Vec3 K) (h0 : Rmat.c0.w = 0)
    (h1 : Rmat.c1.w = 0) (h2 : Rmat.c2.w = 0) (h3 : Rmat.c3 = ⟨0, 0, 0, 1⟩) :
    glm.mulVec (glm.mul (glm.translate glm.identity t) Rmat) ⟨v.x, v.y, v.z, 1⟩ =
      ⟨(glm.mulVec Rmat ⟨v.x, v.y, v.z, 0⟩).x + t.x, (glm.mulVec Rmat ⟨v.x, v.y, v.z, 0⟩).y + t.y,
       (glm.mulVec Rmat ⟨v.x, v.y, v.z, 0⟩).z + t.z, 1⟩ := by
  simp only [glm.mul, glm.mulVec, glm.add4, glm.smul4, glm.translate, glm.identity, h0, h1, h2,
    h3, Vec4.mk.injEq]
  refine ⟨?_, ?_, ?_, ?_⟩ <;> ring

variable [FloorRing K]

/-- C8. Pose residual: for every parameter vector `PoseCostFunction` returns `true` and writes
the two residuals `(q.x - observed.x) * weight` and `(q.y - observed.y) * weight`, where `q` is
`ProjectPoint` of the first vertex of the functor's geometry under `T * R`, `R` the product of
the rotations about y, x and z by the three angles and `T` the translation by the three
offsets; and `T * R` maps a point `v` to `R v + t`. -/
theorem PoseCostFunction_call_spec {Model : Type} {nId nExp : Nat} (lm : Libm K)
    (mo : ModelOps K Model nId nExp) (f : PoseCostFunction K Model) (params : Fin 6 → K) :
    let p : Vec3 K := ⟨mo.GetTM f.model 0, mo.GetTM f.model 1, mo.GetTM f.model 2⟩
    let R := glm.mul (rotationY lm (params 0))
      (glm.mul (rotationX lm (params 1)) (rotationZ lm (params 2)))
    let T := glm.translate glm.identity ⟨params 3, params 4, params 5⟩
    let q := ProjectPoint lm p (glm.mul T R) f.cam_params
    PoseCostFunction.call lm mo f params =
        (true, [(q.x - f.constraint.data.x) * f.constraint.weight,
                (q.y - f.constraint.data.y) * f.constraint.weight]) ∧
      ∀ v : Vec3 K, glm.mulVec (glm.mul T R) ⟨v.x, v.y, v.z, 1⟩ =
        ⟨(glm.mulVec R ⟨v.x, v.y, v.z, 0⟩).x + params 3,
         (glm.mulVec R ⟨v.x, v.y, v.z, 0⟩).y + params 4,
         (glm.mulVec R ⟨v.x, v.y, v.z, 0⟩).z + params 5, 1⟩ := by
  intro p R T q
  have hR : R = glm.eulerAngleYXZ lm (params 0) (params 1) (params 2) :=
    (eulerAngleYXZ_eq_rotations lm _ _ _).symm
  refine ⟨?_, ?_⟩
  · simp only [PoseCostFunction.call, q, hR, T, p]
  · intro v
    rw [hR]
    exact translate_mul_point _ ⟨params 3, params 4, params 5⟩ v rfl rfl rfl rfl

end Residuals

section PriorResidual

/-- C9. Prior residual: for every weight vector `w`, `PriorCostFunction` returns `true` and
writes the single residual `sqrt (weight * (w - prior_vec)ᵀ * inv_cov_mat * (w - prior_vec))`;
the residual is `0` at `w = prior_vec`; and for `weight ≥ 0` and a positive semidefinite
`inv_cov_mat` the argument of the square root and the residual are non-negative. -/
theorem PriorCostFunction_call_spec {n : Nat} (f : PriorCostFunction ℝ n) (w : Fin n → ℝ) :
    let lm : Libm ℝ := ⟨Real.sqrt, Real.sin, Real.cos, Real.tan⟩
    let q := f.weight *
      Matrix.dotProduct (w - f.prior_vec) (f.inv_cov_mat.mulVec (w - f.prior_vec))
    PriorCostFunction.call lm f w = (true, [Real.sqrt q]) ∧
      (w = f.prior_vec → PriorCostFunction.call lm f w = (true, [0])) ∧
      (0 ≤ f.weight → f.inv_cov_mat.PosSemidef → 0 ≤ q ∧ 0 ≤ Real.sqrt q) := by
  intro lm q
  have hcall : PriorCostFunction.call lm f w = (true, [Real.sqrt q]) := by
    simp only [PriorCostFunction.call, q, lm, Matrix.smul_dotProduct, smul_eq_mul]
  refine ⟨hcall, ?_, ?_⟩
  · intro hw
    rw [hcall]
    simp [q, hw]
  · intro hweight hpsd
    refine ⟨?_, Real.sqrt_nonneg _⟩
    have h := hpsd.2 (w - f.prior_vec)
    simp only [star_trivial] at h
    exact mul_nonneg hweight h

/-- Witness for C9: dimension one, unit weight, unit inverse covariance. -/
theorem PriorCostFunction_call_spec_witness :
    (0 : ℝ) ≤ 1 ∧ (1 : Matrix (Fin 1) (Fin 1) ℝ).PosSemidef ∧
      PriorCostFunction.call ⟨Real.sqrt, Real.sin, Real.cos, Real.tan⟩
        (⟨![3], 1, 1⟩ : PriorCostFunction ℝ 1) ![3] = (true, [0]) ∧
      0 ≤ (1 : ℝ) * Matrix.dotProduct (![5] - ![3])
        ((1 : Matrix (Fin 1) (Fin 1) ℝ).mulVec (![5] - ![3])) :=
  ⟨zero_le_one, Matrix.PosSemidef.one,
   (PriorCostFunction_call_spec (⟨![3], 1, 1⟩ : PriorCostFunction ℝ 1) ![3]).2.1 rfl,
   ((PriorCostFunction_call_spec (⟨![3], 1, 1⟩ : PriorCostFunction ℝ 1) ![5]).2.2 zero_le_one
      Matrix.PosSemidef.one).1⟩

end PriorResidual

/-! ## std::min_element -/

section MinElement

variable {K : Type} [LinearOrderedField K]

theorem min_element_loop_spec (rest : List K) :
    ∀ (pre : List K) (smallest : Nat) (val : K), pre[smallest]? = some val →
      (∀ i v, pre[i]? = some v → val ≤ v ∧ (i < smallest → val < v)) →
      IsFirstMin (pre ++ rest) (min_element_loop rest pre.length smallest val) := by
  induction rest with
  | nil =>
    intro pre smallest val hs hmin
    simp only [min_element_loop, List.append_nil]
    exact ⟨val, hs, hmin⟩
  | cons x xs ih =>
    intro pre smallest val hs hmin
    have hlt : smallest < pre.length := (List.getElem?_eq_some.mp hs).1
    have hlen : (pre ++ [x]).length = pre.length + 1 := by simp
    have happ : pre ++ x :: xs = (pre ++ [x]) ++ xs := by simp
    simp only [min_element_loop]
    split
    · rename_i hx
      rw [happ, ← hlen]
      apply ih (pre ++ [x]) pre.length x
      · simp
      · intro i v hi
        rcases Nat.lt_or_ge i pre.length with h | h
        · rw [List.getElem?_append_left h] at hi
          have := (hmin i v hi).1
          exact ⟨le_of_lt (lt_of_lt_of_le hx this), fun _ => lt_of_lt_of_le hx this⟩
        · rw [List.getElem?_append_right h] at hi
          have hi0 : i - pre.length = 0 := by
            by_contra hne
            have : [x][i - pre.length]? = none := by
              apply List.getElem?_eq_none
              simp only [List.length_singleton]
              omega
            rw [this] at hi
            exact Option.noConfusion hi
          rw [hi0] at hi
          simp only [List.getElem?_cons_zero, Option.some.injEq] at hi
          subst hi
          exact ⟨le_refl _, fun hc => absurd hc (by omega)⟩
    · rename_i hx
      rw [happ, ← hlen]
      apply ih (pre ++ [x]) smallest val
      · rw [List.getElem?_append_left hlt]
        exact hs
      · intro i v hi
        rcases Nat.lt_or_ge i pre.length with h | h
        · rw [List.getElem?_append_left h] at hi
          exact hmin i v hi
        · rw [List.getElem?_append_right h] at hi
          have hi0 : i - pre.length = 0 := by
            by_contra hne
            have : [x][i - pre.length]? = none := by
              apply List.getElem?_eq_none
              simp only [List.length_singleton]
              omega
            rw [this] at hi
            exact Option.noConfusion hi
          rw [hi0] at hi
          simp only [List.getElem?_cons_zero, Option.some.injEq] at hi
          subst hi
          exact ⟨not_lt.mp hx, fun hc => absurd hc (by omega)⟩

/-- On a non-empty vector `std::min_element` returns the position of the first smallest
element. -/
theorem min_element_spec (l : List K) (hne : l ≠ []) : IsFirstMin l (min_element l) := by
  cases l with
  | nil => exact absurd rfl hne
  | cons x xs =>
    have h := min_element_loop_spec xs [x] 0 x (by simp) (by
      intro i v hi
      cases i with
      | zero =>
        simp only [List.getElem?_cons_zero, Option.some.injEq] at hi
        subst hi
        exact ⟨le_refl _, fun hc => absurd hc (by omega)⟩
      | succ j => simp at hi)
    simpa [min_element] using h

theorem IsFirstMin.lt_length {l : List K} {m : Nat} (h : IsFirstMin l m) : m < l.length := by
  obtain ⟨u, hu, _⟩ := h
  exact (List.getElem?_eq_some.mp hu).1

end MinElement

/-! ## Silhouette candidates -/

section Candidates

variable {K Model Mesh : Type} {nId nExp : Nat} [LinearOrderedField K]

/-- Under a matrix of `glm::eulerAngleYXZ` the fourth coordinate given to a normal does not
reach its first three coordinates: the code's dot product is that of the rotated normal. -/
theorem dot_products_eq (env : Env K Model Mesh nId nExp) (mesh : Mesh) (a b c : K)
    (group : List Int) :
    group.map (fun v =>
      let n0 := env.mesh.vertex_normal mesh v
      let n := glm.mulVec (glm.eulerAngleYXZ env.lm a b c) ⟨n0.x, n0.y, n0.z, 1⟩
      |glm.dot ⟨n.x, n.y, n.z⟩ ⟨0, 0, 1⟩|) =
    group.map (rotatedNormalDot env mesh (glm.eulerAngleYXZ env.lm a b c)) := by
  apply List.map_congr_left
  intro v _
  simp [rotatedNormalDot, glm.mulVec, glm.add4, glm.smul4, glm.eulerAngleYXZ, glm.dot]

theorem collectCandidates_append (env : Env K Model Mesh nId nExp) (mesh : Mesh) (Rmat : Mat4 K)
    (pre : List (List Int)) (group : List Int) (cands added : List (Int × Vec4 K))
    (hpre : collectCandidates env mesh Rmat pre = some cands)
    (hg : groupCandidates env mesh Rmat group = some added) :
    collectCandidates env mesh Rmat (pre ++ [group]) = some (cands ++ added) := by
  unfold collectCandidates at hpre ⊢
  rw [List.foldlM_append, hpre]
  simp [hg]

/-- The candidates one non-empty group contributes. -/
theorem groupCandidates_eq (env : Env K Model Mesh nId nExp) (mesh : Mesh) (a b c : K)
    (group : List Int) (hne : group ≠ []) :
    ∃ v, group[min_element (group.map
        (rotatedNormalDot env mesh (glm.eulerAngleYXZ env.lm a b c)))]? = some v ∧
      groupCandidates env mesh (glm.eulerAngleYXZ env.lm a b c) group =
        some (([v] ++
          (if 0 < min_element (group.map
              (rotatedNormalDot env mesh (glm.eulerAngleYXZ env.lm a b c))) then
            (group[min_element (group.map
              (rotatedNormalDot env mesh (glm.eulerAngleYXZ env.lm a b c))) - 1]?).toList
           else []) ++
          (group[min_element (group.map
              (rotatedNormalDot env mesh (glm.eulerAngleYXZ env.lm a b c))) + 1]?).toList).map
          (withMeshPosition env mesh)) := by
  have hmin := min_element_spec (group.map
    (rotatedNormalDot env mesh (glm.eulerAngleYXZ env.lm a b c))) (by simpa using hne)
  have hlt := hmin.lt_length
  rw [List.length_map] at hlt
  simp only [groupCandidates, dot_products_eq]
  generalize min_element (group.map
    (rotatedNormalDot env mesh (glm.eulerAngleYXZ env.lm a b c))) = m at hlt ⊢
  refine ⟨group[m], List.getElem?_eq_getElem hlt, ?_⟩
  have h1 : ∀ k (hk : k < group.length), group[k]? = some group[k] :=
    fun k hk => List.getElem?_eq_getElem hk
  rw [h1 m hlt]
  simp only [List.getElem?_map, h1 m hlt, Option.map_some', Option.bind_eq_bind,
    Option.some_bind]
  by_cases hm0 : 0 < m
  · have hp : m - 1 < group.length := by omega
    by_cases hm1 : m < group.length - 1
    · have hn : m + 1 < group.length := by omega
      simp [hm0, hm1, h1 _ hp, h1 _ hn, withMeshPosition]
    · have hn : group[m + 1]? = none := List.getElem?_eq_none (by omega)
      simp [hm0, hm1, h1 _ hp, hn, withMeshPosition]
  · by_cases hm1 : m < group.length - 1
    · have hn : m + 1 < group.length := by omega
      simp [hm0, hm1, h1 _ hn, withMeshPosition]
    · have hn : group[m + 1]? = none := List.getElem?_eq_none (by omega)
      simp [hm0, hm1, hn, withMeshPosition]

end Candidates

section SilhouetteSelection

variable {K Model Mesh : Type} {nId nExp : Nat} [LinearOrderedField K]

/-- C10. Silhouette candidate selection: for a non-empty contour group, `UpdateContourIndices`
takes the first position `m` of the group where the absolute dot product of the rotated vertex
normal with `(0, 0, 1)` is smallest, and appends to the candidates the vertex at `m`, the one
at `m - 1` if `m > 0` and the one at `m + 1` if `m` is not the last position: between one and
three candidates, all members of the group, each paired with its mesh position. -/
theorem silhouette_candidates (env : Env K Model Mesh nId nExp) (mesh : Mesh) (a b c : K)
    (group : List Int) (hne : group ≠ []) :
    let Rmat := glm.eulerAngleYXZ env.lm a b c
    let m := min_element (group.map (rotatedNormalDot env mesh Rmat))
    IsFirstMin (group.map (rotatedNormalDot env mesh Rmat)) m ∧
    ∃ v added, group[m]? = some v ∧
      groupCandidates env mesh Rmat group = some added ∧
      added = ([v] ++ (if 0 < m then (group[m - 1]?).toList else []) ++
        (group[m + 1]?).toList).map (withMeshPosition env mesh) ∧
      added.length = 1 + (if 0 < m then 1 else 0) + (if m + 1 < group.length then 1 else 0) ∧
      1 ≤ added.length ∧ added.length ≤ 3 ∧
      (∀ cand ∈ added, cand.1 ∈ group ∧ cand = withMeshPosition env mesh cand.1) ∧
      ∀ pre cands, collectCandidates env mesh Rmat pre = some cands →
        collectCandidates env mesh Rmat (pre ++ [group]) = some (cands ++ added) := by
  intro Rmat m
  have hmin : IsFirstMin (group.map (rotatedNormalDot env mesh Rmat)) m :=
    min_element_spec _ (by simpa using hne)
  have hlt : m < group.length := by simpa using hmin.lt_length
  obtain ⟨v, hv, hg⟩ := groupCandidates_eq env mesh a b c group hne
  have hlen : (([v] ++ (if 0 < m then (group[m - 1]?).toList else []) ++
      (group[m + 1]?).toList).map (withMeshPosition env mesh)).length =
      1 + (if 0 < m then 1 else 0) + (if m + 1 < group.length then 1 else 0) := by
    have hp : 0 < m → (group[m - 1]?).toList.length = 1 := by
      intro h0
      rw [List.getElem?_eq_getElem (by omega)]
      rfl
    have hn : (group[m + 1]?).toList.length = if m + 1 < group.length then 1 else 0 := by
      split
      · rename_i h
        rw [List.getElem?_eq_getElem h]
        rfl
      · rename_i h
        rw [List.getElem?_eq_none (by omega)]
        rfl
    simp only [List.length_map, List.length_append, List.length_singleton, hn]
    split
    · rename_i h0
      rw [hp h0]
    · rfl
  refine ⟨hmin, v, _, hv, hg, rfl, hlen, ?_, ?_, ?_, ?_⟩
  · rw [hlen]
    omega
  · rw [hlen]
    split <;> split <;> omega
  · intro cand hcand
    simp only [List.mem_map] at hcand
    obtain ⟨u, hu, rfl⟩ := hcand
    refine ⟨?_, rfl⟩
    simp only [withMeshPosition]
    simp only [List.mem_append, List.mem_singleton] at hu
    rcases hu with (rfl | hu) | hu
    · exact List.getElem?_mem hv
    · split at hu
      · rw [Option.mem_toList] at hu
        exact List.getElem?_mem hu
      · simp at hu
    · rw [Option.mem_toList] at hu
      exact List.getElem?_mem hu
  · intro pre cands hpre
    exact collectCandidates_append env mesh Rmat pre group cands _ hpre hg

/-- Witness for C10: the group `[3, 7]` on the example mesh. -/
theorem silhouette_candidates_witness :
    ([3, 7] : List Int) ≠ [] ∧
    ∃ added, groupCandidates (exampleEnv ratLibm) () (glm.eulerAngleYXZ ratLibm 0 0 0) [3, 7] =
      some added ∧ 1 ≤ added.length ∧ added.length ≤ 3 :=
  ⟨by decide,
   let ⟨_, _, added, _, h, _, _, h1, h3, _⟩ :=
     silhouette_candidates (exampleEnv ratLibm) () 0 0 0 [3, 7] (by decide)
   ⟨added, h, h1, h3⟩⟩

end SilhouetteSelection

/-! ## Loops over vectors -/

section Loops

variable {α β σ : Type}

theorem mapM_option_some (f : α → Option β) (l : List α)
    (h : ∀ x ∈ l, ∃ b, f x = some b) : ∃ bs, l.mapM f = some bs := by
  induction l with
  | nil => exact ⟨[], rfl⟩
  | cons a l ih =>
    obtain ⟨b, hb⟩ := h a (List.mem_cons_self a l)
    obtain ⟨bs, hbs⟩ := ih (fun x hx => h x (List.mem_cons_of_mem a hx))
    exact ⟨b :: bs, by rw [List.mapM_cons, hb, hbs]; rfl⟩

theorem mapM_option_forall (f : α → Option β) (l : List α) (bs : List β)
    (h : l.mapM f = some bs) : ∀ x ∈ l, ∃ b, f x = some b := by
  induction l generalizing bs with
  | nil => intro x hx; cases hx
  | cons a l ih =>
    cases ha : f a with
    | none =>
      rw [List.mapM_cons, ha] at h
      exact Option.noConfusion h
    | some b =>
      cases hl : l.mapM f with
      | none =>
        rw [List.mapM_cons, ha, hl] at h
        exact Option.noConfusion h
      | some bs' =>
        intro x hx
        rcases List.mem_cons.mp hx with rfl | hx
        · exact ⟨b, ha⟩
        · exact ih bs' hl x hx

theorem mapM_option_const (f : α → β) (o : Option σ) (g : σ → α → β) (l : List α) (c : σ)
    (ho : o = some c) (hf : ∀ x, f x = g c x) :
    l.mapM (fun x => o.bind (fun c => some (g c x))) = some (l.map f) := by
  subst ho
  induction l with
  | nil => rfl
  | cons a l ih =>
    rw [List.mapM_cons, ih]
    simp [hf]

/-- Total correctness of a counted loop `for (i = 0; i < n; ++i)` whose body may fail. -/
theorem foldlM_range_total (f : σ → Nat → Option σ) (P : Nat → σ → Prop) (n : Nat) (s0 : σ)
    (h0 : P 0 s0) (hstep : ∀ i s, i < n → P i s → ∃ s', f s i = some s' ∧ P (i + 1) s') :
    ∃ s', (List.range n).foldlM f s0 = some s' ∧ P n s' := by
  induction n with
  | zero => exact ⟨s0, rfl, h0⟩
  | succ n ih =>
    obtain ⟨s1, h1, hP1⟩ := ih (fun i s hi hP => hstep i s (Nat.lt_succ_of_lt hi) hP)
    obtain ⟨s2, h2, hP2⟩ := hstep n s1 (Nat.lt_succ_self n) hP1
    refine ⟨s2, ?_, hP2⟩
    rw [List.range_succ, List.foldlM_append, h1]
    simp [h2]

/-- Partial correctness of a counted loop whose body may fail. -/
theorem foldlM_range_partial (f : σ → Nat → Option σ) (P : Nat → σ → Prop) (n : Nat) (s0 : σ)
    (h0 : P 0 s0) (hstep : ∀ i s s', i < n → P i s → f s i = some s' → P (i + 1) s')
    (s' : σ) (h : (List.range n).foldlM f s0 = some s') : P n s' := by
  induction n generalizing s' with
  | zero =>
    simp only [List.range_zero, List.foldlM_nil] at h
    cases h
    exact h0
  | succ n ih =>
    rw [List.range_succ, List.foldlM_append] at h
    cases h1 : (List.range n).foldlM f s0 with
    | none => simp [h1] at h
    | some s1 =>
      have hP1 := ih (fun i s s' hi hP hf => hstep i s s' (Nat.lt_succ_of_lt hi) hP hf) s1 h1
      simp only [h1, Option.bind_eq_bind, Option.some_bind, List.foldlM_cons,
        List.foldlM_nil] at h
      cases h2 : f s1 n with
      | none => simp [h2] at h
      | some s2 =>
        simp only [h2, Option.some_bind, Option.pure_def, Option.some.injEq] at h
        subst h
        exact hstep n s1 s2 (Nat.lt_succ_self n) hP1 h2

theorem option_bind_total {o : Option α} {g : α → Option β} (ho : ∃ a, o = some a)
    (hg : ∀ a, o = some a → ∃ b, g a = some b) : ∃ b, o.bind g = some b := by
  obtain ⟨a, rfl⟩ := ho
  exact hg a rfl

theorem modifyAt?_some (v : List α) (i : Nat) (f : α → α) (h : i < v.length) :
    modifyAt? v i f = some (v.set i (f v[i])) := by
  simp [modifyAt?, List.getElem?_eq_getElem h]

theorem modifyAt?_eq_some {v v' : List α} {i : Nat} {f : α → α} (h : modifyAt? v i f = some v') :
    ∃ hi : i < v.length, v' = v.set i (f v[i]) := by
  unfold modifyAt? at h
  split at h
  · rename_i a ha
    obtain ⟨hi, rfl⟩ := List.getElem?_eq_some.mp ha
    exact ⟨hi, (Option.some.inj h).symm⟩
  · exact Option.noConfusion h

theorem setAt?_eq_some {v v' : List α} {i : Nat} {a : α} (h : setAt? v i a = some v') :
    i < v.length ∧ v' = v.set i a := by
  unfold setAt? at h
  split at h
  · rename_i hi
    exact ⟨hi, (Option.some.inj h).symm⟩
  · exact Option.noConfusion h

end Loops

/-! ## The three solves -/

section Solves

variable {K Model Mesh : Type} {nId nExp : Nat} [LinearOrderedField K]

theorem priorScale_isSome (lm : Libm K) (cons : List (Constraint2D K)) (h : 35 ≤ cons.length) :
    ∃ scale, priorScale lm cons = some scale := by
  have h1 : ∀ k, k < 35 → ∃ c, cons[k]? = some c := fun k hk =>
    ⟨_, List.getElem?_eq_getElem (by omega)⟩
  obtain ⟨c28, h28⟩ := h1 28 (by omega)
  obtain ⟨c30, h30⟩ := h1 30 (by omega)
  obtain ⟨c32, h32⟩ := h1 32 (by omega)
  obtain ⟨c34, h34⟩ := h1 34 (by omega)
  simp only [priorScale, h28, h30, h32, h34, Option.bind_eq_bind, Option.some_bind,
    Option.pure_def]
  exact ⟨_, rfl⟩

theorem priorScale_length (lm : Libm K) (cons : List (Constraint2D K)) (scale : K)
    (h : priorScale lm cons = some scale) : 35 ≤ cons.length := by
  simp only [priorScale, Option.bind_eq_bind, Option.bind_eq_some] at h
  obtain ⟨_, _, _, _, _, _, c34, h34, _⟩ := h
  have := (List.getElem?_eq_some.mp h34).1
  omega

/-- The value `prior_scale` depends on the observed positions only. -/
theorem priorScale_congr (lm : Libm K) (cons cons' : List (Constraint2D K))
    (h : cons'.map (fun c => c.data) = cons.map (fun c => c.data)) :
    priorScale lm cons' = priorScale lm cons := by
  have hd : ∀ k : Nat, (cons'[k]?).map (fun c : Constraint2D K => c.data) =
      (cons[k]?).map (fun c : Constraint2D K => c.data) := by
    intro k
    rw [← List.getElem?_map, ← List.getElem?_map, h]
  have h28 := hd 28
  have h30 := hd 30
  have h32 := hd 32
  have h34 := hd 34
  simp only [priorScale, Option.bind_eq_bind, Option.pure_def]
  cases hc28 : cons[28]? <;> cases hc28' : cons'[28]? <;> simp [hc28, hc28'] at h28 ⊢
  cases hc30 : cons[30]? <;> cases hc30' : cons'[30]? <;> simp [hc30, hc30'] at h30 ⊢
  cases hc32 : cons[32]? <;> cases hc32' : cons'[32]? <;> simp [hc32, hc32'] at h32 ⊢
  cases hc34 : cons[34]? <;> cases hc34' : cons'[34]? <;> simp [hc34, hc34'] at h34 ⊢
  rw [h28, h30, h32, h34]

end Solves

section PoseSolve

variable {K Model Mesh : Type} {nId nExp : Nat}

theorem OptimizeForPose_eq_some {env : Env K Model Mesh nId nExp} {max_iters : Nat}
    {s s' : SingleImageReconstructor K Model Mesh nId nExp}
    (h : OptimizeForPose env max_iters s = some s') :
    s.indices.length ≤ s.params_recon.cons.length ∧
    ∃ problem : PoseProblem K Model,
      problem.params = ![s.params_model.R.x, s.params_model.R.y, s.params_model.R.z,
        s.params_model.T.x, s.params_model.T.y, s.params_model.T.z] ∧
      s' = { s with params_model := { s.params_model with
          R := ⟨env.solver.pose s problem 0, env.solver.pose s problem 1,
            env.solver.pose s problem 2⟩
          T := ⟨env.solver.pose s problem 3, env.solver.pose s problem 4,
            env.solver.pose s problem 5⟩ } }.emit (.pose max_iters) := by
  simp only [OptimizeForPose, Option.bind_eq_bind, Option.bind_eq_some, Option.pure_def,
    Option.some.injEq] at h
  obtain ⟨blocks, hb, rfl⟩ := h
  refine ⟨?_, ⟨blocks, _, max_iters⟩, rfl, rfl⟩
  by_contra hlen
  have hmem : s.indices.length - 1 ∈ List.range s.indices.length :=
    List.mem_range.mpr (by omega)
  obtain ⟨b, hb'⟩ := mapM_option_forall _ _ _ hb _ hmem
  simp only [Option.bind_eq_some] at hb'
  obtain ⟨_, _, c, hc, _⟩ := hb'
  have := (List.getElem?_eq_some.mp hc).1
  omega

theorem OptimizeForPose_total (env : Env K Model Mesh nId nExp) (max_iters : Nat)
    (s : SingleImageReconstructor K Model Mesh nId nExp)
    (h : s.indices.length ≤ s.params_recon.cons.length) :
    ∃ s', OptimizeForPose env max_iters s = some s' := by
  unfold OptimizeForPose
  simp only [Option.bind_eq_bind, Option.pure_def]
  refine option_bind_total (mapM_option_some _ _ ?_) (fun _ _ => ⟨_, rfl⟩)
  intro i hi
  have hi' := List.mem_range.mp hi
  rw [List.getElem?_eq_getElem hi', List.getElem?_eq_getElem (lt_of_lt_of_le hi' h)]
  exact ⟨_, rfl⟩

end PoseSolve

section OtherSolves

variable {K Model Mesh : Type} {nId nExp : Nat} [LinearOrderedField K]

theorem OptimizeForExpression_eq_some {env : Env K Model Mesh nId nExp} {iteration : Nat}
    {s s' : SingleImageReconstructor K Model Mesh nId nExp}
    (h : OptimizeForExpression env iteration s = some s') :
    s.indices.length ≤ s.params_recon.cons.length ∧
    ∃ (scale : K) (problem : ExpressionProblem K Model nExp),
      priorScale env.lm s.params_recon.cons = some scale ∧
      problem.params = s.params_model.Wexp_FACS ∧
      s' = { s with params_model := { s.params_model with
          Wexp_FACS := env.solver.expression s problem
          Wexp := Matrix.vecMul (env.solver.expression s problem) s.prior.Uexp } }.emit
        (.expression (iteration * 5) (s.prior.weight_Wexp * scale)) := by
  simp only [OptimizeForExpression, Option.bind_eq_bind, Option.bind_eq_some, Option.pure_def,
    Option.some.injEq] at h
  obtain ⟨scale, hscale, blocks, hb, rfl⟩ := h
  refine ⟨?_, scale, ⟨blocks, _, _, -1, 1, iteration * 5⟩, hscale, rfl, rfl⟩
  by_contra hlen
  have hmem : s.indices.length - 1 ∈ List.range s.indices.length :=
    List.mem_range.mpr (by omega)
  obtain ⟨b, hb'⟩ := mapM_option_forall _ _ _ hb _ hmem
  simp only [Option.bind_eq_some] at hb'
  obtain ⟨_, _, c, hc, _⟩ := hb'
  have := (List.getElem?_eq_some.mp hc).1
  omega

theorem OptimizeForExpression_total (env : Env K Model Mesh nId nExp) (iteration : Nat)
    (s : SingleImageReconstructor K Model Mesh nId nExp)
    (h : s.indices.length ≤ s.params_recon.cons.length) (h35 : 35 ≤ s.params_recon.cons.length) :
    ∃ s', OptimizeForExpression env iteration s = some s' := by
  unfold OptimizeForExpression
  simp only [Option.bind_eq_bind, Option.pure_def]
  refine option_bind_total (priorScale_isSome _ _ h35) (fun _ _ => ?_)
  refine option_bind_total (mapM_option_some _ _ ?_) (fun _ _ => ⟨_, rfl⟩)
  intro i hi
  have hi' := List.mem_range.mp hi
  rw [List.getElem?_eq_getElem hi', List.getElem?_eq_getElem (lt_of_lt_of_le hi' h)]
  exact ⟨_, rfl⟩

theorem OptimizeForIdentity_eq_some {env : Env K Model Mesh nId nExp} {iteration : Nat}
    {s s' : SingleImageReconstructor K Model Mesh nId nExp}
    (h : OptimizeForIdentity env iteration s = some s') :
    s.indices.length ≤ s.params_recon.cons.length ∧
    ∃ (scale : K) (problem : IdentityProblem K Model nId),
      priorScale env.lm s.params_recon.cons = some scale ∧
      problem.params = s.params_model.Wid ∧
      s' = { s with params_model := { s.params_model with
          Wid := env.solver.identity s problem } }.emit
        (.identity (iteration * 5) (s.prior.weight_Wid * scale)) := by
  simp only [OptimizeForIdentity, Option.bind_eq_bind, Option.bind_eq_some, Option.pure_def,
    Option.some.injEq] at h
  obtain ⟨scale, hscale, blocks, hb, rfl⟩ := h
  refine ⟨?_, scale, ⟨blocks, _, _, iteration * 5⟩, hscale, rfl, rfl⟩
  by_contra hlen
  have hmem : s.indices.length - 1 ∈ List.range s.indices.length :=
    List.mem_range.mpr (by omega)
  obtain ⟨b, hb'⟩ := mapM_option_forall _ _ _ hb _ hmem
  simp only [Option.bind_eq_some] at hb'
  obtain ⟨_, _, c, hc, _⟩ := hb'
  have := (List.getElem?_eq_some.mp hc).1
  omega

theorem OptimizeForIdentity_total (env : Env K Model Mesh nId nExp) (iteration : Nat)
    (s : SingleImageReconstructor K Model Mesh nId nExp)
    (h : s.indices.length ≤ s.params_recon.cons.length) (h35 : 35 ≤ s.params_recon.cons.length) :
    ∃ s', OptimizeForIdentity env iteration s = some s' := by
  unfold OptimizeForIdentity
  simp only [Option.bind_eq_bind, Option.pure_def]
  refine option_bind_total (priorScale_isSome _ _ h35) (fun _ _ => ?_)
  refine option_bind_total (mapM_option_some _ _ ?_) (fun _ _ => ⟨_, rfl⟩)
  intro i hi
  have hi' := List.mem_range.mp hi
  rw [List.getElem?_eq_getElem hi', List.getElem?_eq_getElem (lt_of_lt_of_le hi' h)]
  exact ⟨_, rfl⟩

end OtherSolves

/-! ## Rebinding of the contour constraints -/

section Rebind

variable {K : Type} [LinearOrderedField K]

theorem rebind_dists (projected_points : List (Vec3 K)) (cons : List (Constraint2D K)) (i : Nat)
    (c : Constraint2D K) (hc : cons[i]? = some c) :
    projected_points.mapM (fun pj => do
      let c ← cons[i]?
      let dx := pj.x - c.data.x
      let dy := pj.y - c.data.y
      pure (dx * dx + dy * dy)) = some (projected_points.map (fun pj => pixelDistSq pj c)) := by
  simp only [Option.bind_eq_bind, Option.pure_def]
  exact mapM_option_const _ _ (fun (c : Constraint2D K) (pj : Vec3 K) =>
    (pj.x - c.data.x) * (pj.x - c.data.x) + (pj.y - c.data.y) * (pj.y - c.data.y)) _ c hc
    (fun _ => rfl)

theorem rebind_dists_none (projected_points : List (Vec3 K)) (cons : List (Constraint2D K))
    (i : Nat) (hc : cons[i]? = none) (dists : List K)
    (h : projected_points.mapM (fun pj => do
      let c ← cons[i]?
      let dx := pj.x - c.data.x
      let dy := pj.y - c.data.y
      pure (dx * dx + dy * dy)) = some dists) : dists = [] := by
  cases projected_points with
  | nil =>
    simp only [List.mapM_nil, Option.pure_def, Option.some.injEq] at h
    exact h.symm
  | cons p ps =>
    rw [List.mapM_cons, hc] at h
    exact Option.noConfusion h

/-- What one pass of the rebinding loop does when it is defined: the constraint and the
candidates exist, and either the nearest candidate is too far and nothing changes, or position
`i` of both vectors receives the vertex of the nearest candidate. -/
theorem rebindContour_eq_some {lm : Libm K} {candidates : List (Int × Vec4 K)}
    {projected_points : List (Vec3 K)} {st st' : List Int × List (Constraint2D K)} {i : Nat}
    (h : rebindContour lm candidates projected_points st i = some st') :
    ∃ c d, st.2[i]? = some c ∧
      (projected_points.map (fun pj => pixelDistSq pj c))[min_element
        (projected_points.map (fun pj => pixelDistSq pj c))]? = some d ∧
      ((min_acceptable_dist < lm.sqrt d ∧ st' = st) ∨
       (¬ min_acceptable_dist < lm.sqrt d ∧ ∃ cand,
          candidates[min_element (projected_points.map (fun pj => pixelDistSq pj c))]? =
            some cand ∧
          i < st.1.length ∧
          st' = (st.1.set i cand.1, st.2.set i { c with vidx := cand.1 }))) := by
  unfold rebindContour at h
  cases hc : st.2[i]? with
  | none =>
    simp only [Option.bind_eq_bind, Option.bind_eq_some] at h
    obtain ⟨dists, hd, d, hd', _⟩ := h
    have := rebind_dists_none projected_points st.2 i hc dists
      (by simpa only [Option.bind_eq_bind] using hd)
    subst this
    simp at hd'
  | some c =>
    rw [rebind_dists projected_points st.2 i c hc] at h
    simp only [Option.bind_eq_bind, Option.some_bind, Option.bind_eq_some] at h
    obtain ⟨d, hd, h⟩ := h
    refine ⟨c, d, rfl, hd, ?_⟩
    split at h
    · rename_i hfar
      left
      exact ⟨hfar, by simpa using h.symm⟩
    · rename_i hnear
      right
      simp only [Option.bind_eq_bind, Option.bind_eq_some, Option.pure_def,
        Option.some.injEq] at h
      obtain ⟨cand, hcand, indices, hind, cand', hcand', cons, hcons, rfl⟩ := h
      rw [hcand] at hcand'
      cases hcand'
      obtain ⟨hi, rfl⟩ := setAt?_eq_some hind
      obtain ⟨hi', rfl⟩ := modifyAt?_eq_some hcons
      have : st.2[i] = c := by
        have := List.getElem?_eq_getElem hi'
        rw [hc] at this
        exact (Option.some.inj this).symm
      rw [this]
      exact ⟨hnear, cand, hcand, hi, rfl⟩

end Rebind

section RebindLoop

variable {K : Type} [LinearOrderedField K]

theorem map_set_same {α β : Type} (f : α → β) (l : List α) (i : Nat) (a c : α)
    (hc : l[i]? = some c) (hf : f a = f c) : (l.set i a).map f = l.map f := by
  apply List.ext_getElem?
  intro k
  simp only [List.getElem?_map, List.getElem?_set]
  split
  · rename_i hik
    subst hik
    rw [if_pos (List.getElem?_eq_some.mp hc).1, hc]
    simp [hf]
  · rfl

/-- The smallest squared distance is the squared distance of one of the projected points. -/
theorem min_dist_mem (projected_points : List (Vec3 K)) (c : Constraint2D K) (d : K)
    (hd : (projected_points.map (fun pj => pixelDistSq pj c))[min_element
      (projected_points.map (fun pj => pixelDistSq pj c))]? = some d) :
    ∃ pj ∈ projected_points, d = pixelDistSq pj c := by
  rw [List.getElem?_map] at hd
  cases hp : projected_points[min_element
      (projected_points.map (fun pj => pixelDistSq pj c))]? with
  | none => simp [hp] at hd
  | some pj =>
    rw [hp] at hd
    exact ⟨pj, List.getElem?_mem hp, (Option.some.inj hd).symm⟩

theorem min_dist_exists (projected_points : List (Vec3 K)) (c : Constraint2D K)
    (hne : projected_points ≠ []) :
    ∃ d, (projected_points.map (fun pj => pixelDistSq pj c))[min_element
      (projected_points.map (fun pj => pixelDistSq pj c))]? = some d ∧
      min_element (projected_points.map (fun pj => pixelDistSq pj c)) <
        projected_points.length := by
  have h := min_element_spec (projected_points.map (fun pj => pixelDistSq pj c))
    (by simpa using hne)
  have hlt := h.lt_length
  obtain ⟨u, hu, _⟩ := h
  exact ⟨u, hu, by simpa using hlt⟩

theorem rebindContour_far (lm : Libm K) (candidates : List (Int × Vec4 K))
    (projected_points : List (Vec3 K)) (st : List Int × List (Constraint2D K)) (i : Nat)
    (c : Constraint2D K) (hc : st.2[i]? = some c) (hne : projected_points ≠ [])
    (hfar : FarFrom lm projected_points c) :
    rebindContour lm candidates projected_points st i = some st := by
  obtain ⟨d, hd, _⟩ := min_dist_exists projected_points c hne
  obtain ⟨pj, hpj, rfl⟩ := min_dist_mem projected_points c d hd
  unfold rebindContour
  rw [rebind_dists projected_points st.2 i c hc]
  simp only [Option.bind_eq_bind, Option.some_bind, hd, gt_iff_lt, hfar pj hpj, if_true,
    Option.pure_def]

theorem rebindContour_total (lm : Libm K) (candidates : List (Int × Vec4 K))
    (projected_points : List (Vec3 K)) (st : List Int × List (Constraint2D K)) (i : Nat)
    (hc : i < st.2.length) (hi : i < st.1.length) (hne : projected_points ≠ [])
    (hlen : candidates.length = projected_points.length) :
    ∃ st', rebindContour lm candidates projected_points st i = some st' := by
  obtain ⟨d, hd, hm⟩ := min_dist_exists projected_points st.2[i] hne
  unfold rebindContour
  rw [rebind_dists projected_points st.2 i _ (List.getElem?_eq_getElem hc)]
  simp only [Option.bind_eq_bind, Option.some_bind, hd]
  split
  · exact ⟨st, rfl⟩
  · rw [List.getElem?_eq_getElem (by omega)]
    simp only [Option.some_bind, setAt?, if_pos hi, modifyAt?, List.getElem?_eq_getElem hc,
      Option.pure_def]
    exact ⟨_, rfl⟩

/-- The rebinding loop over the first `n` constraints, when it is defined: lengths, observed
positions and weights are kept, positions from `n` on are kept, and so is every position whose
constraint has all projected candidates too far away. -/
theorem rebind_loop_frame (lm : Libm K) (candidates : List (Int × Vec4 K))
    (projected_points : List (Vec3 K)) (indices : List Int) (cons : List (Constraint2D K))
    (n : Nat) (st' : List Int × List (Constraint2D K))
    (h : (List.range n).foldlM (rebindContour lm candidates projected_points) (indices, cons) =
      some st') :
    st'.1.length = indices.length ∧ st'.2.length = cons.length ∧
    st'.2.map (fun c => c.data) = cons.map (fun c => c.data) ∧
    st'.2.map (fun c => c.weight) = cons.map (fun c => c.weight) ∧
    ∀ k, (n ≤ k ∨ ∃ c, cons[k]? = some c ∧ FarFrom lm projected_points c) →
      st'.1[k]? = indices[k]? ∧ st'.2[k]? = cons[k]? := by
  refine foldlM_range_partial (rebindContour lm candidates projected_points)
    (fun j st => st.1.length = indices.length ∧ st.2.length = cons.length ∧
      st.2.map (fun c => c.data) = cons.map (fun c => c.data) ∧
      st.2.map (fun c => c.weight) = cons.map (fun c => c.weight) ∧
      ∀ k, (j ≤ k ∨ ∃ c, cons[k]? = some c ∧ FarFrom lm projected_points c) →
        st.1[k]? = indices[k]? ∧ st.2[k]? = cons[k]?) n (indices, cons)
    ⟨rfl, rfl, rfl, rfl, fun _ _ => ⟨rfl, rfl⟩⟩ ?_ st' h
  intro i st st1 _ hP hstep
  obtain ⟨hl1, hl2, hdata, hweight, hkeep⟩ := hP
  obtain ⟨c, d, hc, hd, hcase⟩ := rebindContour_eq_some hstep
  rcases hcase with ⟨_, rfl⟩ | ⟨hnear, cand, _, _, rfl⟩
  · exact ⟨hl1, hl2, hdata, hweight, fun k hk => hkeep k (hk.imp (fun h => by omega) id)⟩
  · refine ⟨by simpa using hl1, by simpa using hl2, ?_, ?_, ?_⟩
    · rw [← hdata]
      exact map_set_same _ _ _ _ c hc rfl
    · rw [← hweight]
      exact map_set_same _ _ _ _ c hc rfl
    · intro k hk
      by_cases hik : i = k
      · subst hik
        rcases hk with hk | ⟨c0, hc0, hfar⟩
        · omega
        · exfalso
          have := (hkeep i (Or.inl (le_refl i))).2
          rw [hc, hc0] at this
          cases this
          obtain ⟨pj, hpj, rfl⟩ := min_dist_mem projected_points c d hd
          exact hnear (hfar pj hpj)
      · simp only [List.getElem?_set_ne hik]
        exact hkeep k (hk.imp (fun h => by omega) id)

end RebindLoop

/-! ## UpdateContourIndices -/

section ContourUpdate

variable {K Model Mesh : Type} {nId nExp : Nat} [LinearOrderedField K] [FloorRing K]

theorem UpdateContourIndices_eq_some {env : Env K Model Mesh nId nExp}
    {s s' : SingleImageReconstructor K Model Mesh nId nExp}
    (h : UpdateContourIndices env s = some s') :
    ∃ candidates st', contourCandidates env s = some candidates ∧
      (List.range num_contour_points).foldlM
        (rebindContour env.lm candidates (projectCandidates env s candidates))
        (s.indices, s.params_recon.cons) = some st' ∧
      s' = { s with indices := st'.1, params_recon := { s.params_recon with cons := st'.2 } }.emit
        .updateContourIndices := by
  simp only [UpdateContourIndices, Option.bind_eq_bind, Option.bind_eq_some, Option.pure_def,
    Option.some.injEq] at h
  obtain ⟨candidates, hc, st', hst, rfl⟩ := h
  exact ⟨candidates, st', hc, hst, rfl⟩

theorem UpdateContourIndices_of_loop (env : Env K Model Mesh nId nExp)
    (s : SingleImageReconstructor K Model Mesh nId nExp) (candidates : List (Int × Vec4 K))
    (st' : List Int × List (Constraint2D K)) (hc : contourCandidates env s = some candidates)
    (hst : (List.range num_contour_points).foldlM
        (rebindContour env.lm candidates (projectCandidates env s candidates))
        (s.indices, s.params_recon.cons) = some st') :
    UpdateContourIndices env s =
      some ({ s with indices := st'.1, params_recon := { s.params_recon with cons := st'.2 } }.emit
        .updateContourIndices) := by
  unfold contourCandidates at hc
  unfold projectCandidates at hst
  simp only [UpdateContourIndices, hc, Option.bind_eq_bind, Option.some_bind, hst,
    Option.pure_def]

/-- When every one of the first 15 constraints has all projected candidates too far away,
`UpdateContourIndices` is defined and only appends to the log. -/
theorem UpdateContourIndices_far (env : Env K Model Mesh nId nExp)
    (s : SingleImageReconstructor K Model Mesh nId nExp) (candidates : List (Int × Vec4 K))
    (hcand : contourCandidates env s = some candidates) (hne : candidates ≠ [])
    (hlen : num_contour_points ≤ s.params_recon.cons.length)
    (hfar : ∀ i c, i < num_contour_points → s.params_recon.cons[i]? = some c →
      FarFrom env.lm (projectCandidates env s candidates) c) :
    UpdateContourIndices env s = some (s.emit .updateContourIndices) := by
  have hloop : (List.range num_contour_points).foldlM
      (rebindContour env.lm candidates (projectCandidates env s candidates))
      (s.indices, s.params_recon.cons) = some (s.indices, s.params_recon.cons) := by
    obtain ⟨st', hst, rfl⟩ := foldlM_range_total
      (rebindContour env.lm candidates (projectCandidates env s candidates))
      (fun _ st => st = (s.indices, s.params_recon.cons)) num_contour_points
      (s.indices, s.params_recon.cons) rfl (by
        intro i st hi hst
        subst hst
        have hi' : i < s.params_recon.cons.length := lt_of_lt_of_le hi hlen
        refine ⟨_, rebindContour_far env.lm candidates _ _ i _
          (List.getElem?_eq_getElem hi') ?_ (hfar i _ hi (List.getElem?_eq_getElem hi')), rfl⟩
        simpa [projectCandidates] using hne)
    exact hst
  exact UpdateContourIndices_of_loop env s candidates _ hcand hloop

/-- C3. Contour update stability: in `UpdateContourIndices`, a constraint among the first 15
whose candidate projections all lie more than 100 pixels from its observed position (so the
nearest one does) keeps its vertex index, and the matching entry of `indices` is kept; if this
holds for all 15 contour constraints the call is defined and changes neither `indices` nor the
constraint list. -/
theorem contour_update_stability (env : Env K Model Mesh nId nExp)
    (s : SingleImageReconstructor K Model Mesh nId nExp) :
    (∀ s' candidates i c, UpdateContourIndices env s = some s' →
      contourCandidates env s = some candidates → i < num_contour_points →
      s.params_recon.cons[i]? = some c →
      FarFrom env.lm (projectCandidates env s candidates) c →
      s'.params_recon.cons[i]? = some c ∧ s'.indices[i]? = s.indices[i]?) ∧
    (∀ candidates, contourCandidates env s = some candidates → candidates ≠ [] →
      num_contour_points ≤ s.params_recon.cons.length →
      (∀ i c, i < num_contour_points → s.params_recon.cons[i]? = some c →
        FarFrom env.lm (projectCandidates env s candidates) c) →
      ∃ s', UpdateContourIndices env s = some s' ∧ s' = s.emit .updateContourIndices ∧
        s'.indices = s.indices ∧ s'.params_recon.cons = s.params_recon.cons) := by
  constructor
  · intro s' candidates i c h hcand _ hc hfar
    obtain ⟨candidates', st', hcand', hloop, rfl⟩ := UpdateContourIndices_eq_some h
    rw [hcand] at hcand'
    cases hcand'
    have hframe := (rebind_loop_frame env.lm candidates (projectCandidates env s candidates)
      s.indices s.params_recon.cons num_contour_points st' hloop).2.2.2.2 i
      (Or.inr ⟨c, hc, hfar⟩)
    simp only [SingleImageReconstructor.emit]
    exact ⟨hframe.2.trans hc, hframe.1⟩
  · intro candidates hcand hne hlen hfar
    exact ⟨_, UpdateContourIndices_far env s candidates hcand hne hlen hfar, rfl, rfl, rfl⟩

end ContourUpdate

section ModifyLoops

variable {α : Type}

theorem take_map_drop_getElem? (g : α → α) (v : List α) (n k : Nat) :
    ((v.take n).map g ++ v.drop n)[k]? = if k < n then (v[k]?).map g else v[k]? := by
  by_cases hk : k < n
  · rw [if_pos hk]
    by_cases hkl : k < v.length
    · rw [List.getElem?_append_left (by simp; omega), List.getElem?_map,
        List.getElem?_take_of_lt hk]
    · rw [List.getElem?_eq_none (by simp; omega), List.getElem?_eq_none (by omega)]
      rfl
  · rw [if_neg hk]
    by_cases hnl : n ≤ v.length
    · rw [List.getElem?_append_right (by simp; omega), List.getElem?_drop]
      congr 1
      simp
      omega
    · rw [List.getElem?_eq_none (by simp; omega), List.getElem?_eq_none (by omega)]

/-- The loop `for (i = 0; i < n; ++i) v[i] = g(v[i])`: defined exactly when `n ≤ v.size()`, and
then it maps `g` over the first `n` elements. -/
theorem modify_loop_eq_some (g : α → α) (n : Nat) (v v' : List α)
    (h : (List.range n).foldlM (fun c i => modifyAt? c i g) v = some v') :
    n ≤ v.length ∧ v' = (v.take n).map g ++ v.drop n := by
  have key := foldlM_range_partial (fun c i => modifyAt? c i g)
    (fun j c => j ≤ v.length ∧ c = (v.take j).map g ++ v.drop j) n v (by simp) (by
      intro i c c' _ hP hstep
      obtain ⟨_, rfl⟩ := hP
      obtain ⟨hi', rfl⟩ := modifyAt?_eq_some hstep
      have hi : i < v.length := by
        simp only [List.length_append, List.length_map, List.length_take,
          List.length_drop] at hi'
        omega
      refine ⟨hi, ?_⟩
      apply List.ext_getElem?
      intro k
      have hget : ((v.take i).map g ++ v.drop i)[i]? = v[i]? := by
        rw [take_map_drop_getElem?, if_neg (lt_irrefl i)]
      have hval : ((v.take i).map g ++ v.drop i)[i] = v[i] := by
        have h1 := List.getElem?_eq_getElem hi'
        rw [hget, List.getElem?_eq_getElem hi] at h1
        exact (Option.some.inj h1).symm
      rw [List.getElem?_set, take_map_drop_getElem? g v (i + 1) k,
        take_map_drop_getElem? g v i k, hval]
      by_cases hik : i = k
      · subst hik
        rw [if_pos rfl, if_pos hi', if_pos (Nat.lt_succ_self i), List.getElem?_eq_getElem hi]
        rfl
      · rw [if_neg hik]
        by_cases hki : k < i
        · rw [if_pos hki, if_pos (by omega)]
        · rw [if_neg hki, if_neg (by omega)]) v' h
  exact key

theorem map_take_map_drop_same {β : Type} (f : α → β) (g : α → α) (hfg : ∀ a, f (g a) = f a)
    (v : List α) (n : Nat) : ((v.take n).map g ++ v.drop n).map f = v.map f := by
  rw [List.map_append, List.map_map]
  have : f ∘ g = f := funext hfg
  rw [this, ← List.map_append, List.take_append_drop]

theorem map_take_map_drop_comm {β : Type} (f : α → β) (g : α → α) (h : β → β)
    (hfg : ∀ a, f (g a) = h (f a)) (v : List α) (n : Nat) :
    ((v.take n).map g ++ v.drop n).map f = ((v.map f).take n).map h ++ (v.map f).drop n := by
  have : f ∘ g = h ∘ f := funext hfg
  rw [List.map_append, List.map_map, this, ← List.map_map, List.map_take, List.map_drop]

theorem modify_loop_total (g : α → α) (n : Nat) (v : List α) (hn : n ≤ v.length) :
    (List.range n).foldlM (fun c i => modifyAt? c i g) v =
      some ((v.take n).map g ++ v.drop n) := by
  obtain ⟨v', hv', _⟩ := foldlM_range_total (fun c i => modifyAt? c i g)
    (fun _ c => c.length = v.length) n v rfl (by
      intro i c hi hc
      refine ⟨_, modifyAt?_some c i g (by omega), by simpa using hc⟩)
  rw [hv', (modify_loop_eq_some g n v v' hv').2]

end ModifyLoops

/-! ## Initialisation -/

section Initialisation

variable {K : Type}

/-- The loop `cons[i].vidx = indices[i]` over the indices list, when it is defined. -/
theorem vidx_loop_eq_some (indices : List Int) (cons cons' : List (Constraint2D K))
    (h : (List.range indices.length).foldlM (fun cons i => do
      let idx ← indices[i]?
      modifyAt? cons i (fun c => { c with vidx := idx })) cons = some cons') :
    indices.length ≤ cons.length ∧ cons'.length = cons.length ∧
    cons'.map (fun c => c.data) = cons.map (fun c => c.data) ∧
    cons'.map (fun c => c.weight) = cons.map (fun c => c.weight) ∧
    (∀ k, k < indices.length → (cons'[k]?).map (fun c => c.vidx) = indices[k]?) ∧
    (∀ k, indices.length ≤ k → cons'[k]? = cons[k]?) := by
  refine foldlM_range_partial _
    (fun j (v : List (Constraint2D K)) => j ≤ cons.length ∧ v.length = cons.length ∧
      v.map (fun c => c.data) = cons.map (fun c => c.data) ∧
      v.map (fun c => c.weight) = cons.map (fun c => c.weight) ∧
      (∀ k, k < j → (v[k]?).map (fun c => c.vidx) = indices[k]?) ∧
      (∀ k, j ≤ k → v[k]? = cons[k]?)) indices.length cons
    ⟨Nat.zero_le _, rfl, rfl, rfl, fun k hk => absurd hk (Nat.not_lt_zero k), fun _ _ => rfl⟩
    ?_ cons' h
  intro i v v' hi hP hstep
  obtain ⟨_, hlen, hdata, hweight, hdone, hrest⟩ := hP
  simp only [Option.bind_eq_bind, Option.bind_eq_some] at hstep
  obtain ⟨idx, hidx, hmod⟩ := hstep
  obtain ⟨hic, rfl⟩ := modifyAt?_eq_some hmod
  have hci := List.getElem?_eq_getElem hic
  refine ⟨by omega, by simpa using hlen, ?_, ?_, ?_, ?_⟩
  · rw [← hdata]
    exact map_set_same _ _ _ _ _ hci rfl
  · rw [← hweight]
    exact map_set_same _ _ _ _ _ hci rfl
  · intro k hk
    by_cases hik : i = k
    · subst hik
      rw [List.getElem?_set_self hic, hidx]
      rfl
    · rw [List.getElem?_set_ne hik]
      exact hdone k (by omega)
  · intro k hk
    rw [List.getElem?_set_ne (by omega)]
    exact hrest k (by omega)

theorem vidx_loop_total (indices : List Int) (cons : List (Constraint2D K))
    (hlen : indices.length ≤ cons.length) :
    ∃ cons', (List.range indices.length).foldlM (fun cons i => do
      let idx ← indices[i]?
      modifyAt? cons i (fun c => { c with vidx := idx })) cons = some cons' := by
  obtain ⟨cons', h, _⟩ := foldlM_range_total (fun (cons : List (Constraint2D K)) i => do
      let idx ← indices[i]?
      modifyAt? cons i (fun c => { c with vidx := idx }))
    (fun _ v => v.length = cons.length) indices.length cons rfl (by
      intro i v hi hv
      refine ⟨v.set i { v[i] with vidx := indices[i] }, ?_, by simpa using hv⟩
      simp only [Option.bind_eq_bind, List.getElem?_eq_getElem hi, Option.some_bind]
      exact modifyAt?_some v i _ (by omega))
  exact ⟨cons', h⟩

end Initialisation

section InitFlow

variable {K Model Mesh : Type} {nId nExp : Nat} [LinearOrderedField K]

theorem initReconstruct_eq_some {env : Env K Model Mesh nId nExp}
    {s s' : SingleImageReconstructor K Model Mesh nId nExp}
    (h : initReconstruct env s = some s') :
    ∃ cons1, (List.range s.indices.length).foldlM (fun cons i => do
        let idx ← s.indices[i]?
        modifyAt? cons i (fun c => { c with vidx := idx })) s.params_recon.cons = some cons1 ∧
      num_contour_points ≤ cons1.length ∧
      s' = ({ s with
        params_cam :=
          { focal_length := ⟨1000, 1000⟩
            image_plane_center := ⟨(s.params_recon.imageWidth : K) * (1 / 2),
                                   (s.params_recon.imageHeight : K) * (1 / 2)⟩
            image_size := ⟨(s.params_recon.imageWidth : K), (s.params_recon.imageHeight : K)⟩ }
        params_model :=
          { Wid := s.prior.Wid_avg
            Wexp := Matrix.vecMul (fun i : Fin nFACSDim => if i.val = 0 then 1 else 1 / 1000000)
              s.prior.Uexp
            Wexp_FACS := fun i => if i.val = 0 then 1 else 1 / 1000000
            R := ⟨0, 0, 0⟩
            T := ⟨0, 0, -1⟩ }
        model := env.model.ApplyWeights s.model s.prior.Wid_avg
          (Matrix.vecMul (fun i : Fin nFACSDim => if i.val = 0 then 1 else 1 / 1000000)
            s.prior.Uexp)
        log := s.log ++ [⟨.applyWeights,
          ⟨{ Wid := s.prior.Wid_avg
             Wexp := Matrix.vecMul
               (fun i : Fin nFACSDim => if i.val = 0 then 1 else 1 / 1000000) s.prior.Uexp
             Wexp_FACS := fun i => if i.val = 0 then 1 else 1 / 1000000
             R := ⟨0, 0, 0⟩
             T := ⟨0, 0, -1⟩ },
           s.params_recon.cons, s.indices, s.prior.weight_Wid, s.prior.weight_Wexp⟩⟩]
        params_recon := { s.params_recon with
          cons := (cons1.take num_contour_points).map (fun c => { c with weight := 9 / 10 }) ++
            cons1.drop num_contour_points }
        prior := { s.prior with weight_Wid := 10, weight_Wexp := 1 / 10 } } :
          SingleImageReconstructor K Model Mesh nId nExp).emit .initialized := by
  simp only [initReconstruct, Option.bind_eq_bind, Option.bind_eq_some, Option.pure_def,
    Option.some.injEq] at h
  obtain ⟨cons1, h1, cons2, h2, rfl⟩ := h
  obtain ⟨hlen, rfl⟩ := modify_loop_eq_some _ _ _ _ h2
  exact ⟨cons1, h1, hlen, rfl⟩

theorem initReconstruct_total (env : Env K Model Mesh nId nExp)
    (s : SingleImageReconstructor K Model Mesh nId nExp)
    (hlen : s.indices.length ≤ s.params_recon.cons.length)
    (h15 : num_contour_points ≤ s.params_recon.cons.length) :
    ∃ s', initReconstruct env s = some s' := by
  simp only [initReconstruct, Option.bind_eq_bind, Option.pure_def]
  refine option_bind_total (vidx_loop_total s.indices s.params_recon.cons hlen)
    (fun cons1 h1 => ?_)
  have hl1 : cons1.length = s.params_recon.cons.length := (vidx_loop_eq_some _ _ _ h1).2.1
  rw [modify_loop_total _ _ _ (by omega)]
  exact ⟨_, rfl⟩

end InitFlow

section ControlFlow

variable {K Model Mesh : Type} {nId nExp : Nat} [LinearOrderedField K] [FloorRing K]

theorem outerIteration_eq_some {env : Env K Model Mesh nId nExp} {iters : Nat}
    {s s' : SingleImageReconstructor K Model Mesh nId nExp}
    (h : outerIteration env iters s = some s') :
    ∃ s1 s2 s3 s4 s5 s8 : SingleImageReconstructor K Model Mesh nId nExp,
      OptimizeForPose env 30 s = some s1 ∧
      OptimizeForExpression env iters s1 = some s2 ∧
      OptimizeForPose env 30 s2 = some s3 ∧
      OptimizeForIdentity env iters s3 = some s4 ∧
      OptimizeForPose env 30 s4 = some s5 ∧
      UpdateContourIndices env
        (({ s5 with
            model := (env.model.ApplyWeights s5.model s5.params_model.Wid s5.params_model.Wexp)
            mesh := (env.mesh.ComputeNormals (env.mesh.UpdateVertices s5.mesh
              (env.model.GetTM (env.model.ApplyWeights s5.model s5.params_model.Wid
                s5.params_model.Wexp))))
            log := s5.log ++ [(⟨.applyWeights, s5.snapshot⟩ : Event K nId nExp)] } :
          SingleImageReconstructor K Model Mesh nId nExp).emit .updateMesh) = some s8 ∧
      num_contour_points ≤ s8.params_recon.cons.length ∧
      s' = ({ s8 with
        prior := ({ s8.prior with
          weight_Wid := s8.prior.weight_Wid - 1
          weight_Wexp := s8.prior.weight_Wexp - 1 / 100 } : MultilinearModelPrior K nId nExp)
        params_recon := ({ s8.params_recon with
          cons := (s8.params_recon.cons.take num_contour_points).map
              (fun c => { c with weight := env.lm.sqrt c.weight }) ++
            s8.params_recon.cons.drop num_contour_points } : ReconstructionParameters K) } :
          SingleImageReconstructor K Model Mesh nId nExp).emit .adjustWeights := by
  simp only [outerIteration, Option.bind_eq_bind, Option.bind_eq_some, Option.pure_def,
    Option.some.injEq] at h
  obtain ⟨s1, h1, s2, h2, s3, h3, s4, h4, s5, h5, s8, h8, cons', hc, rfl⟩ := h
  obtain ⟨hlen, rfl⟩ := modify_loop_eq_some _ _ _ _ hc
  exact ⟨s1, s2, s3, s4, s5, s8, h1, h2, h3, h4, h5, h8, hlen, rfl⟩

theorem outerIteration_of_steps {env : Env K Model Mesh nId nExp} {iters : Nat}
    {s s1 s2 s3 s4 s5 s8 : SingleImageReconstructor K Model Mesh nId nExp}
    (h1 : OptimizeForPose env 30 s = some s1)
    (h2 : OptimizeForExpression env iters s1 = some s2)
    (h3 : OptimizeForPose env 30 s2 = some s3)
    (h4 : OptimizeForIdentity env iters s3 = some s4)
    (h5 : OptimizeForPose env 30 s4 = some s5)
    (h8 : UpdateContourIndices env
        (({ s5 with
            model := (env.model.ApplyWeights s5.model s5.params_model.Wid s5.params_model.Wexp)
            mesh := (env.mesh.ComputeNormals (env.mesh.UpdateVertices s5.mesh
              (env.model.GetTM (env.model.ApplyWeights s5.model s5.params_model.Wid
                s5.params_model.Wexp))))
            log := s5.log ++ [(⟨.applyWeights, s5.snapshot⟩ : Event K nId nExp)] } :
          SingleImageReconstructor K Model Mesh nId nExp).emit .updateMesh) = some s8)
    (hlen : num_contour_points ≤ s8.params_recon.cons.length) :
    outerIteration env iters s = some (({ s8 with
        prior := ({ s8.prior with
          weight_Wid := s8.prior.weight_Wid - 1
          weight_Wexp := s8.prior.weight_Wexp - 1 / 100 } : MultilinearModelPrior K nId nExp)
        params_recon := ({ s8.params_recon with
          cons := (s8.params_recon.cons.take num_contour_points).map
              (fun c => { c with weight := env.lm.sqrt c.weight }) ++
            s8.params_recon.cons.drop num_contour_points } : ReconstructionParameters K) } :
          SingleImageReconstructor K Model Mesh nId nExp).emit .adjustWeights) := by
  simp only [outerIteration, Option.bind_eq_bind, Option.bind_eq_some, Option.pure_def,
    Option.some.injEq]
  exact ⟨s1, h1, s2, h2, s3, h3, s4, h4, s5, h5, s8, h8, _, modify_loop_total _ _ _ hlen, rfl⟩

theorem outerLoop_first (env : Env K Model Mesh nId nExp) (k : Nat)
    (s s' : SingleImageReconstructor K Model Mesh nId nExp) (hk : k < kMaxIterations)
    (h : outerLoop env k s = some s') :
    ∃ s1, outerIteration env (k + 1) s = some s1 ∧ outerLoop env (k + 1) s1 = some s' := by
  rw [outerLoop, dif_pos hk] at h
  cases h1 : outerIteration env (k + 1) s with
  | none => simp [h1] at h
  | some s1 =>
    simp only [h1] at h
    exact ⟨s1, rfl, h⟩

/-- Total correctness rule for the `while` loop of `Reconstruct`. -/
theorem outerLoop_total_rule (env : Env K Model Mesh nId nExp)
    (P : Nat → SingleImageReconstructor K Model Mesh nId nExp → Prop)
    (hstep : ∀ k s, k < kMaxIterations → P k s →
      ∃ s', outerIteration env (k + 1) s = some s' ∧ P (k + 1) s') :
    ∀ d k s, k + d = kMaxIterations → P k s →
      ∃ s', outerLoop env k s = some s' ∧ P kMaxIterations s' := by
  intro d
  induction d with
  | zero =>
    intro k s hk hP
    have hk' : k = kMaxIterations := by omega
    subst hk'
    rw [outerLoop, dif_neg (lt_irrefl _)]
    exact ⟨s, rfl, hP⟩
  | succ d ih =>
    intro k s hk hP
    have hk' : k < kMaxIterations := by omega
    obtain ⟨s1, h1, hP1⟩ := hstep k s hk' hP
    obtain ⟨s2, h2, hP2⟩ := ih (k + 1) s1 (by omega) hP1
    refine ⟨s2, ?_, hP2⟩
    rw [outerLoop, dif_pos hk', h1]
    exact h2

/-- Partial correctness rule for the `while` loop of `Reconstruct`. -/
theorem outerLoop_partial_rule (env : Env K Model Mesh nId nExp)
    (P : Nat → SingleImageReconstructor K Model Mesh nId nExp → Prop)
    (hstep : ∀ k s s', k < kMaxIterations → P k s →
      outerIteration env (k + 1) s = some s' → P (k + 1) s') :
    ∀ d k s s', k + d = kMaxIterations → P k s → outerLoop env k s = some s' →
      P kMaxIterations s' := by
  intro d
  induction d with
  | zero =>
    intro k s s' hk hP h
    have hk' : k = kMaxIterations := by omega
    subst hk'
    rw [outerLoop, dif_neg (lt_irrefl _)] at h
    cases h
    exact hP
  | succ d ih =>
    intro k s s' hk hP h
    have hk' : k < kMaxIterations := by omega
    rw [outerLoop, dif_pos hk'] at h
    cases h1 : outerIteration env (k + 1) s with
    | none => simp [h1] at h
    | some s1 =>
      simp only [h1] at h
      exact ih (k + 1) s1 s' (by omega) (hstep k s s1 hk' hP h1) h

theorem Reconstruct_eq_some {env : Env K Model Mesh nId nExp}
    {s : SingleImageReconstructor K Model Mesh nId nExp}
    {r : Bool × SingleImageReconstructor K Model Mesh nId nExp}
    (h : Reconstruct env s = some r) :
    ∃ s0 s1 : SingleImageReconstructor K Model Mesh nId nExp,
      initReconstruct env s = some s0 ∧ outerLoop env 0 s0 = some s1 ∧
      r = (true, { s1 with model := (env.model.ApplyWeights s1.model s1.params_model.Wid
        s1.params_model.Wexp) }.emit .applyWeights) := by
  simp only [Reconstruct, Option.bind_eq_bind, Option.bind_eq_some, Option.pure_def,
    Option.some.injEq] at h
  obtain ⟨s0, h0, s1, h1, rfl⟩ := h
  exact ⟨s0, s1, h0, h1, rfl⟩

end ControlFlow

/-! ## Frame conditions of the four operations -/

section Frames

variable {K Model Mesh : Type} {nId nExp : Nat}

theorem Frame.refl (s : SingleImageReconstructor K Model Mesh nId nExp) : Frame s s :=
  ⟨rfl, rfl, rfl, rfl, rfl, rfl, rfl⟩

theorem Frame.trans {s1 s2 s3 : SingleImageReconstructor K Model Mesh nId nExp}
    (h12 : Frame s1 s2) (h23 : Frame s2 s3) : Frame s1 s3 :=
  ⟨h23.contour_indices.trans h12.contour_indices, h23.indices_length.trans h12.indices_length,
   h23.cons_length.trans h12.cons_length, h23.data.trans h12.data, h23.weight.trans h12.weight,
   h23.prior.trans h12.prior, h23.params_cam.trans h12.params_cam⟩

theorem WellFormed.of_frame {s s' : SingleImageReconstructor K Model Mesh nId nExp}
    (h : WellFormed s) (hf : Frame s s') : WellFormed s' := by
  obtain ⟨h35, hlen, h15, hne, hg⟩ := h
  refine ⟨?_, ?_, ?_, ?_, ?_⟩
  · rw [hf.cons_length]; exact h35
  · rw [hf.cons_length, hf.indices_length]; exact hlen
  · rw [hf.indices_length]; exact h15
  · rw [hf.contour_indices]; exact hne
  · rw [hf.contour_indices]; exact hg

theorem OptimizeForPose_frame {env : Env K Model Mesh nId nExp} {max_iters : Nat}
    {s s' : SingleImageReconstructor K Model Mesh nId nExp}
    (h : OptimizeForPose env max_iters s = some s') :
    Frame s s' ∧ s'.log = s.log ++ [⟨.pose max_iters, s'.snapshot⟩] ∧
      s'.params_model.Wexp = s.params_model.Wexp ∧
      s'.params_model.Wexp_FACS = s.params_model.Wexp_FACS ∧
      s'.indices = s.indices ∧ s'.params_recon = s.params_recon := by
  obtain ⟨_, problem, _, rfl⟩ := OptimizeForPose_eq_some h
  exact ⟨⟨rfl, rfl, rfl, rfl, rfl, rfl, rfl⟩, rfl, rfl, rfl, rfl, rfl⟩

end Frames

section FramesField

variable {K Model Mesh : Type} {nId nExp : Nat} [LinearOrderedField K]

theorem OptimizeForExpression_frame {env : Env K Model Mesh nId nExp} {iteration : Nat}
    {s s' : SingleImageReconstructor K Model Mesh nId nExp}
    (h : OptimizeForExpression env iteration s = some s') :
    Frame s s' ∧
      (∃ scale, priorScale env.lm s.params_recon.cons = some scale ∧
        s'.log = s.log ++
          [⟨.expression (iteration * 5) (s.prior.weight_Wexp * scale), s'.snapshot⟩]) ∧
      s'.params_model.Wexp = Matrix.vecMul s'.params_model.Wexp_FACS s.prior.Uexp ∧
      s'.indices = s.indices ∧ s'.params_recon = s.params_recon := by
  obtain ⟨_, scale, problem, hscale, _, rfl⟩ := OptimizeForExpression_eq_some h
  exact ⟨⟨rfl, rfl, rfl, rfl, rfl, rfl, rfl⟩, ⟨scale, hscale, rfl⟩, rfl, rfl, rfl⟩

theorem OptimizeForIdentity_frame {env : Env K Model Mesh nId nExp} {iteration : Nat}
    {s s' : SingleImageReconstructor K Model Mesh nId nExp}
    (h : OptimizeForIdentity env iteration s = some s') :
    Frame s s' ∧
      (∃ scale, priorScale env.lm s.params_recon.cons = some scale ∧
        s'.log = s.log ++
          [⟨.identity (iteration * 5) (s.prior.weight_Wid * scale), s'.snapshot⟩]) ∧
      s'.params_model.Wexp = s.params_model.Wexp ∧
      s'.params_model.Wexp_FACS = s.params_model.Wexp_FACS ∧
      s'.indices = s.indices ∧ s'.params_recon = s.params_recon := by
  obtain ⟨_, scale, problem, hscale, _, rfl⟩ := OptimizeForIdentity_eq_some h
  exact ⟨⟨rfl, rfl, rfl, rfl, rfl, rfl, rfl⟩, ⟨scale, hscale, rfl⟩, rfl, rfl, rfl, rfl⟩

variable [FloorRing K]

theorem UpdateContourIndices_frame {env : Env K Model Mesh nId nExp}
    {s s' : SingleImageReconstructor K Model Mesh nId nExp}
    (h : UpdateContourIndices env s = some s') :
    Frame s s' ∧ s'.log = s.log ++ [⟨.updateContourIndices, s'.snapshot⟩] ∧
      s'.params_model = s.params_model ∧ s'.mesh = s.mesh ∧ s'.model = s.model := by
  obtain ⟨candidates, st', _, hloop, rfl⟩ := UpdateContourIndices_eq_some h
  obtain ⟨h1, h2, h3, h4, _⟩ := rebind_loop_frame _ _ _ _ _ _ _ hloop
  exact ⟨⟨rfl, h1, h2, h3, h4, rfl, rfl⟩, rfl, rfl, rfl, rfl⟩

end FramesField

/-! ## The outer iteration -/

section OuterIteration

variable {K Model Mesh : Type} {nId nExp : Nat} [LinearOrderedField K] [FloorRing K]

/-- What one outer iteration does to the observed part of the state and to the log. -/
theorem outerIteration_summary {env : Env K Model Mesh nId nExp} {iters : Nat}
    {s s' : SingleImageReconstructor K Model Mesh nId nExp}
    (h : outerIteration env iters s = some s') :
    ∃ scale, priorScale env.lm s.params_recon.cons = some scale ∧
      s'.contour_indices = s.contour_indices ∧
      s'.indices.length = s.indices.length ∧
      s'.params_recon.cons.length = s.params_recon.cons.length ∧
      s'.params_recon.cons.map (fun c => c.data) = s.params_recon.cons.map (fun c => c.data) ∧
      s'.params_recon.cons.map (fun c => c.weight) =
        annealWeights env.lm (s.params_recon.cons.map (fun c => c.weight)) ∧
      s'.prior.weight_Wid = s.prior.weight_Wid - 1 ∧
      s'.prior.weight_Wexp = s.prior.weight_Wexp - 1 / 100 ∧
      s'.log.map Event.obs = s.log.map Event.obs ++
        iterationObs env.lm scale iters s.prior.weight_Wid s.prior.weight_Wexp
          (s.params_recon.cons.map (fun c => c.weight)) := by
  obtain ⟨s1, s2, s3, s4, s5, s8, h1, h2, h3, h4, h5, h8, hlen, rfl⟩ := outerIteration_eq_some h
  obtain ⟨f1, l1, -, -, -, r1⟩ := OptimizeForPose_frame h1
  obtain ⟨f2, ⟨scale, hscale, l2⟩, -, -, r2⟩ := OptimizeForExpression_frame h2
  obtain ⟨f3, l3, -, -, -, r3⟩ := OptimizeForPose_frame h3
  obtain ⟨f4, ⟨scale', hscale', l4⟩, -, -, -, r4⟩ := OptimizeForIdentity_frame h4
  obtain ⟨f5, l5, -, -, -, r5⟩ := OptimizeForPose_frame h5
  obtain ⟨f8, l8, -, -, -⟩ := UpdateContourIndices_frame h8
  rw [r1] at hscale
  rw [r3, r2, r1, hscale] at hscale'
  cases hscale'
  have g1 := f1
  have g2 := f1.trans f2
  have g3 := g2.trans f3
  have g4 := g3.trans f4
  have g5 := g4.trans f5
  have f7 : Frame s5 (({ s5 with
      model := (env.model.ApplyWeights s5.model s5.params_model.Wid s5.params_model.Wexp)
      mesh := (env.mesh.ComputeNormals (env.mesh.UpdateVertices s5.mesh
        (env.model.GetTM (env.model.ApplyWeights s5.model s5.params_model.Wid
          s5.params_model.Wexp))))
      log := s5.log ++ [(⟨.applyWeights, s5.snapshot⟩ : Event K nId nExp)] } :
        SingleImageReconstructor K Model Mesh nId nExp).emit .updateMesh) :=
    ⟨rfl, rfl, rfl, rfl, rfl, rfl, rfl⟩
  have g8 := (g5.trans f7).trans f8
  have hW : (((s8.params_recon.cons.take num_contour_points).map
        (fun c => ({ c with weight := env.lm.sqrt c.weight } : Constraint2D K)) ++
      s8.params_recon.cons.drop num_contour_points).map (fun c => c.weight)) =
      annealWeights env.lm (s.params_recon.cons.map (fun c => c.weight)) := by
    rw [map_take_map_drop_comm (fun c : Constraint2D K => c.weight) _ env.lm.sqrt
      (fun _ => rfl), g8.weight]
    rfl
  refine ⟨scale, hscale, g8.contour_indices, g8.indices_length, ?_, ?_, hW, ?_, ?_, ?_⟩
  · simp only [SingleImageReconstructor.emit, List.length_append, List.length_map,
      List.length_take, List.length_drop]
    have := g8.cons_length
    omega
  · simp only [SingleImageReconstructor.emit]
    rw [← g8.data]
    exact map_take_map_drop_same (fun c : Constraint2D K => c.data)
      (fun c => { c with weight := env.lm.sqrt c.weight }) (fun _ => rfl) _ _
  · simp only [SingleImageReconstructor.emit]
    rw [g8.prior]
  · simp only [SingleImageReconstructor.emit]
    rw [g8.prior]
  · simp only [SingleImageReconstructor.emit, l8, l5, l4, l3, l2, l1, List.append_assoc,
      List.singleton_append, List.cons_append, List.nil_append, List.map_append, List.map_cons,
      List.map_nil, iterationObs, Event.obs, SingleImageReconstructor.snapshot,
      g1.prior, g2.prior, g3.prior, g4.prior, g5.prior, g8.prior, g1.weight, g2.weight,
      g3.weight, g4.weight, g5.weight, g8.weight, hW]

end OuterIteration

/-! ## The run log of Reconstruct -/

section RunLog

variable {K Model Mesh : Type} {nId nExp : Nat} [LinearOrderedField K] [FloorRing K]

/-- The log written by the `while` loop entered with counter `k`, and the state it ends in. -/
theorem outerLoop_log (env : Env K Model Mesh nId nExp) (scale : K) :
    ∀ d k (s s' : SingleImageReconstructor K Model Mesh nId nExp), k + d = kMaxIterations →
      priorScale env.lm s.params_recon.cons = some scale → outerLoop env k s = some s' →
      s'.log.map Event.obs = s.log.map Event.obs ++
        expectedIterations env.lm scale d k s.prior.weight_Wid s.prior.weight_Wexp
          (s.params_recon.cons.map (fun c => c.weight)) ∧
      (s'.prior.weight_Wid, s'.prior.weight_Wexp,
          s'.params_recon.cons.map (fun c => c.weight)) =
        annealed env.lm d (s.prior.weight_Wid, s.prior.weight_Wexp,
          s.params_recon.cons.map (fun c => c.weight)) ∧
      s'.params_recon.cons.map (fun c => c.data) = s.params_recon.cons.map (fun c => c.data) ∧
      s'.params_recon.cons.length = s.params_recon.cons.length ∧
      s'.indices.length = s.indices.length ∧
      s'.contour_indices = s.contour_indices := by
  intro d
  induction d with
  | zero =>
    intro k s s' hk _ h
    have hk' : k = kMaxIterations := by omega
    subst hk'
    rw [outerLoop, dif_neg (lt_irrefl _)] at h
    cases h
    simp [expectedIterations, annealed]
  | succ d ih =>
    intro k s s' hk hscale h
    have hk' : k < kMaxIterations := by omega
    rw [outerLoop, dif_pos hk'] at h
    cases h1 : outerIteration env (k + 1) s with
    | none => simp [h1] at h
    | some s1 =>
      simp only [h1] at h
      obtain ⟨scale', hscale', hc, hi, hl, hdata, hweight, hwid, hwexp, hlog⟩ :=
        outerIteration_summary h1
      rw [hscale] at hscale'
      cases hscale'
      have hscale1 : priorScale env.lm s1.params_recon.cons = some scale := by
        rw [priorScale_congr env.lm _ _ hdata, hscale]
      obtain ⟨ihlog, ihfin, ihdata, ihl, ihi, ihc⟩ := ih (k + 1) s1 s' (by omega) hscale1 h
      refine ⟨?_, ?_, ihdata.trans hdata, ihl.trans hl, ihi.trans hi, ihc.trans hc⟩
      · rw [ihlog, hlog, hweight, hwid, hwexp, List.append_assoc]
        rfl
      · rw [ihfin, hweight, hwid, hwexp]
        rfl

/-- The log written by `Reconstruct`, as observed through `Event.obs`: the initialisation, eight
outer iterations and the final recomputation of the geometry. -/
theorem Reconstruct_log {env : Env K Model Mesh nId nExp}
    {s : SingleImageReconstructor K Model Mesh nId nExp}
    {r : Bool × SingleImageReconstructor K Model Mesh nId nExp}
    (h : Reconstruct env s = some r) :
    r.1 = true ∧ ∃ scale, priorScale env.lm s.params_recon.cons = some scale ∧
      r.2.log.map Event.obs = s.log.map Event.obs ++
        ([(.applyWeights, s.prior.weight_Wid, s.prior.weight_Wexp,
            s.params_recon.cons.map (fun c => c.weight)),
          (.initialized, 10, 1 / 10, initialWeights (s.params_recon.cons.map (fun c => c.weight)))] ++
        expectedIterations env.lm scale kMaxIterations 0 10 (1 / 10)
          (initialWeights (s.params_recon.cons.map (fun c => c.weight))) ++
        [(.applyWeights, annealed env.lm kMaxIterations
          (10, 1 / 10, initialWeights (s.params_recon.cons.map (fun c => c.weight))))]) ∧
      (r.2.prior.weight_Wid, r.2.prior.weight_Wexp,
          r.2.params_recon.cons.map (fun c => c.weight)) =
        annealed env.lm kMaxIterations
          (10, 1 / 10, initialWeights (s.params_recon.cons.map (fun c => c.weight))) := by
  obtain ⟨s0, s1, h0, h1, rfl⟩ := Reconstruct_eq_some h
  obtain ⟨cons1, hc1, _, rfl⟩ := initReconstruct_eq_some h0
  obtain ⟨_, _, hdata1, hweight1, _, _⟩ := vidx_loop_eq_some _ _ _ hc1
  have hW0 : ((cons1.take num_contour_points).map
        (fun c => ({ c with weight := 9 / 10 } : Constraint2D K)) ++
      cons1.drop num_contour_points).map (fun c => c.weight) =
      initialWeights (s.params_recon.cons.map (fun c => c.weight)) := by
    rw [map_take_map_drop_comm (fun c : Constraint2D K => c.weight) _ (fun _ => 9 / 10)
      (fun _ => rfl), hweight1]
    rfl
  have hD0 : ((cons1.take num_contour_points).map
        (fun c => ({ c with weight := 9 / 10 } : Constraint2D K)) ++
      cons1.drop num_contour_points).map (fun c => c.data) =
      s.params_recon.cons.map (fun c => c.data) := by
    rw [← hdata1]
    exact map_take_map_drop_same (fun c : Constraint2D K => c.data)
      (fun c => { c with weight := 9 / 10 }) (fun _ => rfl) _ _
  have hloop35 : ∃ scale, priorScale env.lm s.params_recon.cons = some scale := by
    obtain ⟨s', hit, _⟩ := outerLoop_first env 0 _ s1 (by decide) h1
    obtain ⟨scale, hscale, _⟩ := outerIteration_summary hit
    exact ⟨scale, by rw [← hscale]; exact (priorScale_congr env.lm _ _ hD0).symm⟩
  obtain ⟨scale, hscale⟩ := hloop35
  obtain ⟨hlog, hfin, _⟩ := outerLoop_log env scale kMaxIterations 0 _ s1 (by omega)
    (by rw [← hscale]; exact priorScale_congr env.lm _ _ hD0) h1
  refine ⟨rfl, scale, hscale, ?_, ?_⟩
  · simp only [SingleImageReconstructor.emit, SingleImageReconstructor.snapshot, List.map_append,
      List.map_cons, List.map_nil, Event.obs, hW0] at hlog hfin ⊢
    rw [hlog, ← hfin]
    simp only [List.append_assoc, List.singleton_append, List.cons_append, List.nil_append]
  · simp only [SingleImageReconstructor.emit, hW0] at hfin ⊢
    exact hfin

end RunLog

/-! ## Totality under a well-formed configuration -/

section Totality

variable {K Model Mesh : Type} {nId nExp : Nat} [LinearOrderedField K]

theorem collectCandidates_loop_total (env : Env K Model Mesh nId nExp) (mesh : Mesh)
    (a b c : K) :
    ∀ (groups : List (List Int)) (acc : List (Int × Vec4 K)), (∀ g ∈ groups, g ≠ []) →
      ∃ cands, groups.foldlM (fun candidates group => do
          let added ← groupCandidates env mesh (glm.eulerAngleYXZ env.lm a b c) group
          pure (candidates ++ added)) acc = some cands ∧
        (acc ≠ [] ∨ groups ≠ [] → cands ≠ []) := by
  intro groups
  induction groups with
  | nil =>
    intro acc _
    exact ⟨acc, rfl, fun h => h.elim id (fun h => absurd rfl h)⟩
  | cons g rest ih =>
    intro acc hg
    obtain ⟨v, _, hgc⟩ := groupCandidates_eq env mesh a b c g (hg g (List.mem_cons_self g rest))
    obtain ⟨cands, hc, hne⟩ := ih (acc ++ ([v] ++
        (if 0 < min_element (g.map
            (rotatedNormalDot env mesh (glm.eulerAngleYXZ env.lm a b c))) then
          (g[min_element (g.map
            (rotatedNormalDot env mesh (glm.eulerAngleYXZ env.lm a b c))) - 1]?).toList
         else []) ++
        (g[min_element (g.map
            (rotatedNormalDot env mesh (glm.eulerAngleYXZ env.lm a b c))) + 1]?).toList).map
        (withMeshPosition env mesh))
      (fun g' hg' => hg g' (List.mem_cons_of_mem g hg'))
    refine ⟨cands, ?_, fun _ => hne (Or.inl (by simp))⟩
    rw [List.foldlM_cons, hgc]
    exact hc

theorem contourCandidates_total (env : Env K Model Mesh nId nExp)
    (s : SingleImageReconstructor K Model Mesh nId nExp) (hne : s.contour_indices ≠ [])
    (hg : ∀ g ∈ s.contour_indices, g ≠ []) :
    ∃ cands, contourCandidates env s = some cands ∧ cands ≠ [] := by
  obtain ⟨cands, hc, hcne⟩ := collectCandidates_loop_total env s.mesh s.params_model.R.x
    s.params_model.R.y s.params_model.R.z s.contour_indices [] hg
  exact ⟨cands, hc, hcne (Or.inr hne)⟩

variable [FloorRing K]

theorem UpdateContourIndices_total (env : Env K Model Mesh nId nExp)
    (s : SingleImageReconstructor K Model Mesh nId nExp) (hne : s.contour_indices ≠ [])
    (hg : ∀ g ∈ s.contour_indices, g ≠ []) (hi : num_contour_points ≤ s.indices.length)
    (hc : num_contour_points ≤ s.params_recon.cons.length) :
    ∃ s', UpdateContourIndices env s = some s' := by
  obtain ⟨cands, hcands, hcne⟩ := contourCandidates_total env s hne hg
  obtain ⟨st', hst, _⟩ := foldlM_range_total
    (rebindContour env.lm cands (projectCandidates env s cands))
    (fun _ st => st.1.length = s.indices.length ∧ st.2.length = s.params_recon.cons.length)
    num_contour_points (s.indices, s.params_recon.cons) ⟨rfl, rfl⟩ (by
      intro i st hlt hP
      obtain ⟨st1, h1⟩ := rebindContour_total env.lm cands (projectCandidates env s cands) st i
        (by omega) (by omega) (by simpa [projectCandidates] using hcne)
        (by simp [projectCandidates])
      refine ⟨st1, h1, ?_⟩
      obtain ⟨_, _, _, _, hcase⟩ := rebindContour_eq_some h1
      rcases hcase with ⟨_, rfl⟩ | ⟨_, _, _, _, rfl⟩
      · exact hP
      · simpa using hP)
  exact ⟨_, UpdateContourIndices_of_loop env s cands st' hcands hst⟩

theorem outerIteration_total (env : Env K Model Mesh nId nExp) (iters : Nat)
    (s : SingleImageReconstructor K Model Mesh nId nExp) (hwf : WellFormed s) :
    ∃ s', outerIteration env iters s = some s' ∧ WellFormed s' := by
  obtain ⟨s1, h1⟩ := OptimizeForPose_total env 30 s hwf.2.1
  have w1 := hwf.of_frame (OptimizeForPose_frame h1).1
  obtain ⟨s2, h2⟩ := OptimizeForExpression_total env iters s1 w1.2.1 w1.1
  have w2 := w1.of_frame (OptimizeForExpression_frame h2).1
  obtain ⟨s3, h3⟩ := OptimizeForPose_total env 30 s2 w2.2.1
  have w3 := w2.of_frame (OptimizeForPose_frame h3).1
  obtain ⟨s4, h4⟩ := OptimizeForIdentity_total env iters s3 w3.2.1 w3.1
  have w4 := w3.of_frame (OptimizeForIdentity_frame h4).1
  obtain ⟨s5, h5⟩ := OptimizeForPose_total env 30 s4 w4.2.1
  have w5 := w4.of_frame (OptimizeForPose_frame h5).1
  have w7 : WellFormed (({ s5 with
      model := (env.model.ApplyWeights s5.model s5.params_model.Wid s5.params_model.Wexp)
      mesh := (env.mesh.ComputeNormals (env.mesh.UpdateVertices s5.mesh
        (env.model.GetTM (env.model.ApplyWeights s5.model s5.params_model.Wid
          s5.params_model.Wexp))))
      log := s5.log ++ [(⟨.applyWeights, s5.snapshot⟩ : Event K nId nExp)] } :
        SingleImageReconstructor K Model Mesh nId nExp).emit .updateMesh) := w5
  obtain ⟨s8, h8⟩ := UpdateContourIndices_total env _ w7.2.2.2.1 w7.2.2.2.2
    (by have := w7.2.2.1; simp only [num_contour_points]; omega)
    (by have := w7.1; simp only [num_contour_points]; omega)
  have w8 := w7.of_frame (UpdateContourIndices_frame h8).1
  refine ⟨_, outerIteration_of_steps h1 h2 h3 h4 h5 h8
    (by have := w8.1; simp only [num_contour_points]; omega), ?_⟩
  obtain ⟨h35, hlen, h15, hcne, hcg⟩ := w8
  refine ⟨?_, ?_, h15, hcne, hcg⟩
  · simp only [SingleImageReconstructor.emit, List.length_append, List.length_map,
      List.length_take, List.length_drop]
    omega
  · simp only [SingleImageReconstructor.emit, List.length_append, List.length_map,
      List.length_take, List.length_drop]
    omega

end Totality

/-! ## Reconstruct -/

section ReconstructInit

variable {K Model Mesh : Type} {nId nExp : Nat} [LinearOrderedField K]

theorem initReconstruct_wellFormed {env : Env K Model Mesh nId nExp}
    {s s0 : SingleImageReconstructor K Model Mesh nId nExp} (hwf : WellFormed s)
    (h0 : initReconstruct env s = some s0) : WellFormed s0 := by
  obtain ⟨cons1, hc1, _, rfl⟩ := initReconstruct_eq_some h0
  obtain ⟨_, hl1, _⟩ := vidx_loop_eq_some _ _ _ hc1
  obtain ⟨h35, hlen, h15, hcne, hcg⟩ := hwf
  refine ⟨?_, ?_, h15, hcne, hcg⟩
  · simp only [SingleImageReconstructor.emit, List.length_append, List.length_map,
      List.length_take, List.length_drop]
    omega
  · simp only [SingleImageReconstructor.emit, List.length_append, List.length_map,
      List.length_take, List.length_drop]
    omega

end ReconstructInit

section LogDrop

variable {K : Type} {nId nExp : Nat}

theorem log_drop_obs {α : Type} (l l' : List (Event K nId nExp)) (f : Event K nId nExp → α)
    (X : List α) (h : l'.map f = l.map f ++ X) : (l'.drop l.length).map f = X := by
  rw [List.map_drop, h, List.drop_left' (by simp)]

end LogDrop

section ReconstructRun

variable {K Model Mesh : Type} {nId nExp : Nat} [LinearOrderedField K] [FloorRing K]

theorem Reconstruct_of_steps {env : Env K Model Mesh nId nExp}
    {s s0 s1 : SingleImageReconstructor K Model Mesh nId nExp}
    (h0 : initReconstruct env s = some s0) (h1 : outerLoop env 0 s0 = some s1) :
    Reconstruct env s = some (true,
      ({ s1 with model := (env.model.ApplyWeights s1.model s1.params_model.Wid
          s1.params_model.Wexp) } :
        SingleImageReconstructor K Model Mesh nId nExp).emit .applyWeights) := by
  simp only [Reconstruct, h0, h1, Option.bind_eq_bind, Option.some_bind, Option.pure_def]

/-- On a well-formed configuration `Reconstruct` is defined (no access by position leaves its
vector) and returns `true`. -/
theorem Reconstruct_total (env : Env K Model Mesh nId nExp)
    (s : SingleImageReconstructor K Model Mesh nId nExp) (hwf : WellFormed s) :
    ∃ r, Reconstruct env s = some (true, r) := by
  obtain ⟨s0, h0⟩ := initReconstruct_total env s hwf.2.1
    (by have := hwf.1; simp only [num_contour_points]; omega)
  obtain ⟨s1, h1, _⟩ := outerLoop_total_rule env (fun _ s => WellFormed s)
    (fun k s _ hs => outerIteration_total env (k + 1) s hs) kMaxIterations 0 s0 (by omega)
    (initReconstruct_wellFormed hwf h0)
  exact ⟨_, Reconstruct_of_steps h0 h1⟩

/-- C6. Outer-loop schedule: whatever the input and the solver do, a run of `Reconstruct`
appends to the log the calls of `reconstructSchedule` and returns `true`: the initialisation,
then for k = 1..8 pose solve (cap 30), expression solve (cap 5k), pose solve, identity solve
(cap 5k), pose solve, geometry and mesh refresh, contour update, annealing, and at the end one
more computation of the geometry; on a well-formed configuration the run is defined. -/
theorem Reconstruct_schedule (env : Env K Model Mesh nId nExp)
    (s : SingleImageReconstructor K Model Mesh nId nExp) :
    (∀ r, Reconstruct env s = some r →
      r.1 = true ∧ (r.2.log.drop s.log.length).map (fun e => e.call.kind) = reconstructSchedule) ∧
    (WellFormed s → ∃ r, Reconstruct env s = some (true, r)) := by
  refine ⟨?_, Reconstruct_total env s⟩
  intro r h
  obtain ⟨htrue, scale, _, hlog, _⟩ := Reconstruct_log h
  refine ⟨htrue, ?_⟩
  have h1 := log_drop_obs _ _ _ _ hlog
  have h2 : (r.2.log.drop s.log.length).map (fun e => e.call.kind) =
      ((r.2.log.drop s.log.length).map Event.obs).map (fun o => o.1.kind) := by
    rw [List.map_map]
    rfl
  rw [h2, h1]
  simp only [kMaxIterations, expectedIterations, iterationObs, List.map_append, List.map_cons,
    List.map_nil, Call.kind, reconstructSchedule, iterationSchedule, List.append_assoc,
    List.cons_append, List.nil_append, List.append_nil]

end ReconstructRun

section TrustWeights

variable {K Model Mesh : Type} {nId nExp : Nat} [LinearOrderedField K] [FloorRing K]

/-- C5. Trust-weight annealing: in a run of `Reconstruct` the identity solve of iteration
k = 1..8 sees the identity trust weight `11 - k` (and passes `(11 - k) * prior_scale` to the
prior residual), the expression solve sees `0.11 - 0.01 k`; the final values are `2` and `0.02`;
from the end of the initialisation on, both weights are never negative and never increase from
one log entry to the next; on a well-formed configuration the run is defined. -/
theorem trust_weight_annealing (env : Env K Model Mesh nId nExp)
    (s : SingleImageReconstructor K Model Mesh nId nExp) :
    (∀ r, Reconstruct env s = some r →
      ∃ scale, priorScale env.lm s.params_recon.cons = some scale ∧
        (r.2.log.drop s.log.length).filterMap Event.identityTrust =
          (List.range 8).map (fun j : Nat =>
            ((11 : K) - ((j + 1 : Nat) : K), ((11 : K) - ((j + 1 : Nat) : K)) * scale)) ∧
        (r.2.log.drop s.log.length).filterMap Event.expressionTrust =
          (List.range 8).map (fun j : Nat =>
            ((11 : K) / 100 - ((j + 1 : Nat) : K) / 100,
             ((11 : K) / 100 - ((j + 1 : Nat) : K) / 100) * scale)) ∧
        r.2.prior.weight_Wid = 2 ∧ r.2.prior.weight_Wexp = 2 / 100 ∧
        (∀ e ∈ (r.2.log.drop s.log.length).drop 1,
          0 ≤ e.after.weight_Wid ∧ 0 ≤ e.after.weight_Wexp) ∧
        List.Chain' (fun a b : Event K nId nExp =>
            b.after.weight_Wid ≤ a.after.weight_Wid ∧ b.after.weight_Wexp ≤ a.after.weight_Wexp)
          ((r.2.log.drop s.log.length).drop 1)) ∧
    (WellFormed s → ∃ r, Reconstruct env s = some (true, r)) := by
  refine ⟨?_, Reconstruct_total env s⟩
  intro r h
  obtain ⟨_, scale, hscale, hlog, hfin⟩ := Reconstruct_log h
  have h1 := log_drop_obs _ _ _ _ hlog
  generalize r.2.log.drop s.log.length = L at h1
  have hid : L.filterMap Event.identityTrust = (L.map Event.obs).filterMap
      (fun o => match o.1 with
        | .identity _ w => some (o.2.1, w)
        | _ => none) := by
    rw [List.filterMap_map]
    rfl
  have hex : L.filterMap Event.expressionTrust = (L.map Event.obs).filterMap
      (fun o => match o.1 with
        | .expression _ w => some (o.2.2.1, w)
        | _ => none) := by
    rw [List.filterMap_map]
    rfl
  have h2 : (L.drop 1).map Event.obs = (L.map Event.obs).drop 1 := by
    rw [List.map_drop]
  refine ⟨scale, hscale, ?_, ?_, ?_, ?_, ?_, ?_⟩
  · rw [hid, h1]
    simp only [kMaxIterations, expectedIterations, iterationObs, List.append_assoc,
      List.cons_append, List.nil_append, List.append_nil, List.filterMap_cons,
      List.filterMap_nil, annealed]
    simp only [List.range_succ, List.range_zero, List.nil_append, List.cons_append,
      List.map_cons, List.map_nil, List.cons.injEq, Prod.mk.injEq, and_true]
    norm_num
  · rw [hex, h1]
    simp only [kMaxIterations, expectedIterations, iterationObs, List.append_assoc,
      List.cons_append, List.nil_append, List.append_nil, List.filterMap_cons,
      List.filterMap_nil, annealed]
    simp only [List.range_succ, List.range_zero, List.nil_append, List.cons_append,
      List.map_cons, List.map_nil, List.cons.injEq, Prod.mk.injEq, and_true]
    norm_num
  · have := congrArg (fun x => x.1) hfin
    simp only [kMaxIterations, annealed] at this
    rw [this]
    norm_num
  · have := congrArg (fun x => x.2.1) hfin
    simp only [kMaxIterations, annealed] at this
    rw [this]
    norm_num
  · intro e he
    have hmem : Event.obs e ∈ (L.map Event.obs).drop 1 := by
      rw [← h2]
      exact List.mem_map_of_mem _ he
    rw [h1] at hmem
    simp only [kMaxIterations, expectedIterations, iterationObs, List.append_assoc,
      List.cons_append, List.nil_append, List.append_nil, annealed, List.drop_succ_cons,
      List.drop_zero, List.mem_cons, List.mem_singleton] at hmem
    have hw : e.after.weight_Wid = (Event.obs e).2.1 := rfl
    have hw' : e.after.weight_Wexp = (Event.obs e).2.2.1 := rfl
    rw [hw, hw']
    rcases hmem with h | h | h | h | h | h | h | h | h | h | h | h | h | h | h | h | h | h | h |
      h | h | h | h | h | h | h | h | h | h | h | h | h | h | h | h | h | h | h | h | h | h | h |
      h | h | h | h | h | h | h | h | h | h | h | h | h | h | h | h | h | h | h | h | h | h | h |
      h | h | h | h | h | h | h | h | h | h | h | h | h | h | h | h | h <;>
    · rw [h]
      norm_num
  · have hchain : List.Chain' (fun a b : Call K × K × K × List K =>
        b.2.1 ≤ a.2.1 ∧ b.2.2.1 ≤ a.2.2.1) ((L.drop 1).map Event.obs) := by
      rw [h2, h1]
      simp only [kMaxIterations, expectedIterations, iterationObs, List.append_assoc,
        List.cons_append, List.nil_append, List.append_nil, annealed, List.drop_succ_cons,
        List.drop_zero, List.chain'_cons, List.chain'_singleton, and_true]
      norm_num
    rw [List.chain'_map] at hchain
    exact hchain

end TrustWeights

/-! ## Consistency of the two expression vectors -/

section Consistency

variable {K Model Mesh : Type} {nId nExp : Nat} [LinearOrderedField K]

theorem ConsistentSince.step {Uexp : Matrix (Fin nFACSDim) (Fin nExp) K}
    {log0 : List (Event K nId nExp)} {s s' : SingleImageReconstructor K Model Mesh nId nExp}
    (h : ConsistentSince Uexp log0 s) (c : Call K)
    (hlog : s'.log = s.log ++ [⟨c, s'.snapshot⟩]) (hc : Consistent Uexp s'.params_model)
    (hU : s'.prior.Uexp = Uexp) : ConsistentSince Uexp log0 s' := by
  obtain ⟨L, hL, hall, _, _⟩ := h
  refine ⟨L ++ [⟨c, s'.snapshot⟩], by rw [hlog, hL, List.append_assoc], ?_, hc, hU⟩
  intro e he
  rcases List.mem_append.mp he with he | he
  · exact hall e he
  · rw [List.mem_singleton.mp he]
    exact hc

theorem ConsistentSince.base {Uexp : Matrix (Fin nFACSDim) (Fin nExp) K}
    {s : SingleImageReconstructor K Model Mesh nId nExp}
    (hc : Consistent Uexp s.params_model) (hU : s.prior.Uexp = Uexp) :
    ConsistentSince Uexp s.log s :=
  ⟨[], (List.append_nil _).symm, fun _ he => absurd he (List.not_mem_nil _), hc, hU⟩

theorem ConsistentSince.consistent {Uexp : Matrix (Fin nFACSDim) (Fin nExp) K}
    {log0 : List (Event K nId nExp)} {s : SingleImageReconstructor K Model Mesh nId nExp}
    (h : ConsistentSince Uexp log0 s) : Consistent Uexp s.params_model := by
  obtain ⟨_, _, _, hc, _⟩ := h
  exact hc

theorem ConsistentSince.uexp {Uexp : Matrix (Fin nFACSDim) (Fin nExp) K}
    {log0 : List (Event K nId nExp)} {s : SingleImageReconstructor K Model Mesh nId nExp}
    (h : ConsistentSince Uexp log0 s) : s.prior.Uexp = Uexp := by
  obtain ⟨_, _, _, _, hU⟩ := h
  exact hU

variable [FloorRing K]

theorem outerIteration_consistent {env : Env K Model Mesh nId nExp} {iters : Nat}
    {Uexp : Matrix (Fin nFACSDim) (Fin nExp) K} {log0 : List (Event K nId nExp)}
    {s s' : SingleImageReconstructor K Model Mesh nId nExp}
    (hs : ConsistentSince Uexp log0 s) (h : outerIteration env iters s = some s') :
    ConsistentSince Uexp log0 s' := by
  obtain ⟨s1, s2, s3, s4, s5, s8, h1, h2, h3, h4, h5, h8, _, rfl⟩ := outerIteration_eq_some h
  obtain ⟨f1, l1, a1, b1, -, -⟩ := OptimizeForPose_frame h1
  obtain ⟨f2, ⟨_, _, l2⟩, a2, -, -⟩ := OptimizeForExpression_frame h2
  obtain ⟨f3, l3, a3, b3, -, -⟩ := OptimizeForPose_frame h3
  obtain ⟨f4, ⟨_, _, l4⟩, a4, b4, -, -⟩ := OptimizeForIdentity_frame h4
  obtain ⟨f5, l5, a5, b5, -, -⟩ := OptimizeForPose_frame h5
  obtain ⟨f8, l8, a8, -, -⟩ := UpdateContourIndices_frame h8
  have c1 : ConsistentSince Uexp log0 s1 := hs.step _ l1
    (by have := hs.consistent; unfold Consistent at this ⊢; rw [a1, b1, this])
    (by rw [f1.prior, hs.uexp])
  have c2 : ConsistentSince Uexp log0 s2 := c1.step _ l2
    (by unfold Consistent; rw [a2, c1.uexp]) (by rw [f2.prior, c1.uexp])
  have c3 : ConsistentSince Uexp log0 s3 := c2.step _ l3
    (by have := c2.consistent; unfold Consistent at this ⊢; rw [a3, b3, this])
    (by rw [f3.prior, c2.uexp])
  have c4 : ConsistentSince Uexp log0 s4 := c3.step _ l4
    (by have := c3.consistent; unfold Consistent at this ⊢; rw [a4, b4, this])
    (by rw [f4.prior, c3.uexp])
  have c5 : ConsistentSince Uexp log0 s5 := c4.step _ l5
    (by have := c4.consistent; unfold Consistent at this ⊢; rw [a5, b5, this])
    (by rw [f5.prior, c4.uexp])
  have c6 : ConsistentSince Uexp log0 ({ s5 with
      model := (env.model.ApplyWeights s5.model s5.params_model.Wid s5.params_model.Wexp)
      mesh := (env.mesh.ComputeNormals (env.mesh.UpdateVertices s5.mesh
        (env.model.GetTM (env.model.ApplyWeights s5.model s5.params_model.Wid
          s5.params_model.Wexp))))
      log := s5.log ++ [(⟨.applyWeights, s5.snapshot⟩ : Event K nId nExp)] } :
        SingleImageReconstructor K Model Mesh nId nExp) :=
    c5.step .applyWeights rfl c5.consistent c5.uexp
  have c7 : ConsistentSince Uexp log0 (({ s5 with
      model := (env.model.ApplyWeights s5.model s5.params_model.Wid s5.params_model.Wexp)
      mesh := (env.mesh.ComputeNormals (env.mesh.UpdateVertices s5.mesh
        (env.model.GetTM (env.model.ApplyWeights s5.model s5.params_model.Wid
          s5.params_model.Wexp))))
      log := s5.log ++ [(⟨.applyWeights, s5.snapshot⟩ : Event K nId nExp)] } :
        SingleImageReconstructor K Model Mesh nId nExp).emit .updateMesh) :=
    c6.step .updateMesh rfl c5.consistent c5.uexp
  have c8 : ConsistentSince Uexp log0 s8 := c7.step _ l8
    (by rw [a8]; exact c5.consistent) (by rw [f8.prior]; exact c5.uexp)
  exact c8.step .adjustWeights rfl c8.consistent c8.uexp

/-- Every state reached by `Reconstruct`, from the end of its first assignments on, has
consistent expression vectors. -/
theorem Reconstruct_consistent {env : Env K Model Mesh nId nExp}
    {s : SingleImageReconstructor K Model Mesh nId nExp}
    {r : Bool × SingleImageReconstructor K Model Mesh nId nExp}
    (h : Reconstruct env s = some r) : ConsistentSince s.prior.Uexp s.log r.2 := by
  obtain ⟨s0, s1, h0, h1, rfl⟩ := Reconstruct_eq_some h
  obtain ⟨cons1, _, _, hs0⟩ := initReconstruct_eq_some h0
  have hA : ConsistentSince s.prior.Uexp s.log ({ s with params_model :=
      { Wid := s.prior.Wid_avg
        Wexp := Matrix.vecMul (fun i : Fin nFACSDim => if i.val = 0 then 1 else 1 / 1000000)
          s.prior.Uexp
        Wexp_FACS := fun i => if i.val = 0 then 1 else 1 / 1000000
        R := ⟨0, 0, 0⟩
        T := ⟨0, 0, -1⟩ } } : SingleImageReconstructor K Model Mesh nId nExp) :=
    ConsistentSince.base (rfl : _ = _) rfl
  have hB : ConsistentSince s.prior.Uexp s.log (({ s with params_model :=
      { Wid := s.prior.Wid_avg
        Wexp := Matrix.vecMul (fun i : Fin nFACSDim => if i.val = 0 then 1 else 1 / 1000000)
          s.prior.Uexp
        Wexp_FACS := fun i => if i.val = 0 then 1 else 1 / 1000000
        R := ⟨0, 0, 0⟩
        T := ⟨0, 0, -1⟩ } } : SingleImageReconstructor K Model Mesh nId nExp).emit
      .applyWeights) :=
    hA.step .applyWeights rfl (rfl : _ = _) rfl
  have h00 : ConsistentSince s.prior.Uexp s.log s0 := by
    rw [hs0]
    exact hB.step .initialized rfl (rfl : _ = _) rfl
  have c0 := outerLoop_partial_rule env (fun _ x => ConsistentSince s.prior.Uexp s.log x)
    (fun k x x' _ hx hstep => outerIteration_consistent hx hstep) kMaxIterations 0 s0 s1
    (by omega) h00 h1
  exact c0.step .applyWeights rfl c0.consistent c0.uexp

/-- C1. Expression-vector consistency: in a run of `Reconstruct`, whatever the solver returns,
`Wexp = Wexp_FACS.transpose() * Uexp` holds after the initialisation and after every call of
`OptimizeForPose`, `OptimizeForExpression`, `OptimizeForIdentity` and `UpdateContourIndices`
(in every log entry of the run, and at the end); `OptimizeForExpression` writes both vectors,
the second from the first, and the other three operations write neither; on a well-formed
configuration the run is defined. -/
theorem expression_vector_consistency (env : Env K Model Mesh nId nExp)
    (s : SingleImageReconstructor K Model Mesh nId nExp) :
    (∀ r, Reconstruct env s = some r →
      (∀ e ∈ r.2.log.drop s.log.length,
        e.after.params_model.Wexp =
          Matrix.vecMul e.after.params_model.Wexp_FACS s.prior.Uexp) ∧
      r.2.params_model.Wexp = Matrix.vecMul r.2.params_model.Wexp_FACS r.2.prior.Uexp ∧
      r.2.prior.Uexp = s.prior.Uexp) ∧
    (∀ iteration s', OptimizeForExpression env iteration s = some s' →
      s'.params_model.Wexp = Matrix.vecMul s'.params_model.Wexp_FACS s'.prior.Uexp ∧
      s'.prior.Uexp = s.prior.Uexp) ∧
    (∀ max_iters s', OptimizeForPose env max_iters s = some s' →
      s'.params_model.Wexp = s.params_model.Wexp ∧
      s'.params_model.Wexp_FACS = s.params_model.Wexp_FACS ∧ s'.prior.Uexp = s.prior.Uexp) ∧
    (∀ iteration s', OptimizeForIdentity env iteration s = some s' →
      s'.params_model.Wexp = s.params_model.Wexp ∧
      s'.params_model.Wexp_FACS = s.params_model.Wexp_FACS ∧ s'.prior.Uexp = s.prior.Uexp) ∧
    (∀ s', UpdateContourIndices env s = some s' →
      s'.params_model.Wexp = s.params_model.Wexp ∧
      s'.params_model.Wexp_FACS = s.params_model.Wexp_FACS ∧ s'.prior.Uexp = s.prior.Uexp) ∧
    (WellFormed s → ∃ r, Reconstruct env s = some (true, r)) := by
  refine ⟨?_, ?_, ?_, ?_, ?_, Reconstruct_total env s⟩
  · intro r h
    obtain ⟨L, hL, hall, hC, hU⟩ := Reconstruct_consistent h
    refine ⟨?_, by rw [hU]; exact hC, hU⟩
    intro e he
    rw [hL, List.drop_left' rfl] at he
    exact hall e he
  · intro iteration s' h
    obtain ⟨f, _, a, _, _⟩ := OptimizeForExpression_frame h
    exact ⟨by rw [a, f.prior], by rw [f.prior]⟩
  · intro max_iters s' h
    obtain ⟨f, _, a, b, _, _⟩ := OptimizeForPose_frame h
    exact ⟨a, b, by rw [f.prior]⟩
  · intro iteration s' h
    obtain ⟨f, _, a, b, _, _⟩ := OptimizeForIdentity_frame h
    exact ⟨a, b, by rw [f.prior]⟩
  · intro s' h
    obtain ⟨f, _, a, _, _⟩ := UpdateContourIndices_frame h
    exact ⟨by rw [a], by rw [a], by rw [f.prior]⟩

end Consistency

/-! ## The example configuration -/

section ExampleCandidates

variable {K : Type} [LinearOrderedField K]

theorem farConstraints_data (i : Nat) (c : Constraint2D K)
    (h : (farConstraints : List (Constraint2D K))[i]? = some c) : c.data = ⟨320, 440⟩ := by
  have := List.getElem?_mem h
  rw [farConstraints, List.mem_replicate] at this
  rw [this.2]

theorem example_candidates (lm : Libm K) (s : SingleImageReconstructor K Unit Unit 1 1)
    (hc : s.contour_indices = [[0]]) :
    contourCandidates (exampleEnv lm) s = some [(0, ⟨0, 0, 0, 1⟩)] := by
  simp [contourCandidates, collectCandidates, groupCandidates, min_element, min_element_loop,
    exampleEnv, hc]

end ExampleCandidates

section Example

variable {K : Type} [LinearOrderedField K] [FloorRing K]

theorem example_projection (lm : Libm K) :
    (ProjectPoint lm ⟨0, 0, 0⟩ (viewMatrix lm ⟨0, 0, 0⟩ ⟨0, 0, -1⟩)
      ⟨⟨1000, 1000⟩, ⟨320, 240⟩, ⟨640, 480⟩⟩).x = 320 ∧
    (ProjectPoint lm ⟨0, 0, 0⟩ (viewMatrix lm ⟨0, 0, 0⟩ ⟨0, 0, -1⟩)
      ⟨⟨1000, 1000⟩, ⟨320, 240⟩, ⟨640, 480⟩⟩).y = 240 := by
  have h := project_of_axis (⟨0, 0, 0⟩ : Vec3 K) (viewMatrix lm ⟨0, 0, 0⟩ ⟨0, 0, -1⟩)
    (glm.perspective lm 45 ((640 : K) / 480) 1 10) ⟨0, 0, 640, 480⟩ rfl rfl rfl rfl
    (by simp [viewMatrix, glm.mul, glm.mulVec, glm.add4, glm.smul4, glm.translate,
      glm.identity, glm.eulerAngleYXZ])
    (by simp [viewMatrix, glm.mul, glm.mulVec, glm.add4, glm.smul4, glm.translate,
      glm.identity, glm.eulerAngleYXZ])
  have h640 : toInt (640 : K) = 640 := by
    have := toInt_intCast (K := K) 640
    simpa using this
  have h480 : toInt (480 : K) = 480 := by
    have := toInt_intCast (K := K) 480
    simpa using this
  simp only [ProjectPoint, h640, h480]
  rw [h.1, h.2]
  constructor <;> norm_num

/-- In the example every candidate projects to the image centre, 200 pixels from a constraint
observed at `(320, 440)`. -/
theorem example_far (lm : Libm K) (hq : 100 < lm.sqrt 40000)
    (s : SingleImageReconstructor K Unit Unit 1 1) (hR : s.params_model.R = ⟨0, 0, 0⟩)
    (hT : s.params_model.T = ⟨0, 0, -1⟩)
    (hcam : s.params_cam = ⟨⟨1000, 1000⟩, ⟨320, 240⟩, ⟨640, 480⟩⟩) (c : Constraint2D K)
    (hc : c.data = ⟨320, 440⟩) :
    FarFrom lm (projectCandidates (exampleEnv lm) s [(0, ⟨0, 0, 0, 1⟩)]) c := by
  intro pj hpj
  simp only [projectCandidates, List.map_cons, List.map_nil, List.mem_singleton, hR, hT,
    hcam] at hpj
  have hp := example_projection lm
  have hd : pixelDistSq pj c = 40000 := by
    rw [hpj]
    simp only [pixelDistSq, hc]
    erw [hp.1, hp.2]
    norm_num
  rw [hd]
  exact hq

theorem ratLibm_sqrt : (100 : ℚ) < ratLibm.sqrt 40000 := by
  have h : Nat.sqrt 40000 = 200 := by
    have := Nat.sqrt_eq 200
    simpa using this
  have hnum : ((40000 : ℚ).num).toNat = 40000 := by
    rw [show (40000 : ℚ) = ((40000 : ℕ) : ℚ) by norm_num, Rat.num_natCast]
    rfl
  have hden : (40000 : ℚ).den = 1 := by
    rw [show (40000 : ℚ) = ((40000 : ℕ) : ℚ) by norm_num, Rat.den_natCast]
  simp only [ratLibm, hnum, hden, h, Nat.sqrt_one]
  norm_num

theorem real_sqrt_far : (100 : ℝ) < Real.sqrt 40000 := by
  rw [Real.lt_sqrt (by norm_num)]
  norm_num

end Example

section ExampleRun

variable {K : Type} [LinearOrderedField K]

theorem OptimizeForExpression_pose {Model Mesh : Type} {nId nExp : Nat}
    {env : Env K Model Mesh nId nExp} {iteration : Nat}
    {s s' : SingleImageReconstructor K Model Mesh nId nExp}
    (h : OptimizeForExpression env iteration s = some s') :
    s'.params_model.R = s.params_model.R ∧ s'.params_model.T = s.params_model.T := by
  obtain ⟨_, _, _, _, _, rfl⟩ := OptimizeForExpression_eq_some h
  exact ⟨rfl, rfl⟩

theorem OptimizeForIdentity_pose {Model Mesh : Type} {nId nExp : Nat}
    {env : Env K Model Mesh nId nExp} {iteration : Nat}
    {s s' : SingleImageReconstructor K Model Mesh nId nExp}
    (h : OptimizeForIdentity env iteration s = some s') :
    s'.params_model.R = s.params_model.R ∧ s'.params_model.T = s.params_model.T := by
  obtain ⟨_, _, _, _, _, rfl⟩ := OptimizeForIdentity_eq_some h
  exact ⟨rfl, rfl⟩

/-- The example solver leaves the pose as it was. -/
theorem example_pose_solve (lm : Libm K) {max_iters : Nat}
    {s s' : SingleImageReconstructor K Unit Unit 1 1}
    (h : OptimizeForPose (exampleEnv lm) max_iters s = some s') :
    s'.params_model.R = s.params_model.R ∧ s'.params_model.T = s.params_model.T := by
  obtain ⟨_, ⟨blocks, params, cap⟩, hp, rfl⟩ := OptimizeForPose_eq_some h
  simp only at hp
  subst hp
  exact ⟨rfl, rfl⟩

variable [FloorRing K]

/-- One outer iteration on the example: defined, and the pose, the camera, the (empty) indices
list, the contour groups and the observed positions stay as they are. -/
theorem example_iteration (lm : Libm K) (hq : 100 < lm.sqrt 40000) (iters : Nat)
    (s : SingleImageReconstructor K Unit Unit 1 1)
    (hR : s.params_model.R = ⟨0, 0, 0⟩) (hT : s.params_model.T = ⟨0, 0, -1⟩)
    (hcam : s.params_cam = ⟨⟨1000, 1000⟩, ⟨320, 240⟩, ⟨640, 480⟩⟩)
    (hcontour : s.contour_indices = [[0]]) (hind : s.indices.length = 0)
    (hdata : s.params_recon.cons.map (fun c => c.data) = List.replicate 35 ⟨320, 440⟩) :
    ∃ s', outerIteration (exampleEnv lm) iters s = some s' ∧
      s'.params_model.R = ⟨0, 0, 0⟩ ∧ s'.params_model.T = ⟨0, 0, -1⟩ ∧
      s'.params_cam = ⟨⟨1000, 1000⟩, ⟨320, 240⟩, ⟨640, 480⟩⟩ ∧
      s'.contour_indices = [[0]] ∧ s'.indices.length = 0 ∧
      s'.params_recon.cons.map (fun c => c.data) = List.replicate 35 ⟨320, 440⟩ := by
  have hlen : s.params_recon.cons.length = 35 := by
    have := congrArg List.length hdata
    simpa using this
  obtain ⟨s1, h1⟩ := OptimizeForPose_total (exampleEnv lm) 30 s (by omega)
  obtain ⟨f1, -, -, -, -, -⟩ := OptimizeForPose_frame h1
  obtain ⟨p1, q1⟩ := example_pose_solve lm h1
  obtain ⟨s2, h2⟩ := OptimizeForExpression_total (exampleEnv lm) iters s1
    (by rw [f1.indices_length, f1.cons_length]; omega) (by rw [f1.cons_length]; omega)
  obtain ⟨f2, -, -, -, -⟩ := OptimizeForExpression_frame h2
  obtain ⟨p2, q2⟩ := OptimizeForExpression_pose h2
  have g2 := f1.trans f2
  obtain ⟨s3, h3⟩ := OptimizeForPose_total (exampleEnv lm) 30 s2
    (by rw [g2.indices_length, g2.cons_length]; omega)
  obtain ⟨f3, -, -, -, -, -⟩ := OptimizeForPose_frame h3
  obtain ⟨p3, q3⟩ := example_pose_solve lm h3
  have g3 := g2.trans f3
  obtain ⟨s4, h4⟩ := OptimizeForIdentity_total (exampleEnv lm) iters s3
    (by rw [g3.indices_length, g3.cons_length]; omega) (by rw [g3.cons_length]; omega)
  obtain ⟨f4, -, -, -, -, -⟩ := OptimizeForIdentity_frame h4
  obtain ⟨p4, q4⟩ := OptimizeForIdentity_pose h4
  have g4 := g3.trans f4
  obtain ⟨s5, h5⟩ := OptimizeForPose_total (exampleEnv lm) 30 s4
    (by rw [g4.indices_length, g4.cons_length]; omega)
  obtain ⟨f5, -, -, -, -, -⟩ := OptimizeForPose_frame h5
  obtain ⟨p5, q5⟩ := example_pose_solve lm h5
  have g5 := g4.trans f5
  have hR5 : s5.params_model.R = ⟨0, 0, 0⟩ := by rw [p5, p4, p3, p2, p1, hR]
  have hT5 : s5.params_model.T = ⟨0, 0, -1⟩ := by rw [q5, q4, q3, q2, q1, hT]
  have h8 := UpdateContourIndices_far (exampleEnv lm)
    (({ s5 with
      model := ((exampleEnv lm).model.ApplyWeights s5.model s5.params_model.Wid
        s5.params_model.Wexp)
      mesh := ((exampleEnv lm).mesh.ComputeNormals ((exampleEnv lm).mesh.UpdateVertices s5.mesh
        ((exampleEnv lm).model.GetTM ((exampleEnv lm).model.ApplyWeights s5.model
          s5.params_model.Wid s5.params_model.Wexp))))
      log := s5.log ++ [(⟨.applyWeights, s5.snapshot⟩ : Event K 1 1)] } :
        SingleImageReconstructor K Unit Unit 1 1).emit .updateMesh) [(0, ⟨0, 0, 0, 1⟩)]
    (example_candidates lm _ (g5.contour_indices.trans hcontour)) (by simp)
    (by
      have := g5.cons_length
      simp only [SingleImageReconstructor.emit, num_contour_points]
      omega)
    (by
      intro i c _ hc
      refine example_far lm hq _ hR5 hT5 (g5.params_cam.trans hcam) c ?_
      have hc' : s5.params_recon.cons[i]? = some c := hc
      have hm : (s5.params_recon.cons.map (fun c => c.data))[i]? = some c.data := by
        rw [List.getElem?_map, hc']
        rfl
      rw [g5.data, hdata] at hm
      have := List.getElem?_mem hm
      rw [List.mem_replicate] at this
      exact this.2)
  have hstep := outerIteration_of_steps h1 h2 h3 h4 h5 h8 (by
    have := g5.cons_length
    simp only [SingleImageReconstructor.emit, num_contour_points]
    omega)
  obtain ⟨_, _, hc', hi', _, hd', _⟩ := outerIteration_summary hstep
  exact ⟨_, hstep, hR5, hT5, g5.params_cam.trans hcam, hc'.trans hcontour, hi'.trans hind,
    hd'.trans hdata⟩

/-- The example with an empty indices list: `Reconstruct` is defined and returns `true`. -/
theorem example_run (lm : Libm K) (hq : 100 < lm.sqrt 40000) :
    ∃ r, Reconstruct (exampleEnv lm) (exampleReconstructor farConstraints [] [[0]]) =
      some (true, r) := by
  obtain ⟨s0, h0⟩ := initReconstruct_total (exampleEnv lm)
    (exampleReconstructor (K := K) farConstraints [] [[0]])
    (by simp [exampleReconstructor]) (by simp [exampleReconstructor, farConstraints,
      num_contour_points])
  obtain ⟨cons1, hc1, _, hs0⟩ := initReconstruct_eq_some h0
  obtain ⟨_, _, hdata1, _⟩ := vidx_loop_eq_some _ _ _ hc1
  have hD0 : s0.params_recon.cons.map (fun c => c.data) = List.replicate 35 ⟨320, 440⟩ := by
    rw [hs0]
    simp only [SingleImageReconstructor.emit]
    rw [map_take_map_drop_same (fun c : Constraint2D K => c.data)
      (fun c => { c with weight := 9 / 10 }) (fun _ => rfl), hdata1]
    simp [exampleReconstructor, farConstraints]
  obtain ⟨s1, h1, _⟩ := outerLoop_total_rule (exampleEnv lm)
    (fun _ s => s.params_model.R = ⟨0, 0, 0⟩ ∧ s.params_model.T = ⟨0, 0, -1⟩ ∧
      s.params_cam = ⟨⟨1000, 1000⟩, ⟨320, 240⟩, ⟨640, 480⟩⟩ ∧
      s.contour_indices = [[0]] ∧ s.indices.length = 0 ∧
      s.params_recon.cons.map (fun c => c.data) = List.replicate 35 ⟨320, 440⟩)
    (fun k s _ hs => example_iteration lm hq (k + 1) s hs.1 hs.2.1 hs.2.2.1 hs.2.2.2.1
      hs.2.2.2.2.1 hs.2.2.2.2.2)
    kMaxIterations 0 s0 (by omega) (by
      refine ⟨by rw [hs0]; rfl, by rw [hs0]; rfl, ?_, by rw [hs0]; rfl, by rw [hs0]; rfl, hD0⟩
      rw [hs0]
      simp only [SingleImageReconstructor.emit, exampleReconstructor]
      norm_num)
  exact ⟨_, Reconstruct_of_steps h0 h1⟩

end ExampleRun

/-! ## Instances on the example configuration -/

section Instances

theorem example_wellFormed {K : Type} [LinearOrderedField K] :
    WellFormed (exampleReconstructor (K := K) farConstraints (List.replicate 15 0) [[0]]) := by
  simp [WellFormed, exampleReconstructor, farConstraints]

theorem example_not_wellFormed :
    ¬ WellFormed (exampleReconstructor (K := ℝ) farConstraints [] [[0]]) := by
  simp [WellFormed, exampleReconstructor]

/-- Witness for C3: on the example every candidate is 200 pixels from every constraint, and
`UpdateContourIndices` changes no binding. -/
theorem contour_update_stability_witness :
    ∃ s', UpdateContourIndices (exampleEnv ratLibm)
        (exampleReconstructor farConstraints [] [[0]]) = some s' ∧
      s'.indices = [] ∧ s'.params_recon.cons = farConstraints :=
  let ⟨s', h, _, hi, hc⟩ :=
    (contour_update_stability (exampleEnv ratLibm)
      (exampleReconstructor farConstraints [] [[0]])).2 [(0, ⟨0, 0, 0, 1⟩)]
      (example_candidates ratLibm _ rfl) (by simp)
      (by simp [exampleReconstructor, farConstraints, num_contour_points])
      (fun i c _ hc => example_far ratLibm ratLibm_sqrt _ rfl rfl rfl c
        (farConstraints_data i c hc))
  ⟨s', h, hi, hc⟩

/-- Witness for C6: the schedule of the run on a well-formed example. -/
theorem Reconstruct_schedule_witness :
    WellFormed (exampleReconstructor (K := ℚ) farConstraints (List.replicate 15 0) [[0]]) ∧
    ∃ r, Reconstruct (exampleEnv ratLibm)
        (exampleReconstructor farConstraints (List.replicate 15 0) [[0]]) = some (true, r) ∧
      r.log.map (fun e => e.call.kind) = reconstructSchedule :=
  ⟨example_wellFormed,
   let ⟨r, hr⟩ := (Reconstruct_schedule (exampleEnv ratLibm)
     (exampleReconstructor farConstraints (List.replicate 15 0) [[0]])).2 example_wellFormed
   ⟨r, hr, ((Reconstruct_schedule (exampleEnv ratLibm)
     (exampleReconstructor farConstraints (List.replicate 15 0) [[0]])).1 _ hr).2⟩⟩

/-- Witness for C5: the final trust weights of the run on a well-formed example. -/
theorem trust_weight_annealing_witness :
    WellFormed (exampleReconstructor (K := ℚ) farConstraints (List.replicate 15 0) [[0]]) ∧
    ∃ r, Reconstruct (exampleEnv ratLibm)
        (exampleReconstructor farConstraints (List.replicate 15 0) [[0]]) = some (true, r) ∧
      r.prior.weight_Wid = 2 ∧ r.prior.weight_Wexp = 2 / 100 :=
  ⟨example_wellFormed,
   let ⟨r, hr⟩ := (trust_weight_annealing (exampleEnv ratLibm)
     (exampleReconstructor farConstraints (List.replicate 15 0) [[0]])).2 example_wellFormed
   let ⟨_, _, _, _, h2, h02, _⟩ := (trust_weight_annealing (exampleEnv ratLibm)
     (exampleReconstructor farConstraints (List.replicate 15 0) [[0]])).1 _ hr
   ⟨r, hr, h2, h02⟩⟩

/-- Witness for C1: the expression vectors at the end of the run on a well-formed example. -/
theorem expression_vector_consistency_witness :
    WellFormed (exampleReconstructor (K := ℚ) farConstraints (List.replicate 15 0) [[0]]) ∧
    ∃ r, Reconstruct (exampleEnv ratLibm)
        (exampleReconstructor farConstraints (List.replicate 15 0) [[0]]) = some (true, r) ∧
      r.params_model.Wexp = Matrix.vecMul r.params_model.Wexp_FACS r.prior.Uexp :=
  ⟨example_wellFormed,
   let ⟨r, hr⟩ := (expression_vector_consistency (exampleEnv ratLibm)
     (exampleReconstructor farConstraints (List.replicate 15 0) [[0]])).2.2.2.2.2
       example_wellFormed
   ⟨r, hr, ((expression_vector_consistency (exampleEnv ratLibm)
     (exampleReconstructor farConstraints (List.replicate 15 0) [[0]])).1 _ hr).2.1⟩⟩

end Instances

section NoValidation

variable {K Model Mesh : Type} {nId nExp : Nat} [LinearOrderedField K] [FloorRing K]

/-- C7, counterexample. A configuration that violates the preconditions (its indices list is
empty, so it has fewer than the 15 entries `UpdateContourIndices` may write) on which
`Reconstruct` makes no access outside a vector and returns `true`. -/
theorem Reconstruct_success_without_preconditions :
    ¬ WellFormed (exampleReconstructor (K := ℝ) farConstraints [] [[0]]) ∧
    ∃ r, Reconstruct (exampleEnv ⟨Real.sqrt, Real.sin, Real.cos, Real.tan⟩)
      (exampleReconstructor farConstraints [] [[0]]) = some (true, r) :=
  ⟨example_not_wellFormed, example_run _ real_sqrt_far⟩

/-- C7, amended. `Reconstruct` checks nothing and has no failure result: every run in which no
access by position leaves its vector returns `true` (such a run needs at least 35 constraints
and no more vertex indices than constraints), and on a well-formed configuration the run is
of this kind. -/
theorem Reconstruct_returns_true (env : Env K Model Mesh nId nExp)
    (s : SingleImageReconstructor K Model Mesh nId nExp) :
    (∀ r, Reconstruct env s = some r →
      r.1 = true ∧ 35 ≤ s.params_recon.cons.length ∧
      s.indices.length ≤ s.params_recon.cons.length) ∧
    (WellFormed s → ∃ r, Reconstruct env s = some (true, r)) := by
  refine ⟨?_, Reconstruct_total env s⟩
  intro r h
  obtain ⟨htrue, scale, hscale, _⟩ := Reconstruct_log h
  obtain ⟨s0, _, h0, _, _⟩ := Reconstruct_eq_some h
  obtain ⟨cons1, hc1, _, _⟩ := initReconstruct_eq_some h0
  exact ⟨htrue, priorScale_length _ _ _ hscale, (vidx_loop_eq_some _ _ _ hc1).1⟩

/-- Witness for C7 (amended): the run on the example with an empty indices list. -/
theorem Reconstruct_returns_true_witness :
    ∃ r, Reconstruct (exampleEnv ratLibm) (exampleReconstructor farConstraints [] [[0]]) =
      some r ∧ r.1 = true :=
  let ⟨r, hr⟩ := example_run ratLibm ratLibm_sqrt
  ⟨(true, r), hr, ((Reconstruct_returns_true (exampleEnv ratLibm)
    (exampleReconstructor farConstraints [] [[0]])).1 _ hr).1⟩

end NoValidation

/-! ## Annealing of the contour weights -/

section AnnealStep

variable {K : Type}

theorem annealWeights_getElem?_lt (lm : Libm K) (W : List K) (i : Nat)
    (hi : i < num_contour_points) : (annealWeights lm W)[i]? = (W[i]?).map lm.sqrt := by
  rw [annealWeights, take_map_drop_getElem?, if_pos hi]

theorem annealWeights_getElem?_ge (lm : Libm K) (W : List K) (i : Nat)
    (hi : num_contour_points ≤ i) : (annealWeights lm W)[i]? = W[i]? := by
  rw [annealWeights, take_map_drop_getElem?, if_neg (by omega)]

end AnnealStep

section ContourWeights

variable {K : Type} [LinearOrderedField K]

theorem initialWeights_getElem?_lt (W : List K) (i : Nat) (hi : i < num_contour_points) :
    (initialWeights W)[i]? = (W[i]?).map (fun _ => 9 / 10) := by
  rw [initialWeights, take_map_drop_getElem?, if_pos hi]

theorem initialWeights_getElem?_ge (W : List K) (i : Nat) (hi : num_contour_points ≤ i) :
    (initialWeights W)[i]? = W[i]? := by
  rw [initialWeights, take_map_drop_getElem?, if_neg (by omega)]

/-- After the initialisation and `k` annealing steps a contour weight is the `k`-fold square
root of `0.9`, and the other weights are the given ones. -/
theorem annealWeights_iterate (lm : Libm K) (W : List K) (i k : Nat) :
    ((annealWeights lm)^[k] (initialWeights W))[i]? =
      if i < num_contour_points then (W[i]?).map (fun _ => lm.sqrt^[k] (9 / 10)) else W[i]? := by
  induction k with
  | zero =>
    split
    · rename_i hi
      exact initialWeights_getElem?_lt W i hi
    · rename_i hi
      exact initialWeights_getElem?_ge W i (by omega)
  | succ k ih =>
    rw [Function.iterate_succ_apply']
    split
    · rename_i hi
      rw [annealWeights_getElem?_lt lm _ i hi, ih, if_pos hi, Option.map_map]
      congr 1
      funext _
      simp only [Function.comp, Function.iterate_succ_apply']
    · rename_i hi
      rw [annealWeights_getElem?_ge lm _ i (by omega), ih, if_neg hi]

theorem real_sqrt_iterate (x : ℝ) (hx : 0 ≤ x) (k : Nat) :
    Real.sqrt^[k] x = x ^ ((1 : ℝ) / 2 ^ k) := by
  induction k with
  | zero => simp
  | succ k ih =>
    rw [Function.iterate_succ_apply', ih, Real.sqrt_eq_rpow, ← Real.rpow_mul hx]
    congr 1
    rw [pow_succ]
    field_simp

theorem rpow_half_mono (k : Nat) :
    ((9 : ℝ) / 10) ^ ((1 : ℝ) / 2 ^ k) ≤ ((9 : ℝ) / 10) ^ ((1 : ℝ) / 2 ^ (k + 1)) := by
  apply Real.rpow_le_rpow_of_exponent_ge (by norm_num) (by norm_num)
  rw [pow_succ]
  apply div_le_div_of_nonneg_left (by norm_num) (by positivity)
  have : (0 : ℝ) < 2 ^ k := by positivity
  linarith

theorem rpow_half_le_one (k : Nat) : ((9 : ℝ) / 10) ^ ((1 : ℝ) / 2 ^ k) ≤ 1 :=
  Real.rpow_le_one (by norm_num) (by norm_num) (by positivity)

end ContourWeights

section ContourWeightAnnealing

variable {Model Mesh : Type} {nId nExp : Nat}

/-- C4. Contour weight annealing: in a run of `Reconstruct` (over the reals) the constraint
weights at the end of the initialisation and at the end of each of the 8 outer iterations are
the given weights with the first 15 set to `0.9` and square-rooted once per iteration, so
after `k` iterations each of the first 15 weights is `0.9 ^ (1 / 2 ^ k)`; these values never
decrease from one iteration to the next and are at most 1; the weights of the constraints
with index 15 or more are the given ones in every log entry; on a well-formed configuration
the run is defined. -/
theorem contour_weight_annealing (env : Env ℝ Model Mesh nId nExp)
    (hsqrt : env.lm.sqrt = Real.sqrt) (s : SingleImageReconstructor ℝ Model Mesh nId nExp) :
    (∀ r, Reconstruct env s = some r →
      (r.2.log.drop s.log.length).filterMap Event.checkpoint =
        (List.range 9).map (fun k =>
          (annealWeights env.lm)^[k] (initialWeights (s.params_recon.cons.map (fun c => c.weight)))) ∧
      (∀ k i : Nat, k ≤ 8 → i < 15 →
        (((r.2.log.drop s.log.length).filterMap Event.checkpoint)[k]?).bind (fun W : List ℝ => W[i]?) =
          some (((9 : ℝ) / 10) ^ ((1 : ℝ) / 2 ^ k))) ∧
      (∀ (k i : Nat) (a b : ℝ), k < 8 → i < 15 →
        (((r.2.log.drop s.log.length).filterMap Event.checkpoint)[k]?).bind (fun W : List ℝ => W[i]?) =
          some a →
        (((r.2.log.drop s.log.length).filterMap Event.checkpoint)[k + 1]?).bind
          (fun W : List ℝ => W[i]?) = some b → a ≤ b) ∧
      (∀ (k i : Nat) (a : ℝ), i < 15 →
        (((r.2.log.drop s.log.length).filterMap Event.checkpoint)[k]?).bind (fun W : List ℝ => W[i]?) =
          some a → a ≤ 1) ∧
      (∀ e ∈ r.2.log.drop s.log.length, ∀ i : Nat, 15 ≤ i →
        (e.after.cons[i]?).map (fun c => c.weight) =
          (s.params_recon.cons[i]?).map (fun c => c.weight))) ∧
    (WellFormed s → ∃ r, Reconstruct env s = some (true, r)) := by
  refine ⟨?_, Reconstruct_total env s⟩
  intro r h
  obtain ⟨_, scale, hscale, hlog, _⟩ := Reconstruct_log h
  have h35 := priorScale_length _ _ _ hscale
  have h1 := log_drop_obs _ _ _ _ hlog
  generalize r.2.log.drop s.log.length = L at h1
  have hcp : L.filterMap Event.checkpoint = (L.map Event.obs).filterMap
      (fun o => match o.1 with
        | .initialized => some o.2.2.2
        | .adjustWeights => some o.2.2.2
        | _ => none) := by
    rw [List.filterMap_map]
    congr 1
    funext e
    obtain ⟨c, a⟩ := e
    cases c <;> rfl
  have hV : L.filterMap Event.checkpoint = (List.range 9).map (fun k =>
      (annealWeights env.lm)^[k]
        (initialWeights (s.params_recon.cons.map (fun c => c.weight)))) := by
    rw [hcp, h1]
    simp only [kMaxIterations, expectedIterations, iterationObs, List.append_assoc,
      List.cons_append, List.nil_append, List.append_nil, List.filterMap_cons,
      List.filterMap_nil, annealed]
    simp only [List.range_succ, List.range_zero, List.nil_append, List.cons_append,
      List.map_cons, List.map_nil, List.singleton_append, Function.iterate_succ,
      Function.iterate_zero, Function.comp, id]
  have hval : ∀ k i : Nat, k ≤ 8 → i < 15 →
      ((L.filterMap Event.checkpoint)[k]?).bind (fun W : List ℝ => W[i]?) =
        some (((9 : ℝ) / 10) ^ ((1 : ℝ) / 2 ^ k)) := by
    intro k i hk hi
    rw [hV, List.getElem?_map, List.getElem?_range (by omega)]
    simp only [Option.map_some', Option.some_bind]
    rw [annealWeights_iterate, if_pos (by simp only [num_contour_points]; omega),
      List.getElem?_map, List.getElem?_eq_getElem (by omega)]
    simp only [Option.map_some']
    rw [hsqrt, real_sqrt_iterate _ (by norm_num)]
  have hval' : ∀ (k i : Nat) (a : ℝ), i < 15 →
      ((L.filterMap Event.checkpoint)[k]?).bind (fun W : List ℝ => W[i]?) = some a →
      k ≤ 8 ∧ a = ((9 : ℝ) / 10) ^ ((1 : ℝ) / 2 ^ k) := by
    intro k i a hi ha
    have hk : k ≤ 8 := by
      by_contra hk
      rw [hV, List.getElem?_eq_none (by simp; omega)] at ha
      simp at ha
    rw [hval k i hk hi] at ha
    exact ⟨hk, (Option.some.inj ha).symm⟩
  refine ⟨hV, hval, ?_, ?_, ?_⟩
  · intro k i a b _ hi ha hb
    rw [(hval' k i a hi ha).2, (hval' (k + 1) i b hi hb).2]
    exact rpow_half_mono k
  · intro k i a hi ha
    rw [(hval' k i a hi ha).2]
    exact rpow_half_le_one k
  · intro e he i hi
    have hmem : Event.obs e ∈ L.map Event.obs := List.mem_map_of_mem _ he
    have hW : (e.after.cons[i]?).map (fun c => c.weight) = (Event.obs e).2.2.2[i]? := by
      simp only [Event.obs, List.getElem?_map]
    rw [hW, ← List.getElem?_map]
    have hi' : num_contour_points ≤ i := hi
    have hall : ∀ o ∈ L.map Event.obs,
        o.2.2.2[i]? = (s.params_recon.cons.map (fun c => c.weight))[i]? := by
      rw [h1]
      simp only [kMaxIterations, expectedIterations, iterationObs, List.append_assoc,
        List.cons_append, List.nil_append, List.append_nil, annealed, List.forall_mem_cons,
        annealWeights_getElem?_ge _ _ _ hi', initialWeights_getElem?_ge _ _ hi', true_and]
      intro o ho
      exact absurd ho (List.not_mem_nil o)
    exact hall _ hmem

/-- Witness for C4: the contour weights after the eighth iteration on a well-formed example,
with the real square root. -/
theorem contour_weight_annealing_witness :
    WellFormed (exampleReconstructor (K := ℝ) farConstraints (List.replicate 15 0) [[0]]) ∧
    ∃ r, Reconstruct (exampleEnv ⟨Real.sqrt, Real.sin, Real.cos, Real.tan⟩)
        (exampleReconstructor farConstraints (List.replicate 15 0) [[0]]) = some (true, r) ∧
      ((r.log.filterMap Event.checkpoint)[8]?).bind (fun W : List ℝ => W[0]?) =
        some (((9 : ℝ) / 10) ^ ((1 : ℝ) / 2 ^ 8)) :=
  ⟨example_wellFormed,
   let ⟨r, hr⟩ := (contour_weight_annealing (exampleEnv ⟨Real.sqrt, Real.sin, Real.cos, Real.tan⟩)
     rfl (exampleReconstructor farConstraints (List.replicate 15 0) [[0]])).2 example_wellFormed
   ⟨r, hr, ((contour_weight_annealing (exampleEnv ⟨Real.sqrt, Real.sin, Real.cos, Real.tan⟩) rfl
     (exampleReconstructor farConstraints (List.replicate 15 0) [[0]])).1 _ hr).2.1 8 0
       (by decide) (by decide)⟩⟩

end ContourWeightAnnealing

/-! ## Consistency of the bindings -/

section Bindings

variable {K : Type}

theorem Bound.of_map {indices : List Int} {cons cons' : List (Constraint2D K)}
    (h : Bound indices cons)
    (hmap : cons'.map (fun c => c.vidx) = cons.map (fun c => c.vidx)) :
    Bound indices cons' := by
  intro i hi
  rw [← List.getElem?_map, hmap, List.getElem?_map]
  exact h i hi

theorem BoundSince.start {Model Mesh : Type} {nId nExp : Nat}
    {s : SingleImageReconstructor K Model Mesh nId nExp}
    (h : Bound s.indices s.params_recon.cons) : BoundSince s.log s :=
  ⟨[], (List.append_nil _).symm, fun _ he => absurd he (List.not_mem_nil _), h⟩

theorem BoundSince.extend {Model Mesh : Type} {nId nExp : Nat} {log0 : List (Event K nId nExp)}
    {s s' : SingleImageReconstructor K Model Mesh nId nExp} (h : BoundSince log0 s)
    (c : Call K) (hlog : s'.log = s.log ++ [⟨c, s'.snapshot⟩])
    (hb : Bound s'.indices s'.params_recon.cons) : BoundSince log0 s' := by
  obtain ⟨L, hL, hall, _⟩ := h
  refine ⟨L ++ [⟨c, s'.snapshot⟩], by rw [hlog, hL, List.append_assoc], ?_, hb⟩
  intro e he
  rcases List.mem_append.mp he with he | he
  · exact hall e he
  · rw [List.mem_singleton.mp he]
    exact hb

theorem BoundSince.bound {Model Mesh : Type} {nId nExp : Nat} {log0 : List (Event K nId nExp)}
    {s : SingleImageReconstructor K Model Mesh nId nExp} (h : BoundSince log0 s) :
    Bound s.indices s.params_recon.cons := by
  obtain ⟨_, _, _, hb⟩ := h
  exact hb

theorem BoundSince.emit {Model Mesh : Type} {nId nExp : Nat}
    (s : SingleImageReconstructor K Model Mesh nId nExp) (c : Call K)
    (h : Bound s.indices s.params_recon.cons) : BoundSince s.log (s.emit c) :=
  ⟨[⟨c, s.snapshot⟩], rfl, fun e he => by rw [List.mem_singleton.mp he]; exact h, h⟩

end Bindings

section BindingsLoop

variable {K : Type} [LinearOrderedField K]

/-- The rebinding loop keeps the bindings consistent: a pass writes the same vertex into
position `i` of both vectors, or writes nothing. -/
theorem rebind_loop_bound (lm : Libm K) (candidates : List (Int × Vec4 K))
    (projected_points : List (Vec3 K)) (indices : List Int) (cons : List (Constraint2D K))
    (n : Nat) (st' : List Int × List (Constraint2D K)) (hb : Bound indices cons)
    (h : (List.range n).foldlM (rebindContour lm candidates projected_points) (indices, cons) =
      some st') : Bound st'.1 st'.2 := by
  refine foldlM_range_partial (rebindContour lm candidates projected_points)
    (fun _ st => Bound st.1 st.2) n (indices, cons) hb ?_ st' h
  intro i st st1 _ hP hstep
  obtain ⟨c, d, hc, _, hcase⟩ := rebindContour_eq_some hstep
  rcases hcase with ⟨_, rfl⟩ | ⟨_, cand, _, hi, rfl⟩
  · exact hP
  · intro k hk
    have hk' : k < st.1.length := by simpa using hk
    by_cases hik : i = k
    · subst hik
      rw [List.getElem?_set_self (List.getElem?_eq_some.mp hc).1, List.getElem?_set_self hi]
      rfl
    · simp only [List.getElem?_set_ne hik]
      exact hP k hk'

end BindingsLoop

section BindingsRun

variable {K Model Mesh : Type} {nId nExp : Nat} [LinearOrderedField K]

theorem initReconstruct_bound {env : Env K Model Mesh nId nExp}
    {s s' : SingleImageReconstructor K Model Mesh nId nExp}
    (h : initReconstruct env s = some s') :
    Bound s'.indices s'.params_recon.cons ∧ s'.indices = s.indices := by
  obtain ⟨cons1, hc1, _, rfl⟩ := initReconstruct_eq_some h
  obtain ⟨_, _, _, _, hv, _⟩ := vidx_loop_eq_some _ _ _ hc1
  have hb1 : Bound s.indices cons1 := hv
  exact ⟨hb1.of_map (map_take_map_drop_same (fun c : Constraint2D K => c.vidx)
    (fun c => { c with weight := 9 / 10 }) (fun _ => rfl) _ _), rfl⟩

variable [FloorRing K]

theorem UpdateContourIndices_bound {env : Env K Model Mesh nId nExp}
    {s s' : SingleImageReconstructor K Model Mesh nId nExp}
    (h : UpdateContourIndices env s = some s') (hb : Bound s.indices s.params_recon.cons) :
    Bound s'.indices s'.params_recon.cons := by
  obtain ⟨candidates, st', _, hloop, rfl⟩ := UpdateContourIndices_eq_some h
  exact rebind_loop_bound _ _ _ _ _ _ _ hb hloop

theorem outerIteration_bound {env : Env K Model Mesh nId nExp} {iters : Nat}
    {log0 : List (Event K nId nExp)} {s s' : SingleImageReconstructor K Model Mesh nId nExp}
    (hs : BoundSince log0 s) (h : outerIteration env iters s = some s') :
    BoundSince log0 s' := by
  obtain ⟨s1, s2, s3, s4, s5, s8, h1, h2, h3, h4, h5, h8, _, rfl⟩ := outerIteration_eq_some h
  obtain ⟨-, l1, -, -, i1, r1⟩ := OptimizeForPose_frame h1
  obtain ⟨-, ⟨_, _, l2⟩, -, i2, r2⟩ := OptimizeForExpression_frame h2
  obtain ⟨-, l3, -, -, i3, r3⟩ := OptimizeForPose_frame h3
  obtain ⟨-, ⟨_, _, l4⟩, -, -, i4, r4⟩ := OptimizeForIdentity_frame h4
  obtain ⟨-, l5, -, -, i5, r5⟩ := OptimizeForPose_frame h5
  obtain ⟨-, l8, -, -, -⟩ := UpdateContourIndices_frame h8
  have c1 : BoundSince log0 s1 := hs.extend _ l1 (by rw [i1, r1]; exact hs.bound)
  have c2 : BoundSince log0 s2 := c1.extend _ l2 (by rw [i2, r2]; exact c1.bound)
  have c3 : BoundSince log0 s3 := c2.extend _ l3 (by rw [i3, r3]; exact c2.bound)
  have c4 : BoundSince log0 s4 := c3.extend _ l4 (by rw [i4, r4]; exact c3.bound)
  have c5 : BoundSince log0 s5 := c4.extend _ l5 (by rw [i5, r5]; exact c4.bound)
  have c6 : BoundSince log0 ({ s5 with
      model := (env.model.ApplyWeights s5.model s5.params_model.Wid s5.params_model.Wexp)
      mesh := (env.mesh.ComputeNormals (env.mesh.UpdateVertices s5.mesh
        (env.model.GetTM (env.model.ApplyWeights s5.model s5.params_model.Wid
          s5.params_model.Wexp))))
      log := s5.log ++ [(⟨.applyWeights, s5.snapshot⟩ : Event K nId nExp)] } :
        SingleImageReconstructor K Model Mesh nId nExp) :=
    c5.extend .applyWeights rfl c5.bound
  have c7 : BoundSince log0 (({ s5 with
      model := (env.model.ApplyWeights s5.model s5.params_model.Wid s5.params_model.Wexp)
      mesh := (env.mesh.ComputeNormals (env.mesh.UpdateVertices s5.mesh
        (env.model.GetTM (env.model.ApplyWeights s5.model s5.params_model.Wid
          s5.params_model.Wexp))))
      log := s5.log ++ [(⟨.applyWeights, s5.snapshot⟩ : Event K nId nExp)] } :
        SingleImageReconstructor K Model Mesh nId nExp).emit .updateMesh) :=
    c6.extend .updateMesh rfl c5.bound
  have c8 : BoundSince log0 s8 := c7.extend _ l8 (UpdateContourIndices_bound h8 c7.bound)
  refine c8.extend .adjustWeights rfl ?_
  exact c8.bound.of_map (map_take_map_drop_same (fun c : Constraint2D K => c.vidx)
    (fun c => { c with weight := env.lm.sqrt c.weight }) (fun _ => rfl) _ _)

/-- The bindings are consistent in every log entry `Reconstruct` writes after the one of its
first geometry computation, and at the end. -/
theorem Reconstruct_bound {env : Env K Model Mesh nId nExp}
    {s : SingleImageReconstructor K Model Mesh nId nExp}
    {r : Bool × SingleImageReconstructor K Model Mesh nId nExp}
    (h : Reconstruct env s = some r) :
    (∀ e ∈ r.2.log.drop (s.log.length + 1), Bound e.after.indices e.after.cons) ∧
      Bound r.2.indices r.2.params_recon.cons := by
  obtain ⟨s0, s1, h0, h1, rfl⟩ := Reconstruct_eq_some h
  obtain ⟨hb0, _⟩ := initReconstruct_bound h0
  obtain ⟨cons1, _, _, hs0⟩ := initReconstruct_eq_some h0
  have h00 : ∃ e0, BoundSince (s.log ++ [e0]) s0 := by
    rw [hs0] at hb0 ⊢
    exact ⟨_, BoundSince.emit _ .initialized hb0⟩
  obtain ⟨e0, h00⟩ := h00
  have c0 := outerLoop_partial_rule env (fun _ x => BoundSince (s.log ++ [e0]) x)
    (fun k x x' _ hx hstep => outerIteration_bound hx hstep) kMaxIterations 0 s0 s1
    (by omega) h00 h1
  have c9 : BoundSince (s.log ++ [e0]) (({ s1 with
      model := (env.model.ApplyWeights s1.model s1.params_model.Wid s1.params_model.Wexp) } :
        SingleImageReconstructor K Model Mesh nId nExp).emit .applyWeights) :=
    c0.extend .applyWeights rfl c0.bound
  obtain ⟨L, hL, hall, hb⟩ := c9
  refine ⟨?_, hb⟩
  intro e he
  have hdrop : (({ s1 with
      model := (env.model.ApplyWeights s1.model s1.params_model.Wid s1.params_model.Wexp) } :
        SingleImageReconstructor K Model Mesh nId nExp).emit .applyWeights).log.drop
      (s.log.length + 1) = L := by
    rw [hL, List.drop_left' (by simp)]
  exact hall e (hdrop ▸ he)

end BindingsRun

section BindingConsistency

variable {K Model Mesh : Type} {nId nExp : Nat} [LinearOrderedField K] [FloorRing K]

/-- C13. Binding consistency: in a run of `Reconstruct`, after the initial assignment and
after every call of `UpdateContourIndices` (indeed in every log entry from the end of the
initialisation on), `cons[i].vidx = indices[i]` at every position `i` below the length of the
indices list; so after `Reconstruct` the lists of `GetUpdatedIndices` and `GetIndices` agree
at every such position; the initialisation establishes the property and
`UpdateContourIndices` keeps it; on a well-formed configuration the run is defined. -/
theorem binding_consistency (env : Env K Model Mesh nId nExp)
    (s : SingleImageReconstructor K Model Mesh nId nExp) :
    (∀ r, Reconstruct env s = some r →
      (∀ e ∈ r.2.log.drop s.log.length,
        e.call = .initialized ∨ e.call = .updateContourIndices →
        Bound e.after.indices e.after.cons) ∧
      (∀ e ∈ r.2.log.drop (s.log.length + 1), Bound e.after.indices e.after.cons) ∧
      Bound r.2.indices r.2.params_recon.cons ∧
      ∀ i : Nat, i < (GetIndices r.2).length →
        (GetUpdatedIndices r.2)[i]? = (GetIndices r.2)[i]?) ∧
    (∀ s', initReconstruct env s = some s' → Bound s'.indices s'.params_recon.cons) ∧
    (∀ s', UpdateContourIndices env s = some s' → Bound s.indices s.params_recon.cons →
      Bound s'.indices s'.params_recon.cons) ∧
    (WellFormed s → ∃ r, Reconstruct env s = some (true, r)) := by
  refine ⟨?_, fun s' h => (initReconstruct_bound h).1,
    fun s' h hb => UpdateContourIndices_bound h hb, Reconstruct_total env s⟩
  intro r h
  obtain ⟨hall, hb⟩ := Reconstruct_bound h
  refine ⟨?_, hall, hb, ?_⟩
  · intro e he hcall
    obtain ⟨_, scale, _, hlog, _⟩ := Reconstruct_log h
    have h1 := log_drop_obs _ _ _ _ hlog
    have hdd : r.2.log.drop (s.log.length + 1) = (r.2.log.drop s.log.length).drop 1 := by
      rw [List.drop_drop, Nat.add_comm]
    rw [hdd] at hall
    generalize r.2.log.drop s.log.length = L at h1 he hall
    cases L with
    | nil => exact absurd he (List.not_mem_nil e)
    | cons e0 L' =>
      rcases List.mem_cons.mp he with rfl | he'
      · exfalso
        have h0 : (Event.obs e).1 = .applyWeights := by
          have := congrArg List.head? h1
          simp only [List.map_cons, List.head?_cons, List.cons_append,
            Option.some.injEq] at this
          rw [this]
        have hc : e.call = .applyWeights := h0
        rcases hcall with hi | hu
        · rw [hc] at hi
          exact Call.noConfusion hi
        · rw [hc] at hu
          exact Call.noConfusion hu
      · exact hall e he'
  · intro i hi
    simp only [GetUpdatedIndices, GetIndices, List.getElem?_map] at hi ⊢
    exact hb i hi

/-- Witness for C13: the bindings at the end of the run on a well-formed example. -/
theorem binding_consistency_witness :
    WellFormed (exampleReconstructor (K := ℚ) farConstraints (List.replicate 15 0) [[0]]) ∧
    ∃ r, Reconstruct (exampleEnv ratLibm)
        (exampleReconstructor farConstraints (List.replicate 15 0) [[0]]) = some (true, r) ∧
      ∀ i : Nat, i < (GetIndices r).length → (GetUpdatedIndices r)[i]? = (GetIndices r)[i]? :=
  ⟨example_wellFormed,
   let ⟨r, hr⟩ := (binding_consistency (exampleEnv ratLibm)
     (exampleReconstructor farConstraints (List.replicate 15 0) [[0]])).2.2.2 example_wellFormed
   ⟨r, hr, ((binding_consistency (exampleEnv ratLibm)
     (exampleReconstructor farConstraints (List.replicate 15 0) [[0]])).1 _ hr).2.2.2⟩⟩

end BindingConsistency

/-! ## Contour rebinding -/

section FirstMin

variable {K : Type} [LinearOrderedField K]

/-- The position of the first smallest element is unique. -/
theorem IsFirstMin.unique {l : List K} {m m' : Nat} (h : IsFirstMin l m)
    (h' : IsFirstMin l m') : m = m' := by
  obtain ⟨u, hu, hmin⟩ := h
  obtain ⟨u', hu', hmin'⟩ := h'
  rcases Nat.lt_trichotomy m m' with hlt | heq | hgt
  · exact absurd ((hmin' m u hu).2 hlt) (not_lt.mpr (hmin m' u' hu').1)
  · exact heq
  · exact absurd ((hmin m' u' hu').2 hgt) (not_lt.mpr (hmin' m u hu).1)

theorem IsFirstMin.eq_min_element {l : List K} {m : Nat} (h : IsFirstMin l m) :
    m = min_element l := by
  have hne : l ≠ [] := by
    intro hnil
    obtain ⟨u, hu, _⟩ := h
    rw [hnil] at hu
    simp at hu
  exact h.unique (min_element_spec l hne)

end FirstMin

section RebindNear

variable {K : Type} [LinearOrderedField K]

/-- The rebinding loop over the first `n` constraints, when it is defined: every position below
`n` whose smallest squared distance is not too far holds, in both vectors, the vertex of the
candidate at the position of that smallest distance. -/
theorem rebind_loop_near (lm : Libm K) (candidates : List (Int × Vec4 K))
    (projected_points : List (Vec3 K)) (indices : List Int) (cons : List (Constraint2D K))
    (n : Nat) (st' : List Int × List (Constraint2D K))
    (h : (List.range n).foldlM (rebindContour lm candidates projected_points) (indices, cons) =
      some st') :
    ∀ i c d, i < n → cons[i]? = some c →
      (projected_points.map (fun pj => pixelDistSq pj c))[min_element
        (projected_points.map (fun pj => pixelDistSq pj c))]? = some d →
      ¬ min_acceptable_dist < lm.sqrt d →
      ∃ cand, candidates[min_element (projected_points.map (fun pj => pixelDistSq pj c))]? =
          some cand ∧
        st'.1[i]? = some cand.1 ∧ st'.2[i]? = some { c with vidx := cand.1 } := by
  refine ( foldlM_range_partial (rebindContour lm candidates projected_points)
    (fun j st => (∀ k, j ≤ k → st.2[k]? = cons[k]?) ∧
      ∀ i c d, i < j → cons[i]? = some c →
        (projected_points.map (fun pj => pixelDistSq pj c))[min_element
          (projected_points.map (fun pj => pixelDistSq pj c))]? = some d →
        ¬ min_acceptable_dist < lm.sqrt d →
        ∃ cand, candidates[min_element (projected_points.map (fun pj => pixelDistSq pj c))]? =
            some cand ∧
          st.1[i]? = some cand.1 ∧ st.2[i]? = some { c with vidx := cand.1 }) n (indices, cons)
    ⟨fun _ _ => rfl, fun i c d hi => absurd hi (Nat.not_lt_zero i)⟩ ?_ st' h).2
  intro j st st1 _ hP hstep
  obtain ⟨hkeep, hdone⟩ := hP
  obtain ⟨c, d, hc, hd, hcase⟩ := rebindContour_eq_some hstep
  have hcj : cons[j]? = some c := by rw [← hkeep j (le_refl j)]; exact hc
  rcases hcase with ⟨hfar, rfl⟩ | ⟨hnear, cand, hcand, hjlen, rfl⟩
  · refine ⟨fun k hk => hkeep k (by omega), ?_⟩
    intro i c0 d0 hi hc0 hd0 hn0
    by_cases hij : i = j
    · subst hij
      rw [hcj] at hc0
      cases hc0
      rw [hd] at hd0
      cases hd0
      exact absurd hfar hn0
    · exact hdone i c0 d0 (by omega) hc0 hd0 hn0
  · refine ⟨?_, ?_⟩
    · intro k hk
      simp only [List.getElem?_set_ne (show j ≠ k by omega)]
      exact hkeep k (by omega)
    · intro i c0 d0 hi hc0 hd0 hn0
      by_cases hij : i = j
      · subst hij
        rw [hcj] at hc0
        cases hc0
        refine ⟨cand, hcand, ?_, ?_⟩
        · simp only [List.getElem?_set_self hjlen]
        · simp only [List.getElem?_set_self (List.getElem?_eq_some.mp hc).1]
      · obtain ⟨cand0, h1, h2, h3⟩ := hdone i c0 d0 (by omega) hc0 hd0 hn0
        refine ⟨cand0, h1, ?_, ?_⟩
        · simp only [List.getElem?_set_ne (show j ≠ i from fun h => hij h.symm)]
          exact h2
        · simp only [List.getElem?_set_ne (show j ≠ i from fun h => hij h.symm)]
          exact h3

end RebindNear

section ContourRebinding

variable {K Model Mesh : Type} {nId nExp : Nat} [LinearOrderedField K] [FloorRing K]

/-- C11. Contour rebinding: in `UpdateContourIndices`, for every one of the first 15
constraints whose nearest candidate projection (position `m`, the first one that minimises the
squared pixel distance to the observed position over all candidates) is at most 100 pixels
away, the constraint afterwards carries the vertex index of candidate `m`, with its observed
position and weight unchanged, and the entry of `indices` holds the same vertex; observed
positions and weights of all constraints, and every constraint at position 15 or more, are
unchanged; on a well-formed configuration the call is defined. -/
theorem contour_rebinding (env : Env K Model Mesh nId nExp)
    (s : SingleImageReconstructor K Model Mesh nId nExp) :
    (∀ s' candidates, UpdateContourIndices env s = some s' →
      contourCandidates env s = some candidates →
      (∀ i c m d, i < num_contour_points → s.params_recon.cons[i]? = some c →
        IsFirstMin ((projectCandidates env s candidates).map (fun pj => pixelDistSq pj c)) m →
        ((projectCandidates env s candidates).map (fun pj => pixelDistSq pj c))[m]? = some d →
        env.lm.sqrt d ≤ min_acceptable_dist →
        ∃ cand, candidates[m]? = some cand ∧
          s'.params_recon.cons[i]? = some { c with vidx := cand.1 } ∧
          s'.indices[i]? = some cand.1) ∧
      s'.params_recon.cons.map (fun c => c.data) = s.params_recon.cons.map (fun c => c.data) ∧
      s'.params_recon.cons.map (fun c => c.weight) =
        s.params_recon.cons.map (fun c => c.weight) ∧
      s'.params_recon.cons.length = s.params_recon.cons.length ∧
      ∀ k, num_contour_points ≤ k → s'.params_recon.cons[k]? = s.params_recon.cons[k]?) ∧
    (WellFormed s → ∃ s', UpdateContourIndices env s = some s') := by
  constructor
  · intro s' candidates h hcand
    obtain ⟨candidates', st', hcand', hloop, rfl⟩ := UpdateContourIndices_eq_some h
    rw [hcand] at hcand'
    cases hcand'
    obtain ⟨_, hlen, hdata, hweight, hkeep⟩ := rebind_loop_frame env.lm candidates
      (projectCandidates env s candidates) s.indices s.params_recon.cons num_contour_points st'
      hloop
    refine ⟨?_, hdata, hweight, hlen, fun k hk => (hkeep k (Or.inl hk)).2⟩
    intro i c m d hi hc hm hd hnear
    have hmm := hm.eq_min_element
    subst hmm
    obtain ⟨cand, h1, h2, h3⟩ := rebind_loop_near env.lm candidates
      (projectCandidates env s candidates) s.indices s.params_recon.cons num_contour_points st'
      hloop i c d hi hc hd (not_lt.mpr hnear)
    exact ⟨cand, h1, h3, h2⟩
  · intro hwf
    exact UpdateContourIndices_total env s hwf.2.2.2.1 hwf.2.2.2.2
      (by simpa [num_contour_points] using hwf.2.2.1)
      (by have := hwf.1; simp only [num_contour_points]; omega)

end ContourRebinding

section ExampleNear

variable {K : Type} [LinearOrderedField K] [FloorRing K]

/-- In the example the only candidate projects to the image centre, at distance `0` from a
constraint observed at `(320, 240)`. -/
theorem example_near (lm : Libm K) (s : SingleImageReconstructor K Unit Unit 1 1)
    (hR : s.params_model.R = ⟨0, 0, 0⟩) (hT : s.params_model.T = ⟨0, 0, -1⟩)
    (hcam : s.params_cam = ⟨⟨1000, 1000⟩, ⟨320, 240⟩, ⟨640, 480⟩⟩) (c : Constraint2D K)
    (hc : c.data = ⟨320, 240⟩) :
    (projectCandidates (exampleEnv lm) s [(0, ⟨0, 0, 0, 1⟩)]).map (fun pj => pixelDistSq pj c) =
      [0] := by
  have hp := example_projection lm
  simp only [projectCandidates, List.map_cons, List.map_nil, hR, hT, hcam, pixelDistSq, hc]
  erw [hp.1, hp.2]
  norm_num

theorem ratLibm_sqrt_zero : ratLibm.sqrt 0 ≤ (min_acceptable_dist : ℚ) := by
  simp [ratLibm, min_acceptable_dist]

end ExampleNear

section ExampleNearShape

variable {K : Type} [LinearOrderedField K]

theorem isFirstMin_singleton (x : K) : IsFirstMin [x] 0 := by
  refine ⟨x, rfl, ?_⟩
  intro i v hv
  cases i with
  | zero =>
    simp only [List.getElem?_cons_zero, Option.some.injEq] at hv
    exact ⟨le_of_eq hv, fun h => absurd h (Nat.lt_irrefl 0)⟩
  | succ i => simp at hv

theorem example_near_wellFormed :
    WellFormed (exampleReconstructor (K := K) nearConstraints (List.replicate 15 7) [[0]]) := by
  simp [WellFormed, exampleReconstructor, nearConstraints]

end ExampleNearShape

section ContourRebindingInstance

/-- Witness for C11: in the example the only candidate (vertex `0`) projects onto the observed
position of constraint `0`, which is rebound from vertex `7` to vertex `0`. -/
theorem contour_rebinding_witness :
    WellFormed (exampleReconstructor (K := ℚ) nearConstraints (List.replicate 15 7) [[0]]) ∧
    ∃ s', UpdateContourIndices (exampleEnv ratLibm)
        (exampleReconstructor nearConstraints (List.replicate 15 7) [[0]]) = some s' ∧
      ∃ cand, [((0 : Int), (⟨0, 0, 0, 1⟩ : Vec4 ℚ))][0]? = some cand ∧
        s'.params_recon.cons[0]? = some { (⟨⟨320, 240⟩, 1, 7⟩ : Constraint2D ℚ) with
          vidx := cand.1 } ∧
        s'.indices[0]? = some cand.1 :=
  ⟨example_near_wellFormed,
   let ⟨s', h⟩ := (contour_rebinding (exampleEnv ratLibm)
     (exampleReconstructor nearConstraints (List.replicate 15 7) [[0]])).2
     example_near_wellFormed
   ⟨s', h, ((contour_rebinding (exampleEnv ratLibm)
     (exampleReconstructor nearConstraints (List.replicate 15 7) [[0]])).1 s'
     [(0, ⟨0, 0, 0, 1⟩)] h (example_candidates ratLibm _ rfl)).1 0 ⟨⟨320, 240⟩, 1, 7⟩ 0 0
     (by decide) rfl
     (by rw [example_near ratLibm _ rfl rfl rfl _ rfl]; exact isFirstMin_singleton 0)
     (by rw [example_near ratLibm _ rfl rfl rfl _ rfl]; rfl)
     ratLibm_sqrt_zero⟩⟩

end ContourRebindingInstance

/-! ## Index safety -/

section MinElementBound

variable {K : Type} [LinearOrderedField K]

/-- On a non-empty vector `std::min_element` returns a position inside the vector. -/
theorem min_element_lt (l : List K) (hne : l ≠ []) : min_element l < l.length :=
  (min_element_spec l hne).lt_length

end MinElementBound

section IndexSafety

variable {K Model Mesh : Type} {nId nExp : Nat} [LinearOrderedField K] [FloorRing K]

/-- C12. Index safety: on a well-formed configuration (at least 35 constraints, no more vertex
indices than constraints, at least 15 vertex indices, at least one contour group, no empty
contour group) `Reconstruct`, `OptimizeForPose`, `OptimizeForExpression`,
`OptimizeForIdentity` and `UpdateContourIndices` are defined, that is, no access by position
into the constraint list, the indices list, a contour group, the candidate list or the
distance list leaves its vector; every contour group yields its candidates, the candidate list
is not empty, there is one projected point and one distance per candidate, and the position of
the smallest distance lies inside the distance list and the candidate list. -/
theorem index_safety (env : Env K Model Mesh nId nExp)
    (s : SingleImageReconstructor K Model Mesh nId nExp) (hwf : WellFormed s) :
    (∃ r, Reconstruct env s = some (true, r)) ∧
    (∀ max_iters, ∃ s', OptimizeForPose env max_iters s = some s') ∧
    (∀ iteration, ∃ s', OptimizeForExpression env iteration s = some s') ∧
    (∀ iteration, ∃ s', OptimizeForIdentity env iteration s = some s') ∧
    (∃ s', UpdateContourIndices env s = some s') ∧
    (∀ g ∈ s.contour_indices, ∃ added, groupCandidates env s.mesh
      (glm.eulerAngleYXZ env.lm s.params_model.R.x s.params_model.R.y s.params_model.R.z) g =
        some added) ∧
    (∃ candidates, contourCandidates env s = some candidates ∧ candidates ≠ [] ∧
      (projectCandidates env s candidates).length = candidates.length ∧
      ∀ c : Constraint2D K,
        ((projectCandidates env s candidates).map (fun pj => pixelDistSq pj c)).length =
          candidates.length ∧
        min_element ((projectCandidates env s candidates).map (fun pj => pixelDistSq pj c)) <
          candidates.length) := by
  have h35 := hwf.1
  have hlen := hwf.2.1
  have h15 := hwf.2.2.1
  have hne := hwf.2.2.2.1
  have hg := hwf.2.2.2.2
  refine ⟨Reconstruct_total env s hwf, fun n => OptimizeForPose_total env n s hlen,
    fun n => OptimizeForExpression_total env n s hlen h35,
    fun n => OptimizeForIdentity_total env n s hlen h35,
    UpdateContourIndices_total env s hne hg (by simpa [num_contour_points] using h15)
      (by simp only [num_contour_points]; omega), ?_, ?_⟩
  · intro g hmem
    obtain ⟨v, _, h⟩ := groupCandidates_eq env s.mesh s.params_model.R.x s.params_model.R.y
      s.params_model.R.z g (hg g hmem)
    exact ⟨_, h⟩
  · obtain ⟨candidates, hc, hcne⟩ := contourCandidates_total env s hne hg
    refine ⟨candidates, hc, hcne, by simp [projectCandidates], ?_⟩
    intro c
    have hl : ((projectCandidates env s candidates).map (fun pj => pixelDistSq pj c)).length =
        candidates.length := by simp [projectCandidates]
    refine ⟨hl, ?_⟩
    rw [← hl]
    apply min_element_lt
    intro hnil
    rw [hnil] at hl
    exact hcne (List.length_eq_zero.mp hl.symm)

/-- Witness for C12: the example configuration is well formed, so the run and the contour
update on it are defined. -/
theorem index_safety_witness :
    WellFormed (exampleReconstructor (K := ℚ) farConstraints (List.replicate 15 0) [[0]]) ∧
    (∃ r, Reconstruct (exampleEnv ratLibm)
      (exampleReconstructor farConstraints (List.replicate 15 0) [[0]]) = some (true, r)) ∧
    ∃ s', UpdateContourIndices (exampleEnv ratLibm)
      (exampleReconstructor farConstraints (List.replicate 15 0) [[0]]) = some s' :=
  ⟨example_wellFormed,
   (index_safety (exampleEnv ratLibm)
     (exampleReconstructor farConstraints (List.replicate 15 0) [[0]]) example_wellFormed).1,
   (index_safety (exampleEnv ratLibm)
     (exampleReconstructor farConstraints (List.replicate 15 0) [[0]])
     example_wellFormed).2.2.2.2.1⟩

end IndexSafety

end MultilinearReconstruction
